import Mathlib

/-!
# Bed and member assignment backend

A shallow embedding of the route handlers of `src/routes/beds.js` and
`src/routes/members.js` (and the store write of `src/routes/health.js`) as pure
functions on an explicit store, followed by theorems about them.

The store holds the two relational tables `beds` and `members`, each keyed by its
`id` column.  Every handler takes a fault oracle saying which of its database
calls throws, so that the `catch` branches (rollback, answer 500) are part of
the model.
-/

namespace Backend

/-! ## Data model -/

/-- Row identifier.  The `id` columns are filled from `result.insertId`, the
AUTO_INCREMENT key of the table, which starts at 1; with positive ids the
JavaScript test `!x` on an id is exactly the test for NULL or undefined. -/
abbrev Id := ℕ+

/-- One row of table `beds`, without its key. -/
structure BedRow where
  bed_number : Option String
  building : Option String
  floor : Option String
  room_number : Option String
  status : Option String
  description : Option String
  current_member_id : Option Id
deriving DecidableEq, Repr

/-- Columns of table `members` other than the key and `bed_id`, in the order of
the INSERT of `POST /members`. -/
structure MemberCols where
  name : Option String
  gender : Option String
  age : Option Nat
  id_card : Option String
  phone : Option String
  emergency_contact : Option String
  emergency_phone : Option String
  care_level : Option String
  status : Option String
  responsibility_worker : Option String
  health_status : Option String
  health_detail : Option String
deriving DecidableEq, Repr

/-- One row of table `members`, without its key. -/
structure MemberRow extends MemberCols where
  bed_id : Option Id
deriving DecidableEq, Repr

/-- Persisted state: both tables as finite maps from the primary key, and the
next AUTO_INCREMENT value of each. -/
structure Store where
  beds : Id → Option BedRow
  members : Id → Option MemberRow
  nextBedId : Id
  nextMemberId : Id

/-- Store with no rows, counters at 1. -/
def Store.empty : Store :=
  { beds := fun _ => none, members := fun _ => none, nextBedId := 1, nextMemberId := 1 }

/-- Response envelope: the fields `code` and `message` of the JSON answer. -/
structure Resp where
  code : Nat
  message : String
deriving DecidableEq, Repr

/-- Fault oracle of one handler run: `fault n` tells whether the n-th database
call of the handler, counted in source order, throws. -/
abbrev Fault := Nat → Bool

/-- Run in which every database call succeeds. -/
def noFault : Fault := fun _ => false

/-! ## SQL statements -/

/-- Statement `UPDATE beds SET ... WHERE id = ?`: rewrites the row with that key, if any. -/
def Store.setBed (s : Store) (id : Id) (g : BedRow → BedRow) : Store :=
  { s with beds := fun i => if i = id then (s.beds i).map g else s.beds i }

/-- Statement `UPDATE members SET ... WHERE id = ?`. -/
def Store.setMember (s : Store) (id : Id) (g : MemberRow → MemberRow) : Store :=
  { s with members := fun i => if i = id then (s.members i).map g else s.members i }

/-- Statement `DELETE FROM beds WHERE id = ?`. -/
def Store.dropBed (s : Store) (id : Id) : Store :=
  { s with beds := fun i => if i = id then none else s.beds i }

/-- Statement `DELETE FROM members WHERE id = ?`. -/
def Store.dropMember (s : Store) (id : Id) : Store :=
  { s with members := fun i => if i = id then none else s.members i }

/-- Column assignment `status = 'available', current_member_id = NULL`. -/
def releaseBed (b : BedRow) : BedRow :=
  { b with status := some "available", current_member_id := none }

/-- Column assignment `status = 'occupied', current_member_id = ?`. -/
def occupyBed (member_id : Id) (b : BedRow) : BedRow :=
  { b with status := some "occupied", current_member_id := some member_id }

/-- Column assignment `bed_id = ?` on a member row (NULL when `none`). -/
def setBedId (v : Option Id) (m : MemberRow) : MemberRow :=
  { m with bed_id := v }

/-- JavaScript truthiness of a nullable string: neither NULL nor empty. -/
def truthyStr : Option String → Bool
  | some t => t != ""
  | none => false

/-- JavaScript truthiness of a nullable number: neither NULL nor 0. -/
def truthyNat : Option Nat → Bool
  | some n => n != 0
  | none => false

/-! ## Handlers of `routes/beds.js` -/

/-- Answer of the outer `catch` of a handler. -/
def serverError : Resp := ⟨500, "服务器内部错误"⟩

/-- Handler `POST /beds`: inserts a row with the six request fields; the occupant
column is not listed in the INSERT and is NULL.  Database call 1 is the INSERT. -/
def createBed (fault : Fault) (s : Store)
    (bed_number building floor room_number status description : Option String) : Resp × Store :=
  if fault 1 then (serverError, s)
  else
    (⟨201, "床位创建成功"⟩,
      { s with
        beds := fun i =>
          if i = s.nextBedId then
            some ⟨bed_number, building, floor, room_number, status, description, none⟩
          else s.beds i
        nextBedId := s.nextBedId + 1 })

/-- Handler `PUT /beds/:id`: overwrites the six request fields of the row, the
status among them, and leaves `current_member_id` alone.  Call 1 is the UPDATE. -/
def putBed (fault : Fault) (s : Store) (id : Id)
    (bed_number building floor room_number status description : Option String) : Resp × Store :=
  if fault 1 then (serverError, s)
  else
    (⟨200, "床位更新成功"⟩,
      s.setBed id fun b =>
        { b with bed_number := bed_number, building := building, floor := floor,
                 room_number := room_number, status := status, description := description })

/-- Step 3 of `POST /beds/assign`: when the member row carries a bed id, that bed
is read (call 3) and, if it exists and records this member as occupant, it is
released by a statement issued on the pool, outside any transaction (call 4).
The result is `none` when one of the two calls throws. -/
def assignRelease (fault : Fault) (s : Store) (member_id : Id) (old : Option Id) : Option Store :=
  match old with
  | none => some s
  | some oldBedId =>
    if fault 3 then none
    else
      match s.beds oldBedId with
      | none => some s
      | some oldBed =>
        if oldBed.current_member_id = some member_id then
          if fault 4 then none else some (s.setBed oldBedId releaseBed)
        else some s

/-- Steps 4 to 9 of `POST /beds/assign`: the transaction.  Calls 5 and 6 are
`getConnection` and `beginTransaction`, 7 and 8 the two UPDATEs, 9 the commit.
When a call throws, the rollback leaves the store as it was when the transaction
began. -/
def assignTransaction (fault : Fault) (s : Store) (member_id bed_id : Id) : Resp × Store :=
  if fault 5 || fault 6 then (serverError, s)
  else if fault 7 then (serverError, s)
  else
    let s1 := s.setBed bed_id (occupyBed member_id)
    if fault 8 then (serverError, s)
    else
      let s2 := s1.setMember member_id (setBedId (some bed_id))
      if fault 9 then (serverError, s)
      else (⟨200, "床位分配成功"⟩, s2)

/-- Handler `POST /beds/assign`.  Calls 1 and 2 are the SELECTs of the bed and
of the member. -/
def assign (fault : Fault) (s : Store) (member_id bed_id : Option Id) : Resp × Store :=
  match member_id, bed_id with
  | some mid, some bid =>
    if fault 1 then (serverError, s)
    else
      match s.beds bid with
      | none => (⟨404, "床位不存在"⟩, s)
      | some bed =>
        if bed.status ≠ some "available" then (⟨400, "床位不可用"⟩, s)
        else if fault 2 then (serverError, s)
        else
          match s.members mid with
          | none => (⟨404, "老人信息不存在"⟩, s)
          | some member =>
            match assignRelease fault s mid member.bed_id with
            | none => (serverError, s)
            | some s1 => assignTransaction fault s1 mid bid
  | _, _ => (⟨400, "缺少必要参数"⟩, s)

/-- Handler `POST /beds/:id/unassign`.  Call 1 is the SELECT; calls 2 to 6 are
`getConnection`, `beginTransaction`, the two UPDATEs and the commit, rolled back
as a whole when one of them throws. -/
def unassign (fault : Fault) (s : Store) (id : Id) : Resp × Store :=
  if fault 1 then (serverError, s)
  else
    match s.beds id with
    | none => (⟨404, "床位不存在"⟩, s)
    | some bed =>
      match bed.current_member_id with
      | none => (⟨200, "床位未分配，无需取消"⟩, s)
      | some memberId =>
        if fault 2 || fault 3 || fault 4 || fault 5 || fault 6 then (serverError, s)
        else
          (⟨200, "床位分配已取消"⟩,
            (s.setBed id releaseBed).setMember memberId (setBedId none))

/-- Handler body of `DELETE /beds/:id` (behind the admin guard).  Calls, all in
one transaction: 1 `beginTransaction`, 2 the SELECT, 3 the UPDATE of the
occupant (only when the bed has one), 4 the DELETE, 5 the commit. -/
def deleteBed (fault : Fault) (s : Store) (id : Id) : Resp × Store :=
  if fault 1 || fault 2 then (serverError, s)
  else
    let cleared : Option Store :=
      match s.beds id with
      | none => some s
      | some bed =>
        match bed.current_member_id with
        | none => some s
        | some occupant =>
          if fault 3 then none else some (s.setMember occupant (setBedId none))
    match cleared with
    | none => (serverError, s)
    | some s1 =>
      if fault 4 || fault 5 then (serverError, s)
      else (⟨200, "床位删除成功"⟩, s1.dropBed id)

/-! ## Handlers of `routes/members.js` and `routes/health.js` -/

/-- Handler `POST /members`.  The column values of the INSERT are computed from
the request body (label tables, health input) and are taken here as `cols`;
`name` and `age` pass from the body unchanged and are required.  The INSERT
(call 1) does not list `bed_id`, which is NULL in the new row. -/
def createMember (fault : Fault) (s : Store) (cols : MemberCols) : Resp × Store :=
  if !truthyStr cols.name || !truthyNat cols.age then (⟨400, "缺少必要字段(姓名、年龄)"⟩, s)
  else if fault 1 then (serverError, s)
  else
    (⟨201, "老人信息创建成功"⟩,
      { s with
        members := fun i => if i = s.nextMemberId then some ⟨cols, none⟩ else s.members i
        nextMemberId := s.nextMemberId + 1 })

/-- Handler `PUT /members/:id`.  Call 1 reads the current row, call 2 is the
UPDATE, call 3 reads the row back; there is no transaction.  The object
`updateData` is built from the current row and the request body and holds no
`bed_id` key; it is taken here as the function `updateData` of the current
row. -/
def putMember (fault : Fault) (s : Store) (id : Id) (updateData : MemberRow → MemberCols) :
    Resp × Store :=
  if fault 1 then (serverError, s)
  else
    match s.members id with
    | none => (⟨404, "未找到该老人"⟩, s)
    | some current =>
      if fault 2 then (serverError, s)
      else
        let s1 := s.setMember id fun m => { m with toMemberCols := updateData current }
        if fault 3 then (serverError, s1)
        else (⟨200, "老人信息更新成功"⟩, s1)

/-- Handler body of `DELETE /members/:id` (behind the admin guard).  Calls, all
in one transaction: 1 `beginTransaction`, 2 the SELECT, 3 the UPDATE of the bed
(only when the member has one), 4 the DELETE, 5 the commit. -/
def deleteMember (fault : Fault) (s : Store) (id : Id) : Resp × Store :=
  if fault 1 || fault 2 then (serverError, s)
  else
    let released : Option Store :=
      match s.members id with
      | none => some s
      | some member =>
        match member.bed_id with
        | none => some s
        | some bedId =>
          if fault 3 then none else some (s.setBed bedId releaseBed)
    match released with
    | none => (serverError, s)
    | some s1 =>
      if fault 4 || fault 5 then (serverError, s)
      else (⟨200, "老人信息删除成功"⟩, s1.dropMember id)

/-- Row of `SELECT m.*, b.bed_number, b.building, b.floor, b.room_number FROM
members m LEFT JOIN beds b ON m.bed_id = b.id WHERE m.id = ?`. -/
structure MemberView where
  id : Id
  row : MemberRow
  bed_number : Option String
  building : Option String
  floor : Option String
  room_number : Option String
deriving DecidableEq, Repr

/-- The LEFT JOIN of a member row with its bed: NULL bed columns when `bed_id` is
NULL or names no row. -/
def joinBed (s : Store) (id : Id) (m : MemberRow) : MemberView :=
  match m.bed_id.bind s.beds with
  | some b => ⟨id, m, b.bed_number, b.building, b.floor, b.room_number⟩
  | none => ⟨id, m, none, none, none, none⟩

/-- The member object with all bed fields set to null. -/
def MemberView.clearBed (v : MemberView) : MemberView :=
  { v with row := setBedId none v.row, bed_number := none, building := none,
           floor := none, room_number := none }

/-- Outcome of `GET /members/:id` before presentation: the answer code, the
`member` object after the consistency block, and the store. -/
structure GetMemberResult where
  resp : Resp
  member : Option MemberView
  store : Store

/-- Handler `GET /members/:id` up to the consistency block.  Call 1 is the joined
SELECT, call 2 the SELECT of the occupant of the bed, call 3 the repairing
UPDATE, issued on the pool. -/
def getMember (fault : Fault) (s : Store) (id : Id) : GetMemberResult :=
  if fault 1 then ⟨serverError, none, s⟩
  else
    match s.members id with
    | none => ⟨⟨404, "未找到该老人信息"⟩, none, s⟩
    | some m =>
      let member := joinBed s id m
      match m.bed_id with
      | none =>
        ⟨⟨200, ""⟩, some { member with bed_number := none, building := none,
                                        floor := none, room_number := none }, s⟩
      | some bedId =>
        if fault 2 then ⟨serverError, none, s⟩
        else if (s.beds bedId).bind (fun b => b.current_member_id) ≠ some id then
          if fault 3 then ⟨serverError, none, s⟩
          else ⟨⟨200, ""⟩, some member.clearBed, s.setMember id (setBedId none)⟩
        else ⟨⟨200, ""⟩, some member, s⟩

/-- Handler `POST /health/monitor`, its store write.  The text `healthStatusValue`
is what the handler computes from the health input of the request (NULL when
there is none); `health_detail` is `none` when the request leaves it undefined.
The only database call is the UPDATE, issued when some column is to be
written. -/
def postMonitor (fault : Fault) (s : Store) (member_id : Option Id)
    (responsibility_worker healthStatusValue : Option String)
    (health_detail : Option (Option String)) : Resp × Store :=
  match member_id with
  | none => (⟨400, "缺少老人ID参数"⟩, s)
  | some mid =>
    if truthyStr responsibility_worker || truthyStr healthStatusValue || health_detail.isSome then
      if fault 1 then (serverError, s)
      else
        (⟨201, "健康数据添加成功"⟩,
          s.setMember mid fun m =>
            { m with
              responsibility_worker :=
                if truthyStr responsibility_worker then responsibility_worker
                else m.responsibility_worker
              health_status :=
                if truthyStr healthStatusValue then healthStatusValue else m.health_status
              health_detail :=
                match health_detail with
                | some d => d
                | none => m.health_detail })
    else (⟨201, "健康数据添加成功"⟩, s)

/-! ## Runs of the API -/

/-- One request to a store-changing route, with everything the handler reads from
it. -/
inductive Op where
  | createBed (bed_number building floor room_number status description : Option String)
  | putBed (id : Id) (bed_number building floor room_number status description : Option String)
  | assign (member_id bed_id : Option Id)
  | unassign (id : Id)
  | deleteBed (id : Id)
  | createMember (cols : MemberCols)
  | putMember (id : Id) (updateData : MemberRow → MemberCols)
  | deleteMember (id : Id)
  | getMember (id : Id)
  | postMonitor (member_id : Option Id) (responsibility_worker healthStatusValue : Option String)
      (health_detail : Option (Option String))

/-- Store left by one request. -/
def step (fault : Fault) (s : Store) : Op → Store
  | .createBed a b c d e g => (createBed fault s a b c d e g).2
  | .putBed id a b c d e g => (putBed fault s id a b c d e g).2
  | .assign m b => (assign fault s m b).2
  | .unassign id => (unassign fault s id).2
  | .deleteBed id => (deleteBed fault s id).2
  | .createMember cols => (createMember fault s cols).2
  | .putMember id u => (putMember fault s id u).2
  | .deleteMember id => (deleteMember fault s id).2
  | .getMember id => (getMember fault s id).store
  | .postMonitor m w h d => (postMonitor fault s m w h d).2

/-- Store left by a sequence of requests, each with its own fault oracle. -/
def run (s : Store) : List (Fault × Op) → Store
  | [] => s
  | (fault, op) :: rest => run (step fault s op) rest

/-! ## Invariants -/

/-- Status invariant: a bed has status occupied iff its occupant is set. -/
def StatusInv (s : Store) : Prop :=
  ∀ (B : Id) (bed : BedRow), s.beds B = some bed →
    (bed.status = some "occupied" ↔ bed.current_member_id ≠ none)

/-- Bidirectional invariant on the pairs of rows: for every bed row B and member
row M of the store, B records M as occupant iff M records B as assigned bed.
References to keys without a row are the matter of `RefInv`; `Linked` is the two
together. -/
def LinkInv (s : Store) : Prop :=
  ∀ (B M : Id) (bed : BedRow) (member : MemberRow),
    s.beds B = some bed → s.members M = some member →
      (bed.current_member_id = some M ↔ member.bed_id = some B)


/-- Every reference names a row: the occupant of a bed has a member row, and the
assigned bed of a member has a bed row. -/
def RefInv (s : Store) : Prop :=
  (∀ (B M : Id) (bed : BedRow), s.beds B = some bed → bed.current_member_id = some M →
    s.members M ≠ none) ∧
  (∀ (M B : Id) (member : MemberRow), s.members M = some member → member.bed_id = some B →
    s.beds B ≠ none)

/-- Bidirectional invariant in full: bed B is a row with occupant M iff member M
is a row with assigned bed B.  A reference to a key without row breaks it. -/
def Linked (s : Store) : Prop :=
  ∀ B M : Id, (∃ bed, s.beds B = some bed ∧ bed.current_member_id = some M) ↔
    (∃ member, s.members M = some member ∧ member.bed_id = some B)

/-! ## Auxiliary predicates -/

/-- Every bed row of the store satisfies `P`. -/
def BedsSat (P : BedRow → Prop) (s : Store) : Prop :=
  ∀ (B : Id) (bed : BedRow), s.beds B = some bed → P bed

/-- A bed whose status is available has no occupant: the half of the status
invariant that `assign` relies on. -/
def AvailFree (s : Store) : Prop :=
  BedsSat (fun bed => bed.status = some "available" → bed.current_member_id = none) s

/-- The bidirectional invariant for all members but one. -/
def LinkInvExcept (s : Store) (M : Id) : Prop :=
  ∀ (B X : Id) (bed : BedRow) (member : MemberRow), X ≠ M →
    s.beds B = some bed → s.members X = some member →
      (bed.current_member_id = some X ↔ member.bed_id = some B)

/-- No bed records the member as occupant. -/
def NoOccupant (s : Store) (M : Id) : Prop :=
  ∀ (B : Id) (bed : BedRow), s.beds B = some bed → bed.current_member_id ≠ some M

/-! ## Sample data -/

/-- A bed row with the given status and occupant. -/
def sampleBed (status : String) (occupant : Option Id) : BedRow :=
  ⟨some "1", some "A", some "1", some "101", some status, none, occupant⟩

/-- Member columns with the given name. -/
def sampleCols (name : String) : MemberCols :=
  ⟨some name, some "male", some 80, none, none, none, none, some "self-care", some "active",
    none, none, none⟩

/-- Store with member 1 on bed 1, bed 2 available and member 2 without a bed. -/
def sampleStore : Store :=
  { beds := fun i =>
      if i = 1 then some (sampleBed "occupied" (some 1))
      else if i = 2 then some (sampleBed "available" none)
      else none
    members := fun i =>
      if i = 1 then some ⟨sampleCols "m1", some 1⟩
      else if i = 2 then some ⟨sampleCols "m2", none⟩
      else none
    nextBedId := 3
    nextMemberId := 3 }

/-- Fault oracle in which exactly the n-th database call throws. -/
def faultAt (n : Nat) : Fault := fun k => k == n

/-! ## Runs that keep the invariants -/

/-- The counters are ahead of every key and of every reference. -/
def Fresh (s : Store) : Prop :=
  (∀ (B : Id) (bed : BedRow), s.beds B = some bed →
    B < s.nextBedId ∧ ∀ M, bed.current_member_id = some M → M < s.nextMemberId) ∧
  (∀ (M : Id) (member : MemberRow), s.members M = some member →
    M < s.nextMemberId ∧ ∀ B, member.bed_id = some B → B < s.nextBedId)

/-- Store `t` has the counters of `s`, every row of `t` stands at a key that has a
row in `s`, and every reference of `t` is the reference of `s` at that row or
names a row of `s`. -/
def Shrinks (s t : Store) : Prop :=
  t.nextBedId = s.nextBedId ∧ t.nextMemberId = s.nextMemberId ∧
  (∀ (B : Id) (bed1 : BedRow), t.beds B = some bed1 → ∃ bed, s.beds B = some bed ∧
    (bed1.current_member_id = bed.current_member_id ∨
      ∀ M, bed1.current_member_id = some M → s.members M ≠ none)) ∧
  (∀ (M : Id) (member1 : MemberRow), t.members M = some member1 →
    ∃ member, s.members M = some member ∧
      (member1.bed_id = member.bed_id ∨
        ∀ B, member1.bed_id = some B → s.beds B ≠ none))

/-- Requests after which the links stay consistent: an update of a bed does not
give status available to a bed that has an occupant, and an assign is not
answered 500. -/
def linkSafe (s : Store) (fault : Fault) : Op → Bool
  | .putBed id _ _ _ _ status _ =>
    decide (status = some "available" →
      (s.beds id).bind (fun b => b.current_member_id) = none)
  | .assign m b => decide ((assign fault s m b).1.code ≠ 500)
  | _ => true

/-- Requests after which the status invariant stays: a bed is not created with
status occupied, and an update gives status occupied to a bed exactly when it has
an occupant. -/
def statusSafe (s : Store) (_fault : Fault) : Op → Bool
  | .createBed _ _ _ _ status _ => decide (status ≠ some "occupied")
  | .putBed id _ _ _ _ status _ =>
    match s.beds id with
    | none => true
    | some bed => decide (status = some "occupied" ↔ bed.current_member_id ≠ none)
  | _ => true

/-- Invariant of the runs in which every request is `linkSafe`: consistent
links, available beds free, counters ahead. -/
def Good (s : Store) : Prop := LinkInv s ∧ AvailFree s ∧ Fresh s

/-- Every request of the run passes the test `safe` in the store it meets. -/
def runOk (safe : Store → Fault → Op → Bool) : Store → List (Fault × Op) → Bool
  | _, [] => true
  | s, (fault, op) :: rest => safe s fault op && runOk safe (step fault s op) rest

/-- Run: a bed is created and member 1 assigned to it; the bed is then updated
with status available, and member 2 is assigned to it. -/
def overbookRun : List (Fault × Op) :=
  [(noFault, .createBed (some "1") (some "A") (some "1") (some "101") (some "available") none),
   (noFault, .createMember (sampleCols "m1")),
   (noFault, .createMember (sampleCols "m2")),
   (noFault, .assign (some 1) (some 1)),
   (noFault, .putBed 1 (some "1") (some "A") (some "1") (some "101") (some "available") none),
   (noFault, .assign (some 2) (some 1))]

/-- Run: a bed is created with status occupied. -/
def createOccupiedRun : List (Fault × Op) :=
  [(noFault, .createBed (some "1") (some "A") (some "1") (some "101") (some "occupied") none)]

/-- Run: a bed is created, a member assigned to it, and the bed updated with
status maintenance. -/
def maintenanceRun : List (Fault × Op) :=
  [(noFault, .createBed (some "1") (some "A") (some "1") (some "101") (some "available") none),
   (noFault, .createMember (sampleCols "m1")),
   (noFault, .assign (some 1) (some 1)),
   (noFault, .putBed 1 (some "1") (some "A") (some "1") (some "101") (some "maintenance") none)]

/-- Run through every route: two beds and two members are created, member 1 is
assigned, moved, read and updated, bed 2 is unassigned, and one bed and one
member are deleted. -/
def tourRun : List (Fault × Op) :=
  [(noFault, .createBed (some "1") (some "A") (some "1") (some "101") (some "available") none),
   (noFault, .createBed (some "2") (some "A") (some "1") (some "101") (some "available") none),
   (noFault, .createMember (sampleCols "m1")),
   (noFault, .createMember (sampleCols "m2")),
   (noFault, .assign (some 1) (some 1)),
   (noFault, .assign (some 1) (some 2)),
   (noFault, .putBed 1 (some "1") (some "B") (some "2") (some "201") (some "available") none),
   (noFault, .getMember 1),
   (noFault, .putMember 1 (fun m => { m.toMemberCols with name := some "n1" })),
   (noFault, .postMonitor (some 1) none (some "[]") none),
   (noFault, .assign (some 2) (some 1)),
   (noFault, .unassign 2),
   (noFault, .deleteBed 2),
   (noFault, .deleteMember 2)]

/-! ## Presentation of a member -/

/-- Text of a nullable column inside a template literal. -/
def templ : Option String → String
  | some t => t
  | none => "null"

/-- Field `bed_info` of the answer of `GET /members/:id`: the four bed columns
joined by dashes when `bed_number` is truthy, the text for unassigned
otherwise. -/
def bedInfo (v : MemberView) : String :=
  if truthyStr v.bed_number then
    templ v.building ++ "-" ++ templ v.floor ++ "-" ++ templ v.room_number ++ "-" ++
      templ v.bed_number
  else "未分配"

/-- Corrupted store: beds 1 and 2 both record member 1, who records bed 1. -/
def staleStore : Store :=
  { beds := fun i =>
      if i = 1 then some (sampleBed "occupied" (some 1))
      else if i = 2 then some (sampleBed "occupied" (some 1))
      else none
    members := fun i => if i = 1 then some ⟨sampleCols "m1", some 1⟩ else none
    nextBedId := 3
    nextMemberId := 2 }

/-- Corrupted store: bed 1 records member 1, who has no row. -/
def danglingStore : Store :=
  { beds := fun i => if i = 1 then some (sampleBed "occupied" (some 1)) else none
    members := fun _ => none
    nextBedId := 2
    nextMemberId := 2 }

/-- Corrupted store: member 1 records bed 1, which records member 2. -/
def brokenStore : Store :=
  { beds := fun i => if i = 1 then some (sampleBed "occupied" (some 2)) else none
    members := fun i =>
      if i = 1 then some ⟨sampleCols "m1", some 1⟩
      else if i = 2 then some ⟨sampleCols "m2", some 1⟩
      else none
    nextBedId := 2
    nextMemberId := 3 }

/-! ## JavaScript values -/

/-- A value of the request body or of `JSON.parse`.  A number is held as the text
that `String(n)` gives for it. -/
inductive JsVal where
  | undefined
  | null
  | bool (b : Bool)
  | num (text : String)
  | str (s : String)
  | arr (items : List JsVal)
  | obj (fields : List (String × JsVal))
deriving Repr

namespace JsVal

/-- Truthiness: `undefined`, `null`, `false`, `0`, `NaN` and the empty string
are falsy. -/
def truthy : JsVal → Bool
  | undefined => false
  | null => false
  | bool b => b
  | num t => t != "0" && t != "NaN"
  | str s => s != ""
  | arr _ => true
  | obj _ => true

/-- Test `typeof v === 'string'`. -/
def isString : JsVal → Bool
  | str _ => true
  | _ => false

/-- Test `typeof v === 'object'`, which holds of `null`, arrays and objects. -/
def isObject : JsVal → Bool
  | null => true
  | arr _ => true
  | obj _ => true
  | _ => false

/-- Property read `v.key` for a key that is no array index: a TypeError (`none`)
on `undefined` and `null`, `undefined` on the other values without that key. -/
def get (v : JsVal) (key : String) : Option JsVal :=
  match v with
  | undefined => none
  | null => none
  | obj fields => some ((fields.lookup key).getD undefined)
  | _ => some undefined

/-- Own enumerable properties copied by the spread `{...v}`. -/
def spread : JsVal → List (String × JsVal)
  | obj fields => fields
  | arr items => items.enum.map fun p => (toString p.1, p.2)
  | str s => s.data.enum.map fun p => (toString p.1, str (String.singleton p.2))
  | _ => []

/-- The object has an own property `toString`.  No value of a request body or of
`JSON.parse` is a function, so this property hides the inherited method and
the conversion of the object to a string finds nothing to call. -/
def hidesToString (fields : List (String × JsVal)) : Bool :=
  fields.any fun p => p.1 == "toString"

mutual
/-- Conversion `String(v)`, `none` when it throws a TypeError: an object gives
"[object Object]" through the inherited `toString`, unless an own property
`toString` hides it; an array is joined by commas. -/
def toStr : JsVal → Option String
  | undefined => some "undefined"
  | null => some "null"
  | bool b => some (if b then "true" else "false")
  | num t => some t
  | str s => some s
  | arr items => joinStr "," items
  | obj fields => if hidesToString fields then none else some "[object Object]"
/-- Text of `items.join(sep)`, `none` when the conversion of an element throws. -/
def joinStr (sep : String) : List JsVal → Option String
  | [] => some ""
  | [x] => elemStr x
  | x :: y :: rest =>
    match elemStr x, joinStr sep (y :: rest) with
    | some a, some b => some (a ++ sep ++ b)
    | _, _ => none
/-- Text of one element inside `join`: empty for `undefined` and `null`, the
conversion to a string for the others. -/
def elemStr : JsVal → Option String
  | undefined => some ""
  | null => some ""
  | bool b => some (if b then "true" else "false")
  | num t => some t
  | str s => some s
  | arr items => joinStr "," items
  | obj fields => if hidesToString fields then none else some "[object Object]"
end

/-- Value of `a || b`. -/
def orElse (a b : JsVal) : JsVal := if a.truthy then a else b

/-- Value of `a || String(v)`, where `text` is the outcome of `String(v)`: the
conversion runs, and can throw, only when `a` is falsy. -/
def orStr (a : JsVal) (text : Option String) : Option JsVal :=
  if a.truthy then some a else text.map str

end JsVal

/-- Object literal `{...fields, key: v}`: the key keeps its place when it is
there, else it comes last. -/
def setField (fields : List (String × JsVal)) (key : String) (v : JsVal) :
    List (String × JsVal) :=
  if fields.any (fun p => p.1 == key) then
    fields.map fun p => if p.1 = key then (key, v) else p
  else fields ++ [(key, v)]

/-- Segments of `s.split(sep)` on lists of characters. -/
def splitChars (sep : Char) : List Char → List (List Char)
  | [] => [[]]
  | c :: cs =>
    match splitChars sep cs with
    | [] => [[]]
    | seg :: segs => if c = sep then [] :: seg :: segs else (c :: seg) :: segs

/-- Method `s.split(',')`. -/
def jsSplit (s : String) : List String :=
  (splitChars ',' s.data).map String.mk

/-- White space and line terminators of ECMAScript, which `trim` removes. -/
def jsWhitespace (c : Char) : Bool :=
  [9, 10, 11, 12, 13, 32, 160, 5760, 8232, 8233, 8239, 8287, 12288, 65279].contains c.toNat ||
    (8192 ≤ c.toNat && c.toNat ≤ 8202)

/-- Method `s.trim()`. -/
def jsTrim (s : String) : String :=
  String.mk ((s.data.dropWhile jsWhitespace).reverse.dropWhile jsWhitespace).reverse

/-! ## Health input normalisation -/

/-- Source of the random part of generated identifiers: `mint k` is what the k-th
evaluation of the identifier template yields after the `hc-`. -/
abbrev Mint := Nat → String

/-- Template literal of a generated identifier, at its k-th evaluation. -/
def mintId (mint : Mint) (k : Nat) : JsVal := .str ("hc-" ++ mint k)

/-- Object literal `{id, name, severity}`. -/
def condition (id name severity : JsVal) : JsVal :=
  .obj [("id", id), ("name", name), ("severity", severity)]

/-- Object literal `{...item, id}`. -/
def withId (item id : JsVal) : JsVal := .obj (setField item.spread "id" id)

/-- Callback of `map` over an array given directly as `health_conditions`
(health.js 138-157, members.js 449-468, the same text).  The result holds the
mapped element, `none` when the callback throws, and the number of identifiers
generated so far.  In the object literal the identifier is generated before
`item.name || String(item)` is evaluated. -/
def directItem (mint : Mint) (k : Nat) (item : JsVal) : Option JsVal × Nat :=
  if item.isString then (some (condition (mintId mint k) item (.str "moderate")), k + 1)
  else if item.isObject then
    match item.get "id", item.get "name", item.get "severity" with
    | some id, some name, some severity =>
      if !id.truthy then
        match name.orStr item.toStr with
        | some name1 =>
          (some (condition (mintId mint k) name1 (severity.orElse (.str "moderate"))), k + 1)
        | none => (none, k + 1)
      else (some item, k)
    | _, _, _ => (none, k)
  else (some item, k)

/-- Callback of `map` over an array parsed from a string (health.js 163-179 and
208-223, members.js 474-490 and 515-530, the same text). -/
def parsedItem (mint : Mint) (k : Nat) (item : JsVal) : Option JsVal × Nat :=
  if item.isString then (some (condition (mintId mint k) item (.str "moderate")), k + 1)
  else
    match item.get "id" with
    | none => (none, k)
    | some id =>
      if !id.truthy then (some (withId item (mintId mint k)), k + 1)
      else (some item, k)

/-- Callback of `map` in the read path of `GET /health/monitor` (health.js
30-45). -/
def readItem (mint : Mint) (k : Nat) (item : JsVal) : Option JsVal × Nat :=
  if item.isObject then
    match item.get "id" with
    | none => (none, k)
    | some id =>
      if !id.truthy then (some (withId item (mintId mint k)), k + 1)
      else if item.isString then
        (some (condition (mintId mint k) item (.str "moderate")), k + 1)
      else (some item, k)
  else if item.isString then (some (condition (mintId mint k) item (.str "moderate")), k + 1)
  else (some item, k)

/-- Method `items.map(f)` for a callback that may throw and that generates
identifiers. -/
def mapItems (f : Nat → JsVal → Option JsVal × Nat) (k : Nat) :
    List JsVal → Option (List JsVal) × Nat
  | [] => (some [], k)
  | x :: xs =>
    match f k x with
    | (none, k1) => (none, k1)
    | (some y, k1) =>
      match mapItems f k1 xs with
      | (none, k2) => (none, k2)
      | (some ys, k2) => (some (y :: ys), k2)

/-- Branch for a parsed single object: `const id = parsed.id || <template>` and
`[{...parsed, id}]`. -/
def singleObject (mint : Mint) (k : Nat) (parsed : JsVal) : Option (List JsVal) × Nat :=
  match parsed.get "id" with
  | none => (none, k)
  | some id =>
    if id.truthy then (some [withId parsed id], k)
    else (some [withId parsed (mintId mint k)], k + 1)

/-- One generated condition per name, in order. -/
def mintAll (mint : Mint) (k : Nat) : List String → List JsVal
  | [] => []
  | n :: ns => condition (mintId mint k) (.str n) (.str "moderate") :: mintAll mint (k + 1) ns

/-- Array literal of one condition with a generated id and a name that is the
outcome of a conversion to a string: `none` when that conversion throws, which
is after the id was generated. -/
def namedCondition (mint : Mint) (k : Nat) (name : Option String) :
    Option (List JsVal) × Nat :=
  match name with
  | some text => (some [condition (mintId mint k) (.str text) (.str "moderate")], k + 1)
  | none => (none, k + 1)

/-- Body of a `try` block after `JSON.parse` succeeded, in the write paths: an
array is mapped, another object is wrapped, a primitive becomes one condition
with the given name. -/
def writeParsed (mint : Mint) (k : Nat) (parsed : JsVal) (primitiveName : Option String) :
    Option (List JsVal) × Nat :=
  match parsed with
  | .arr items => mapItems (parsedItem mint) k items
  | v =>
    if v.isObject then singleObject mint k v
    else namedCondition mint k primitiveName

/-- A `try` block that ended as `r`, with its `catch` handler: the handler runs
when the block threw, and goes on from the identifiers generated so far. -/
def orCatch (r : Option (List JsVal) × Nat) (handler : Nat → Option (List JsVal) × Nat) :
    Option (List JsVal) × Nat :=
  match r with
  | (none, k1) => handler k1
  | (some out, k1) => (some out, k1)

/-- Statement `try { parsed = JSON.parse(s); body } catch (e) { handler }`: the
handler runs when `JSON.parse` throws and when the body throws. -/
def tryParse (parse : String → Option JsVal) (s : String) (k : Nat)
    (body : JsVal → Option (List JsVal) × Nat) (handler : Nat → Option (List JsVal) × Nat) :
    Option (List JsVal) × Nat :=
  match parse s with
  | none => handler k
  | some parsed => orCatch (body parsed) handler

/-- Statement `try { parsed = JSON.parse(v); body } catch (e) { handler }` for a
value `v` of any type: `JSON.parse` converts it to a string first, and the
handler runs also when that conversion throws. -/
def tryParseOf (parse : String → Option JsVal) (v : JsVal) (k : Nat)
    (body : JsVal → Option (List JsVal) × Nat) (handler : Nat → Option (List JsVal) × Nat) :
    Option (List JsVal) × Nat :=
  match v.toStr with
  | none => handler k
  | some s => tryParse parse s k body handler

/-- Array `healthConditionsArray` of `POST /health/monitor` (health.js 130-244).
The function `parse` is `JSON.parse`, `none` when it throws.  The first
component is `none` when an exception reaches the outer `catch` of the handler
(answer 500). -/
def monitorConditions (parse : String → Option JsVal) (mint : Mint) (k : Nat)
    (health_conditions health_status : JsVal) : Option (List JsVal) × Nat :=
  if health_conditions.truthy then
    match health_conditions with
    | .arr items => mapItems (directItem mint) k items
    | .str s =>
      tryParse parse s k (fun parsed => writeParsed mint k parsed (some s)) fun k1 =>
        (some [condition (mintId mint k1) (.str s) (.str "moderate")], k1 + 1)
    | _ => (some [], k)
  else if health_status.truthy then
    tryParseOf parse health_status k
      (fun parsed => writeParsed mint k parsed parsed.toStr) fun k1 =>
        match health_status with
        | .str s =>
          (some (mintAll mint k1 ((jsSplit s).map jsTrim)), k1 + (jsSplit s).length)
        | _ => (none, k1)
  else (some [], k)

/-- Array `healthConditionsArray` of `PUT /members/:id` (members.js 444-555). -/
def putConditions (parse : String → Option JsVal) (mint : Mint) (k : Nat)
    (health_conditions health_status : JsVal) : Option (List JsVal) × Nat :=
  if health_conditions.truthy || health_status.truthy then
    if health_conditions.truthy then
      match health_conditions with
      | .arr items => mapItems (directItem mint) k items
      | .str s =>
        tryParse parse s k (fun parsed => writeParsed mint k parsed parsed.toStr) fun k1 =>
          (some (mintAll mint k1 ((jsSplit s).map jsTrim)), k1 + (jsSplit s).length)
      | _ => (some [], k)
    else if health_status.truthy then
      tryParseOf parse health_status k
        (fun parsed => writeParsed mint k parsed parsed.toStr) fun k1 =>
          match health_status with
          | .str s =>
            (some (mintAll mint k1 ((jsSplit s).map jsTrim)), k1 + (jsSplit s).length)
          | v => namedCondition mint k1 v.toStr
    else (some [], k)
  else (some [], k)

/-- Array `healthConditions` of `GET /health/monitor` over the stored column
(health.js 24-74).  The handler of its `catch` never throws, so the result is
always a list. -/
def readConditions (parse : String → Option JsVal) (mint : Mint) (k : Nat)
    (health_status : Option String) : List JsVal × Nat :=
  match health_status with
  | none => ([], k)
  | some s =>
    if s = "" then ([], k)
    else
      let handler (k1 : Nat) : List JsVal × Nat :=
        let names := ((jsSplit s).filter fun item => jsTrim item != "").map jsTrim
        (mintAll mint k1 names, k1 + names.length)
      match parse s with
      | none => handler k
      | some (.arr items) =>
        match mapItems (readItem mint) k items with
        | (none, k1) => handler k1
        | (some out, k1) => (out, k1)
      | some parsed =>
        if parsed.isObject then
          match singleObject mint k parsed with
          | (none, k1) => handler k1
          | (some out, k1) => (out, k1)
        else
          match parsed.toStr with
          | some name => ([condition (mintId mint k) (.str name) (.str "moderate")], k + 1)
          | none => handler (k + 1)

/-- Field `id` of a record, `undefined` when there is none. -/
def idOf (v : JsVal) : JsVal := (v.get "id").getD .undefined

/-- Field `name` of a record. -/
def nameOf (v : JsVal) : JsVal := (v.get "name").getD .undefined

/-- Field `severity` of a record. -/
def severityOf (v : JsVal) : JsVal := (v.get "severity").getD .undefined

/-- The record carries an id, in the sense of the test `!item.id`, and is no
string. -/
def hasId (v : JsVal) : Prop := ∃ id, v.get "id" = some id ∧ id.truthy = true

/-- Values of `JSON.parse` at the texts used in the examples below; `none` stands
for the SyntaxError that the other texts used there raise. -/
def parseSample (s : String) : Option JsVal :=
  if s = "null" then some .null
  else if s = "[null]" then some (.arr [.null])
  else if s = "[\x7b\"name\":\"flu\"\x7d]" then some (.arr [.obj [("name", .str "flu")]])
  else none

/-- Identifier source of the examples: the decimal text of the call number. -/
def mintSample : Mint := fun k => toString k

/-- Elements of the array shapes of the health input: a string or an object. -/
def isCondItem : JsVal → Bool
  | .str _ => true
  | .obj _ => true
  | _ => false

/-- The value is an object with fields. -/
def isObj : JsVal → Bool
  | .obj _ => true
  | _ => false

/-- Elements of an array given directly on which the callback of `map` does not
throw: a string, or an object that carries an id or has a truthy name or has no
own property `toString`. -/
def isDirectItem : JsVal → Bool
  | .str _ => true
  | .obj fields =>
    (idOf (.obj fields)).truthy || (nameOf (.obj fields)).truthy ||
      !JsVal.hidesToString fields
  | _ => false

/-- The ids that the elements of an array carry, in order. -/
def carriedIds (xs : List JsVal) : List JsVal :=
  xs.filterMap fun x =>
    match x.get "id" with
    | some id => if id.truthy then some id else none
    | none => none

/-- The array that a health input holds: the array itself, or the array that a
string parses to; empty for the other inputs. -/
def itemsOf (parse : String → Option JsVal) : JsVal → List JsVal
  | .arr xs => xs
  | .str s =>
    match parse s with
    | some (.arr xs) => xs
    | _ => []
  | _ => []

/-- A health input of the examples: a name, a record with an id and a record
without one. -/
def sampleItems : List JsVal :=
  [.str "diabetes", .obj [("id", .str "c1"), ("name", .str "flu")],
    .obj [("name", .str "asthma"), ("severity", .str "mild")]]

/-- A request field that is a string, or absent. -/
def optStr : Option String → JsVal
  | some s => .str s
  | none => .undefined

/-- What the direct path makes of an object `x` without id: a record `y` with a
name and a severity, the severity of `x` when it has one, else moderate. -/
def DirectFill (x y : JsVal) : Prop :=
  (nameOf y).truthy = true ∧ (severityOf y).truthy = true ∧
  ((severityOf x).truthy = false → severityOf y = .str "moderate") ∧
  ((severityOf x).truthy = true → severityOf y = severityOf x)

/-- Partial condition objects of the examples: one with an id and no severity,
one with a name only. -/
def sampleRecords : List JsVal :=
  [.obj [("id", .str "c1"), ("name", .str "flu")], .obj [("name", .str "asthma")]]

/-- Shapes of the field `health_conditions` on which the write paths do not
throw: absent, a string, or an array of elements on which the callback of `map`
does not throw. -/
def isDirectInput : JsVal → Bool
  | .undefined => true
  | .str _ => true
  | .arr xs => xs.all isDirectItem
  | _ => false

/-- The field that the write paths normalise: `health_conditions` when it is
truthy, else `health_status`. -/
def effectiveInput (health_conditions health_status : JsVal) : JsVal :=
  if health_conditions.truthy then health_conditions else health_status

/-- The call ends normally with a sequence whose ids are pairwise distinct. -/
def DistinctIds (r : Option (List JsVal) × Nat) : Prop :=
  ∃ out k1, r = (some out, k1) ∧ (out.map idOf).Nodup

/-- What a callback of `map` does on the elements of a domain: it throws, or
returns an element that carries an id as it is, or returns for an element
without id a record with the next generated id. -/
def ItemSpec (mint : Mint) (D : JsVal → Prop) (f : Nat → JsVal → Option JsVal × Nat) : Prop :=
  ∀ k x, D x →
    (f k x).1 = none ∨ (hasId x ∧ f k x = (some x, k)) ∨
      (¬ hasId x ∧ ∃ y, f k x = (some y, k + 1) ∧ idOf y = mintId mint k)

/-- Two records of the examples that carry the same id. -/
def sampleTwins : List JsVal :=
  [.obj [("id", .str "c1"), ("name", .str "flu")],
    .obj [("id", .str "c1"), ("name", .str "asthma")]]

/-- Identifier source of the examples that is visibly injective: the k-th text
has k letters. -/
def mintUnary : Mint := fun k => String.mk (List.replicate k 'x')

/-! ## Bed statistics -/

/-- Rows of table `beds` with a key below the counter, in key order. -/
def Store.bedRows (s : Store) : List BedRow :=
  (List.range s.nextBedId).filterMap fun n => if h : 0 < n then s.beds ⟨n, h⟩ else none

/-- Row of the aggregate query of `GET /beds/statistics`.  Over an empty table
COUNT is 0 and each SUM is NULL. -/
structure BedStats where
  total : Nat
  occupied : Option Nat
  available : Option Nat
  maintenance : Option Nat
deriving DecidableEq, Repr

/-- Aggregate `SUM(CASE WHEN status = ? THEN 1 ELSE 0 END)`. -/
def sumCase (rows : List BedRow) (status : String) : Option Nat :=
  if rows.isEmpty then none
  else some (rows.filter fun r => r.status = some status).length

/-- The aggregate query over the rows of the table. -/
def bedStats (rows : List BedRow) : BedStats :=
  ⟨rows.length, sumCase rows "occupied", sumCase rows "available", sumCase rows "maintenance"⟩

/-- A JavaScript number: NaN, an infinity or a finite value. -/
inductive JsNum where
  | nan
  | infinity (negative : Bool)
  | finite (q : ℚ)

/-- Conversion of an aggregate to a number; NULL converts to 0. -/
def toNumber : Option Nat → ℚ
  | some n => n
  | none => 0

/-- Quotient `a / b` of two finite numbers with `b` not negative.  The function
`round` stands for the rounding of an exact result to a double; a division by
zero is not rounded: it gives NaN for 0 / 0 and an infinity otherwise. -/
def jsDiv (round : ℚ → ℚ) (a b : ℚ) : JsNum :=
  if b = 0 then (if a = 0 then .nan else .infinity (decide (a < 0)))
  else .finite (round (a / b))

/-- Product `x * c` with a positive finite constant `c`. -/
def jsMul (round : ℚ → ℚ) (x : JsNum) (c : ℚ) : JsNum :=
  match x with
  | .nan => .nan
  | .infinity negative => .infinity negative
  | .finite q => .finite (round (q * c))

/-- Method `toFixed(2)` for values below 10^21 in magnitude: the nearest multiple
of 0.01, the larger one at a tie, with two decimals. -/
def toFixed2 : JsNum → String
  | .nan => "NaN"
  | .infinity false => "Infinity"
  | .infinity true => "-Infinity"
  | .finite q =>
    let n := Int.toNat ⌊(if q < 0 then -q else q) * 100 + 1 / 2⌋
    (if q < 0 then "-" else "") ++ toString (n / 100) ++ "." ++
      (if n % 100 < 10 then "0" else "") ++ toString (n % 100)

/-- Data of the answer of `GET /beds/statistics`. -/
structure StatsReport where
  stats : BedStats
  occupancyRate : String

/-- Handler `GET /beds/statistics` over the rows of the table:
`(stats[0].occupied / stats[0].total) * 100`, then `toFixed(2)`. -/
def statistics (round : ℚ → ℚ) (rows : List BedRow) : StatsReport :=
  let stats := bedStats rows
  ⟨stats, toFixed2 (jsMul round (jsDiv round (toNumber stats.occupied) stats.total) 100)⟩

/-! ## Double arithmetic -/

/-- Nearest integer, the even one at a tie. -/
def roundHalfEven (q : ℚ) : ℤ :=
  if q - ⌊q⌋ < 1 / 2 then ⌊q⌋
  else if 1 / 2 < q - ⌊q⌋ then ⌊q⌋ + 1
  else if ⌊q⌋ % 2 = 0 then ⌊q⌋ else ⌊q⌋ + 1

/-- Rounding of an exact result to a double (IEEE 754 binary64, round to
nearest, ties to even), for results below the overflow threshold: the result is
the nearest multiple of `2 ^ (e - 52)`, where `e` is the binary exponent of the
exact value, taken as -1022 for the values below `2 ^ (-1022)` (the subnormal
numbers). -/
def roundDouble (q : ℚ) : ℚ :=
  if q = 0 then 0
  else
    (if q < 0 then -1 else 1) *
      (roundHalfEven (|q| / 2 ^ (max (Int.log 2 |q|) (-1022) - 52)) : ℚ) *
        2 ^ (max (Int.log 2 |q|) (-1022) - 52)

/-- Number of rows with the given status. -/
def countStatus (rows : List BedRow) (status : String) : Nat :=
  (rows.filter fun r => r.status = some status).length

/-- A table with the given numbers of occupied, available and maintenance
beds. -/
def sampleBeds (occupied available maintenance : Nat) : List BedRow :=
  List.replicate occupied (sampleBed "occupied" (some 1)) ++
    List.replicate available (sampleBed "available" none) ++
      List.replicate maintenance (sampleBed "maintenance" none)

/-! ## Display labels -/

/-- Field `gender` of the answers of `GET /members`, `GET /members/:id` and `PUT
/members/:id`: `member.gender === 'male' ? '男' : '女'`. -/
def displayGender (gender : Option String) : Option String :=
  if gender = some "male" then some "男" else some "女"

/-- Field `care_level` of the same answers: a chain of four comparisons that ends
in the stored value. -/
def displayCareLevel (care_level : Option String) : Option String :=
  if care_level = some "self-care" then some "自理"
  else if care_level = some "semi-care" then some "介助"
  else if care_level = some "full-care" then some "全护理"
  else if care_level = some "special-care" then some "特护"
  else care_level

/-- Field `status` of the answers of `GET /members/:id` and `PUT /members/:id`. -/
def displayStatus (status : Option String) : Option String :=
  if status = some "active" then some "在住"
  else if status = some "inactive" then some "离开"
  else if status = some "deceased" then some "过世"
  else status

/-- Field `status` of the answer of `GET /members`, which also knows `on_leave`. -/
def displayStatusList (status : Option String) : Option String :=
  if status = some "active" then some "在住"
  else if status = some "on_leave" then some "离开"
  else if status = some "inactive" then some "离开"
  else if status = some "deceased" then some "过世"
  else status

/-! ## Admin guard -/

/-- Payload of a verified token, as far as the guard reads it. -/
structure JwtPayload where
  id : Option Id
deriving DecidableEq, Repr

/-- Outcome of a middleware: the request goes on to the handler, or it is
answered at once. -/
inductive Guard where
  | next
  | reject (resp : Resp)
deriving DecidableEq, Repr

/-- Expression `req.headers.authorization?.split(' ')[1]`. -/
def headerToken (authorization : Option String) : Option String :=
  authorization.bind fun h => ((splitChars ' ' h.data).map String.mk)[1]?

/-- Middleware `isAdmin` (middleware/auth.js).  The function `verify` is
`jwt.verify` with the secret of the server, `none` when it throws; `users` is
the column `role` of table `users` by key; database call 1 is the SELECT.  Every
exception ends in the `catch`, which answers 401. -/
def isAdmin (verify : String → Option JwtPayload) (users : Id → Option (Option String))
    (fault : Fault) (authorization : Option String) : Guard :=
  if !truthyStr (headerToken authorization) then .reject ⟨401, "未登录或登录已过期"⟩
  else
    match (headerToken authorization).bind verify with
    | none => .reject ⟨401, "未登录或登录已过期"⟩
    | some decoded =>
      if fault 1 then .reject ⟨401, "未登录或登录已过期"⟩
      else
        match decoded.id.bind users with
        | none => .reject ⟨401, "用户不存在"⟩
        | some role =>
          if role ≠ some "admin" then .reject ⟨403, "权限不足"⟩
          else .next

/-- Route `DELETE /beds/:id`: the guard, then the handler body. -/
def guardedDeleteBed (verify : String → Option JwtPayload)
    (users : Id → Option (Option String)) (guardFault fault : Fault)
    (authorization : Option String) (s : Store) (id : Id) : Resp × Store :=
  match isAdmin verify users guardFault authorization with
  | .next => deleteBed fault s id
  | .reject resp => (resp, s)

/-- Route `DELETE /members/:id`: the guard, then the handler body. -/
def guardedDeleteMember (verify : String → Option JwtPayload)
    (users : Id → Option (Option String)) (guardFault fault : Fault)
    (authorization : Option String) (s : Store) (id : Id) : Resp × Store :=
  match isAdmin verify users guardFault authorization with
  | .next => deleteMember fault s id
  | .reject resp => (resp, s)

/-- Token check of the examples: the text `good` belongs to user 1, the text
`staff` to user 2, no other text verifies. -/
def verifySample (token : String) : Option JwtPayload :=
  if token = "good" then some ⟨some 1⟩
  else if token = "staff" then some ⟨some 2⟩
  else none

/-- Table `users` of the examples: user 1 is an admin, user 2 is not. -/
def usersSample (id : Id) : Option (Option String) :=
  if id = 1 then some (some "admin") else if id = 2 then some (some "staff") else none

/-! ## JSON text -/

/-- Hexadecimal digit, in lower case. -/
def hexDigit (n : Nat) : Char :=
  if n < 10 then Char.ofNat (48 + n) else Char.ofNat (87 + n)

/-- Escape of one character inside a JSON string: the quote, the backslash, the
five short escapes and the other control characters. -/
def jsonEscape (c : Char) : List Char :=
  let n := c.toNat
  if n = 34 then [Char.ofNat 92, Char.ofNat 34]
  else if n = 92 then [Char.ofNat 92, Char.ofNat 92]
  else if n = 8 then [Char.ofNat 92, 'b']
  else if n = 12 then [Char.ofNat 92, 'f']
  else if n = 10 then [Char.ofNat 92, 'n']
  else if n = 13 then [Char.ofNat 92, 'r']
  else if n = 9 then [Char.ofNat 92, 't']
  else if n < 32 then [Char.ofNat 92, 'u', '0', '0', hexDigit (n / 16), hexDigit (n % 16)]
  else [c]

/-- A string as JSON text, between quotes. -/
def jsonQuote (s : String) : String :=
  String.mk (Char.ofNat 34 :: (s.data.map jsonEscape).flatten ++ [Char.ofNat 34])

mutual
/-- Text of `JSON.stringify` for a value inside an array; `undefined` and the
numbers that are not finite are written `null`. -/
def jsonValue : JsVal → String
  | .undefined => "null"
  | .null => "null"
  | .bool b => if b then "true" else "false"
  | .num t => if t = "NaN" ∨ t = "Infinity" ∨ t = "-Infinity" then "null" else t
  | .str s => jsonQuote s
  | .arr items => "[" ++ jsonItems items ++ "]"
  | .obj fields => "\x7b" ++ jsonFields fields ++ "\x7d"
/-- Elements of an array, separated by commas. -/
def jsonItems : List JsVal → String
  | [] => ""
  | [x] => jsonValue x
  | x :: y :: rest => jsonValue x ++ "," ++ jsonItems (y :: rest)
/-- Properties of an object, separated by commas; a property whose value is
`undefined` is left out. -/
def jsonFields : List (String × JsVal) → String
  | [] => ""
  | (_, .undefined) :: rest => jsonFields rest
  | (key, v) :: rest =>
    jsonQuote key ++ ":" ++ jsonValue v ++
      (if jsonFields rest = "" then "" else "," ++ jsonFields rest)
end

/-- Call `JSON.stringify(healthConditionsArray)`. -/
def jsonStringify (items : List JsVal) : String := jsonValue (.arr items)

/-! ## Health input in `POST /members` -/

/-- Callback of `map` in `POST /members` (members.js 247-255 and 265-273): a
string is kept, an object gives its truthy `name`, anything else its text.
`none` is a TypeError: the read of `name` on `null`, or a conversion to a
string that throws. -/
def nameItem (item : JsVal) : Option JsVal :=
  if item.isString then some item
  else if item.isObject then
    match item.get "name" with
    | none => none
    | some name => name.orStr item.toStr
  else item.toStr.map .str

/-- Method `items.map(f)` for a callback that may throw. -/
def mapOpt (f : JsVal → Option JsVal) : List JsVal → Option (List JsVal)
  | [] => some []
  | x :: xs =>
    match f x with
    | none => none
    | some y =>
      match mapOpt f xs with
      | none => none
      | some ys => some (y :: ys)

/-- Text `items.join(', ')` of an answer, or the text for no record when the
array is empty; `none` when the conversion of an element throws. -/
def joinedText (items : List JsVal) : Option String :=
  if items.isEmpty then some "暂无记录" else JsVal.joinStr ", " items

/-- Callback `c => typeof c === 'object' && c.name ? c.name : String(c)` of the
answers of `routes/health.js` (lines 80 and 285). -/
def nameOrText (c : JsVal) : Option JsVal :=
  if c.isObject then
    match c.get "name" with
    | none => none
    | some name => name.orStr c.toStr
  else c.toStr.map .str

/-- Field `health_status_text` of the answers of `routes/health.js`: the names
of the conditions joined, `none` when the callback or the join throws. -/
def statusText (conditions : List JsVal) : Option String :=
  if conditions.isEmpty then some "暂无记录"
  else (mapOpt nameOrText conditions).bind (JsVal.joinStr ", ")

/-- Callback `c => typeof c === 'object' ? c.name : String(c)` of the answer of
`PUT /members/:id` (members.js 626). -/
def putName (c : JsVal) : Option JsVal :=
  if c.isObject then c.get "name" else c.toStr.map .str

/-- Whether the answer of `PUT /members/:id` is built without exception
(members.js 603-627) from the column `health_status` read back.  The column is
parsed when it is truthy, and a text that does not parse leaves the empty array;
then `healthConditions.length > 0` is tested and, when it holds,
`healthConditions.map(...).join(', ')` is evaluated.  `null` has no `length`; a
string or an object of positive length has no method `map`.  The function
`positive` is the comparison `v > 0` of the language on the property `length`
of an object, `none` when it throws. -/
def putAnswerOk (parse : String → Option JsVal) (positive : JsVal → Option Bool)
    (health_status : Option String) : Bool :=
  let healthConditions : JsVal :=
    if truthyStr health_status then ((health_status.bind parse).getD (.arr [])) else .arr []
  match healthConditions with
  | .arr items =>
    items.isEmpty || ((mapOpt putName items).bind (JsVal.joinStr ", ")).isSome
  | .undefined => false
  | .null => false
  | .str s => s = ""
  | .num _ => true
  | .bool _ => true
  | .obj fields => positive ((fields.lookup "length").getD .undefined) == some false

/-- Array `healthConditionsArray` of `POST /members` (members.js 240-294).  The
outer `none` is an exception that reaches the `catch` of the handler; the inner
`none` means that no branch ran and `healthStatusValue` stays null.  The call
`JSON.parse(health_status)` converts its argument to a string inside the `try`
block. -/
def createHealth (parse : String → Option JsVal) (health_conditions health_status
    health_notes : JsVal) : Option (Option (List JsVal)) :=
  match health_conditions with
  | .arr items => (mapOpt nameItem items).map some
  | _ =>
    if health_status.truthy then
      let handler : Option (Option (List JsVal)) :=
        match health_status with
        | .str s =>
          some (some (((jsSplit s).filter fun item => jsTrim item != "").map
            fun name => .str (jsTrim name)))
        | _ => none
      match health_status.toStr.bind parse with
      | none => handler
      | some parsed =>
        let body : Option (List JsVal) :=
          match parsed with
          | .arr items => mapOpt nameItem items
          | v =>
            if v.isObject then
              match v.get "name" with
              | none => none
              | some name => (name.orStr v.toStr).map fun n => [n]
            else v.toStr.map fun text => [.str text]
        match body with
        | some out => some (some out)
        | none => handler
    else if health_notes.truthy then some (some [health_notes])
    else some none

/-! ## Requests that carry health input -/

/-- Handler `POST /members` with its health input: the column `health_status` of
the INSERT is `JSON.stringify(healthConditionsArray)`, or NULL without health
input; `cols` holds the other columns.  After the INSERT the answer joins the
names (members.js 341-343); when that throws, the answer is 500 and the row
stays. -/
def postMember (parse : String → Option JsVal) (fault : Fault) (s : Store)
    (cols : MemberCols) (health_conditions health_status health_notes : JsVal) :
    Resp × Store :=
  match createHealth parse health_conditions health_status health_notes with
  | none => (serverError, s)
  | some names =>
    let r := createMember fault s { cols with health_status := names.map jsonStringify }
    if r.1.code = 201 then
      match joinedText (names.getD []) with
      | some _ => r
      | none => (serverError, r.2)
    else r

/-- Handler `POST /health/monitor` with its health input: `healthStatusValue` is
`JSON.stringify(healthConditionsArray)` when one of the two fields is truthy.
After the UPDATE the answer builds `health_status_text` (health.js 284-286);
when that throws, the answer is 500 and the column stays written. -/
def postMonitorRequest (parse : String → Option JsVal) (mint : Mint) (k : Nat)
    (fault : Fault) (s : Store) (member_id : Option Id) (health_conditions health_status : JsVal)
    (responsibility_worker : Option String) (health_detail : Option (Option String)) :
    Resp × Store :=
  match member_id with
  | none => postMonitor fault s none responsibility_worker none health_detail
  | some mid =>
    match monitorConditions parse mint k health_conditions health_status with
    | (none, _) => (serverError, s)
    | (some out, _) =>
      let r := postMonitor fault s (some mid) responsibility_worker
        (if health_conditions.truthy || health_status.truthy then some (jsonStringify out)
          else none)
        health_detail
      if r.1.code = 201 then
        match statusText out with
        | some _ => r
        | none => (serverError, r.2)
      else r

/-- The answer of `PUT /members/:id` after the row was written and read back:
when building it throws, the answer is 500 and the row stays written. -/
def putAnswer (parse : String → Option JsVal) (positive : JsVal → Option Bool) (id : Id)
    (r : Resp × Store) : Resp × Store :=
  if r.1.code = 200 then
    if putAnswerOk parse positive ((r.2.members id).bind fun m => m.health_status) then r
    else (serverError, r.2)
  else r

/-- Handler `PUT /members/:id` with its health input: when one of the two fields
is truthy, `updateData.health_status` is `JSON.stringify(healthConditionsArray)`;
`updateData` holds the other columns.  The current row is read first (404), and
an exception of the normalisation is answered 500 before any write. -/
def putMemberRequest (parse : String → Option JsVal) (positive : JsVal → Option Bool)
    (mint : Mint) (k : Nat) (fault : Fault) (s : Store) (id : Id)
    (updateData : MemberRow → MemberCols) (health_conditions health_status : JsVal) :
    Resp × Store :=
  if health_conditions.truthy || health_status.truthy then
    match putConditions parse mint k health_conditions health_status with
    | (some out, _) =>
      putAnswer parse positive id
        (putMember fault s id fun current =>
          { updateData current with health_status := some (jsonStringify out) })
    | (none, _) =>
      if fault 1 then (serverError, s)
      else
        match s.members id with
        | none => (⟨404, "未找到该老人"⟩, s)
        | some _ => (serverError, s)
  else putAnswer parse positive id (putMember fault s id updateData)

/-- Field `health_conditions` of the answer of `GET /health/monitor` for a member
row: the array that the read path computes, or the empty array of the fallback
answer when building `health_status_text` throws inside the same `try` block
(health.js 76-92). -/
def readAnswer (parse : String → Option JsVal) (mint : Mint) (k : Nat)
    (health_status : Option String) : List JsVal × Nat :=
  match statusText (readConditions parse mint k health_status).1 with
  | some _ => readConditions parse mint k health_status
  | none => ([], (readConditions parse mint k health_status).2)

/-- A direct array of the examples whose second element has neither id nor name
and an own property `toString`. -/
def hiddenItems : List JsVal :=
  [.obj [("id", .str "c1"), ("name", .str "flu")],
    .obj [("toString", .num "1"), ("severity", .str "mild")]]

/-- The two conditions that the write paths make of the health status
"diabetes, hypertension" with the identifier source of the examples. -/
def sampleConditions : List JsVal :=
  [condition (.str "hc-0") (.str "diabetes") (.str "moderate"),
    condition (.str "hc-1") (.str "hypertension") (.str "moderate")]

/-- Value of `JSON.parse` at the JSON text of `sampleConditions`; `none` stands
for the SyntaxError that the other texts used with it raise. -/
def parseStored (s : String) : Option JsVal :=
  if s = jsonStringify sampleConditions then some (.arr sampleConditions) else none

/-- The call ends normally with a sequence in which every record carries an
id. -/
def AllHaveId (r : Option (List JsVal) × Nat) : Prop :=
  ∃ out k1, r = (some out, k1) ∧ ∀ y ∈ out, hasId y

/-! ## Two requests to `POST /beds/assign` at the same time -/

/-- Point that one request to `POST /beds/assign` (both ids given) has reached:
the database call that it awaits next, or the answer that it has sent. -/
inductive AssignPc where
  | checkBed
  | checkMember
  | checkOldBed (oldBedId : Id)
  | releaseOld (oldBedId : Id)
  | transaction
  | answered (r : Resp)
deriving DecidableEq

/-- One database call of `POST /beds/assign`, with the handler code that follows
it up to the next call, when no call throws: step 1 the SELECT of the bed, step 2
the SELECT of the member, step 3 the SELECT and the UPDATE of the old bed, all on
the pool; then the transaction of steps 4 to 7, whose two UPDATEs take effect
together at the commit. -/
def assignStep (member_id bed_id : Id) : AssignPc → Store → AssignPc × Store
  | .checkBed, s =>
    match s.beds bed_id with
    | none => (.answered ⟨404, "床位不存在"⟩, s)
    | some bed =>
      if bed.status ≠ some "available" then (.answered ⟨400, "床位不可用"⟩, s)
      else (.checkMember, s)
  | .checkMember, s =>
    match s.members member_id with
    | none => (.answered ⟨404, "老人信息不存在"⟩, s)
    | some member =>
      match member.bed_id with
      | none => (.transaction, s)
      | some oldBedId => (.checkOldBed oldBedId, s)
  | .checkOldBed oldBedId, s =>
    match s.beds oldBedId with
    | none => (.transaction, s)
    | some oldBed =>
      if oldBed.current_member_id = some member_id then (.releaseOld oldBedId, s)
      else (.transaction, s)
  | .releaseOld oldBedId, s => (.transaction, s.setBed oldBedId releaseBed)
  | .transaction, s =>
    ((.answered (assignTransaction noFault s member_id bed_id).1),
      (assignTransaction noFault s member_id bed_id).2)
  | .answered r, s => (.answered r, s)

/-- The request runs `n` of its database calls with no other request in between. -/
def assignSteps (member_id bed_id : Id) : Nat → AssignPc × Store → AssignPc × Store
  | 0, c => c
  | n + 1, c => assignSteps member_id bed_id n (assignStep member_id bed_id c.1 c.2)

/-- Two requests to `POST /beds/assign` for the same bed, in flight on one store. -/
structure Race where
  first : AssignPc
  second : AssignPc
  store : Store

/-- The next database call that the server runs is the one of the second request
when `turn` is true, else the one of the first. -/
def raceStep (m1 m2 bed_id : Id) (c : Race) (turn : Bool) : Race :=
  if turn then
    { c with second := (assignStep m2 bed_id c.second c.store).1
             store := (assignStep m2 bed_id c.second c.store).2 }
  else
    { c with first := (assignStep m1 bed_id c.first c.store).1
             store := (assignStep m1 bed_id c.first c.store).2 }

/-- Both requests start on store `s` and their database calls run in the order
given by `schedule`. -/
def race (m1 m2 bed_id : Id) (s : Store) (schedule : List Bool) : Race :=
  schedule.foldl (raceStep m1 m2 bed_id) ⟨.checkBed, .checkBed, s⟩

/-- Order in which each call of the first request is followed by the same call
of the second. -/
def alternating : List Bool := [false, true, false, true, false, true]

/-- Order in which the first request has answered before the second starts. -/
def oneAfterTheOther : List Bool := [false, false, false, true]

/-- Store with bed 1 available and members 1 and 2 without a bed. -/
def raceStore : Store :=
  { beds := fun i => if i = 1 then some (sampleBed "available" none) else none
    members := fun i =>
      if i = 1 then some ⟨sampleCols "m1", none⟩
      else if i = 2 then some ⟨sampleCols "m2", none⟩
      else none
    nextBedId := 2
    nextMemberId := 3 }

/-- Value of `JSON.parse` at the JSON text of the string flu; `none` stands for
the SyntaxError that the other texts used with it raise. -/
def parseLiteral (s : String) : Option JsVal :=
  if s = "\"flu\"" then some (.str "flu") else none

/-! ## Lookups in a rewritten store -/

@[simp] theorem setBed_beds (s : Store) (id i : Id) (g : BedRow → BedRow) :
    (s.setBed id g).beds i = if i = id then (s.beds i).map g else s.beds i := rfl

@[simp] theorem setBed_members (s : Store) (id : Id) (g : BedRow → BedRow) :
    (s.setBed id g).members = s.members := rfl

@[simp] theorem setMember_members (s : Store) (id i : Id) (g : MemberRow → MemberRow) :
    (s.setMember id g).members i = if i = id then (s.members i).map g else s.members i := rfl

@[simp] theorem setMember_beds (s : Store) (id : Id) (g : MemberRow → MemberRow) :
    (s.setMember id g).beds = s.beds := rfl

@[simp] theorem dropBed_beds (s : Store) (id i : Id) :
    (s.dropBed id).beds i = if i = id then none else s.beds i := rfl

@[simp] theorem dropBed_members (s : Store) (id : Id) :
    (s.dropBed id).members = s.members := rfl

@[simp] theorem dropMember_members (s : Store) (id i : Id) :
    (s.dropMember id).members i = if i = id then none else s.members i := rfl

@[simp] theorem dropMember_beds (s : Store) (id : Id) :
    (s.dropMember id).beds = s.beds := rfl

/-! ## Case analysis of the handlers -/

/-- The four exits of `unassign`. -/
theorem unassign_store (fault : Fault) (s : Store) (id : Id) :
    unassign fault s id = (serverError, s) ∨
    (s.beds id = none ∧ unassign fault s id = (⟨404, "床位不存在"⟩, s)) ∨
    (∃ bed, s.beds id = some bed ∧ bed.current_member_id = none ∧
      unassign fault s id = (⟨200, "床位未分配，无需取消"⟩, s)) ∨
    (∃ bed M, s.beds id = some bed ∧ bed.current_member_id = some M ∧
      unassign fault s id =
        (⟨200, "床位分配已取消"⟩, (s.setBed id releaseBed).setMember M (setBedId none))) := by
  unfold unassign
  repeat' split
  all_goals simp_all

/-- What step 3 of `assign` leaves when it does not throw: the store as it was,
when no existing old bed records the member, or the old bed released. -/
theorem assignRelease_store (fault : Fault) (s s1 : Store) (M : Id) (old : Option Id)
    (h : assignRelease fault s M old = some s1) :
    (s1 = s ∧ ∀ A bedA, old = some A → s.beds A = some bedA →
        bedA.current_member_id ≠ some M) ∨
    (∃ A bedA, old = some A ∧ s.beds A = some bedA ∧ bedA.current_member_id = some M ∧
        s1 = s.setBed A releaseBed) := by
  unfold assignRelease at h
  repeat' split at h
  all_goals simp_all
  all_goals
    intro A bedA hA hb
    subst hA
    simp_all

/-- The exits of `assign`: the store is untouched, or the release step ran and
the transaction either failed (500) or committed (200). -/
theorem assign_store (fault : Fault) (s : Store) (m b : Option Id) :
    ((assign fault s m b).2 = s) ∨
    (∃ mid bid bed member s1, m = some mid ∧ b = some bid ∧ s.beds bid = some bed ∧
      bed.status = some "available" ∧ s.members mid = some member ∧
      assignRelease fault s mid member.bed_id = some s1 ∧
      (assign fault s m b = (serverError, s1) ∨
       assign fault s m b =
        (⟨200, "床位分配成功"⟩,
          (s1.setBed bid (occupyBed mid)).setMember mid (setBedId (some bid))))) := by
  cases m with
  | none => left; simp [assign]
  | some mid =>
    cases b with
    | none => left; simp [assign]
    | some bid =>
      simp only [assign]
      by_cases h1 : fault 1 = true
      · left; simp [h1]
      · cases hbed : s.beds bid with
        | none => left; simp [h1, hbed]
        | some bed =>
          by_cases hst : bed.status = some "available"
          · by_cases h2 : fault 2 = true
            · left; simp [h1, hbed, hst, h2]
            · cases hmem : s.members mid with
              | none => left; simp [h1, hbed, hst, h2, hmem]
              | some member =>
                cases hrel : assignRelease fault s mid member.bed_id with
                | none => left; simp [h1, hbed, hst, h2, hmem, hrel]
                | some s1 =>
                  right
                  refine ⟨mid, bid, bed, member, s1, rfl, rfl, hbed, hst, hmem, hrel, ?_⟩
                  simp only [h1, hbed, hst, h2, hmem, hrel, assignTransaction]
                  repeat' split
                  all_goals simp_all
          · left; simp [h1, hbed, hst]

/-- The exits of `deleteBed`. -/
theorem deleteBed_store (fault : Fault) (s : Store) (id : Id) :
    deleteBed fault s id = (serverError, s) ∨
    ((∀ bed, s.beds id = some bed → bed.current_member_id = none) ∧
      deleteBed fault s id = (⟨200, "床位删除成功"⟩, s.dropBed id)) ∨
    (∃ bed occupant, s.beds id = some bed ∧ bed.current_member_id = some occupant ∧
      deleteBed fault s id =
        (⟨200, "床位删除成功"⟩, (s.setMember occupant (setBedId none)).dropBed id)) := by
  unfold deleteBed
  repeat' split
  all_goals simp_all

/-- The exits of `deleteMember`. -/
theorem deleteMember_store (fault : Fault) (s : Store) (id : Id) :
    deleteMember fault s id = (serverError, s) ∨
    ((∀ member, s.members id = some member → member.bed_id = none) ∧
      deleteMember fault s id = (⟨200, "老人信息删除成功"⟩, s.dropMember id)) ∨
    (∃ member bedId, s.members id = some member ∧ member.bed_id = some bedId ∧
      deleteMember fault s id =
        (⟨200, "老人信息删除成功"⟩, (s.setBed bedId releaseBed).dropMember id)) := by
  unfold deleteMember
  repeat' split
  all_goals simp_all

/-- The store after `getMember`: untouched, or the member row repaired because
its bed is missing or records another occupant. -/
theorem getMember_store (fault : Fault) (s : Store) (id : Id) :
    (getMember fault s id).store = s ∨
    (∃ member bedId, s.members id = some member ∧ member.bed_id = some bedId ∧
      (s.beds bedId).bind (fun b => b.current_member_id) ≠ some id ∧
      (getMember fault s id).store = s.setMember id (setBedId none)) := by
  unfold getMember
  repeat' split
  all_goals simp_all

/-! ## Row-wise properties of beds -/

theorem bedsSat_setBed (P : BedRow → Prop) (s : Store) (id : Id) (g : BedRow → BedRow)
    (h : BedsSat P s) (hg : ∀ b, s.beds id = some b → P (g b)) : BedsSat P (s.setBed id g) := by
  intro B bed hb
  by_cases hB : B = id
  · subst hB
    cases hbb : s.beds B with
    | none => simp [hbb] at hb
    | some b0 =>
      simp [hbb] at hb
      subst hb
      exact hg b0 hbb
  · simp [hB] at hb
    exact h B bed hb

theorem bedsSat_setMember (P : BedRow → Prop) (s : Store) (id : Id) (g : MemberRow → MemberRow)
    (h : BedsSat P s) : BedsSat P (s.setMember id g) := h

theorem bedsSat_dropMember (P : BedRow → Prop) (s : Store) (id : Id)
    (h : BedsSat P s) : BedsSat P (s.dropMember id) := h

theorem bedsSat_dropBed (P : BedRow → Prop) (s : Store) (id : Id)
    (h : BedsSat P s) : BedsSat P (s.dropBed id) := by
  intro B bed hb
  by_cases hB : B = id
  · simp [hB] at hb
  · simp [hB] at hb
    exact h B bed hb

/-- A property of bed rows that holds of every released and every occupied row
survives `assign`, whatever its outcome. -/
theorem bedsSat_assign (P : BedRow → Prop) (hrel : ∀ b, P (releaseBed b))
    (hocc : ∀ M b, P (occupyBed M b)) (fault : Fault) (s : Store) (m b : Option Id)
    (h : BedsSat P s) : BedsSat P (assign fault s m b).2 := by
  rcases assign_store fault s m b with h0 | ⟨mid, bid, bed, member, s1, -, -, -, -, -, hr, hres⟩
  · rw [h0]; exact h
  · have h1 : BedsSat P s1 := by
      rcases assignRelease_store fault s s1 mid member.bed_id hr with ⟨rfl, -⟩ | ⟨A, bedA, -, -, -, rfl⟩
      · exact h
      · exact bedsSat_setBed P s A releaseBed h (fun b _ => hrel b)
    rcases hres with hres | hres
    · rw [hres]; exact h1
    · rw [hres]
      exact bedsSat_setMember P _ mid _
        (bedsSat_setBed P s1 bid (occupyBed mid) h1 (fun b _ => hocc mid b))

theorem bedsSat_unassign (P : BedRow → Prop) (hrel : ∀ b, P (releaseBed b))
    (fault : Fault) (s : Store) (id : Id) (h : BedsSat P s) :
    BedsSat P (unassign fault s id).2 := by
  rcases unassign_store fault s id with h0 | ⟨-, h0⟩ | ⟨bed, -, -, h0⟩ | ⟨bed, M, -, -, h0⟩
  · rw [h0]; exact h
  · rw [h0]; exact h
  · rw [h0]; exact h
  · rw [h0]
    exact bedsSat_setMember P _ M _ (bedsSat_setBed P s id releaseBed h (fun b _ => hrel b))

theorem bedsSat_deleteBed (P : BedRow → Prop) (fault : Fault) (s : Store) (id : Id)
    (h : BedsSat P s) : BedsSat P (deleteBed fault s id).2 := by
  rcases deleteBed_store fault s id with h0 | ⟨-, h0⟩ | ⟨bed, occupant, -, -, h0⟩
  · rw [h0]; exact h
  · rw [h0]; exact bedsSat_dropBed P s id h
  · rw [h0]; exact bedsSat_dropBed P _ id (bedsSat_setMember P s occupant _ h)

theorem bedsSat_deleteMember (P : BedRow → Prop) (hrel : ∀ b, P (releaseBed b))
    (fault : Fault) (s : Store) (id : Id) (h : BedsSat P s) :
    BedsSat P (deleteMember fault s id).2 := by
  rcases deleteMember_store fault s id with h0 | ⟨-, h0⟩ | ⟨member, bedId, -, -, h0⟩
  · rw [h0]; exact h
  · rw [h0]; exact h
  · rw [h0]
    exact bedsSat_dropMember P _ id (bedsSat_setBed P s bedId releaseBed h (fun b _ => hrel b))

theorem bedsSat_getMember (P : BedRow → Prop) (fault : Fault) (s : Store) (id : Id)
    (h : BedsSat P s) : BedsSat P (getMember fault s id).store := by
  rcases getMember_store fault s id with h0 | ⟨member, bedId, -, -, -, h0⟩
  · rw [h0]; exact h
  · rw [h0]; exact h

theorem statusInv_release (b : BedRow) :
    (releaseBed b).status = some "occupied" ↔ (releaseBed b).current_member_id ≠ none := by
  simp [releaseBed]

theorem statusInv_occupy (M : Id) (b : BedRow) :
    (occupyBed M b).status = some "occupied" ↔ (occupyBed M b).current_member_id ≠ none := by
  simp [occupyBed]

theorem availFree_release (b : BedRow) :
    (releaseBed b).status = some "available" → (releaseBed b).current_member_id = none := by
  simp [releaseBed]

theorem availFree_occupy (M : Id) (b : BedRow) :
    (occupyBed M b).status = some "available" → (occupyBed M b).current_member_id = none := by
  simp [occupyBed]

theorem StatusInv.availFree (s : Store) (h : StatusInv s) : AvailFree s := by
  intro B bed hb hst
  have h1 := h B bed hb
  rw [hst] at h1
  by_contra hne
  exact absurd (h1.2 hne) (by decide)

/-! ## Preservation of the bidirectional invariant by the store rewrites -/

/-- Releasing a bed and clearing its occupant keeps the links consistent. -/
theorem release_clear_link (s : Store) (id M : Id) (bed : BedRow)
    (hL : LinkInv s) (hbed : s.beds id = some bed)
    (hocc : bed.current_member_id = some M) :
    LinkInv ((s.setBed id releaseBed).setMember M (setBedId none)) := by
  intro B X b m hb hm
  by_cases hB : B = id <;> by_cases hX : X = M
  · subst hB; subst hX
    simp [hbed, releaseBed] at hb
    cases hmm : s.members X with
    | none => simp [hmm] at hm
    | some m0 =>
      simp [hmm, setBedId] at hm
      subst hb; subst hm
      simp
  · subst hB
    simp [hbed, releaseBed] at hb
    simp [hX] at hm
    subst hb
    have h := hL B X bed m hbed hm
    simp only [hocc] at h
    simp
    intro hh
    exact hX (Option.some.inj (h.2 hh)).symm
  · subst hX
    simp [hB] at hb
    cases hmm : s.members X with
    | none => simp [hmm] at hm
    | some m0 =>
      simp [hmm, setBedId] at hm
      subst hm
      simp
      intro hh
      have h1 := (hL B X b m0 hb hmm).1 hh
      have h3 := (hL id X bed m0 hbed hmm).1 hocc
      rw [h1] at h3
      exact hB (Option.some.inj h3)
  · simp [hB] at hb
    simp [hX] at hm
    exact hL B X b m hb hm

/-- After step 3 of `assign` on a store with consistent links, no bed records the
member any more, the other links are intact and the free beds are untouched. -/
theorem assignRelease_link (fault : Fault) (s s1 : Store) (M : Id) (member : MemberRow)
    (hL : LinkInv s) (hmem : s.members M = some member)
    (h : assignRelease fault s M member.bed_id = some s1) :
    LinkInvExcept s1 M ∧ NoOccupant s1 M ∧ s1.members = s.members ∧
    (∀ B bed, s.beds B = some bed → bed.current_member_id = none → s1.beds B = some bed) := by
  rcases assignRelease_store fault s s1 M member.bed_id h with
    ⟨rfl, hno⟩ | ⟨A, bedA, hold, hA, hoccA, rfl⟩
  · refine ⟨?_, ?_, rfl, ?_⟩
    · intro B X bed m _ hb hm
      exact hL B X bed m hb hm
    · intro B bed hb hocc
      have := (hL B M bed member hb hmem).1 hocc
      exact hno B bed this hb hocc
    · intro B bed hb _
      exact hb
  · refine ⟨?_, ?_, rfl, ?_⟩
    · intro B X b m hX hb hm
      simp only [setBed_members] at hm
      by_cases hB : B = A
      · subst hB
        simp [hA, releaseBed] at hb
        subst hb
        have h1 := hL B X bedA m hA hm
        simp only [hoccA] at h1
        simp
        intro hh
        exact hX (Option.some.inj (h1.2 hh)).symm
      · simp [hB] at hb
        exact hL B X b m hb hm
    · intro B b hb hocc
      by_cases hB : B = A
      · subst hB
        simp [hA, releaseBed] at hb
        subst hb
        simp at hocc
      · simp [hB] at hb
        have h1 := (hL B M b member hb hmem).1 hocc
        rw [hold] at h1
        exact hB (Option.some.inj h1).symm
    · intro B bed hb hocc
      by_cases hB : B = A
      · subst hB
        rw [hA] at hb
        cases hb
        rw [hoccA] at hocc
        cases hocc
      · simp [hB, hb]

/-- Occupying a free bed with a member that no bed records makes the links
consistent again. -/
theorem occupy_link (s1 : Store) (B M : Id) (bed : BedRow)
    (hL : LinkInvExcept s1 M) (hN : NoOccupant s1 M)
    (hbed : s1.beds B = some bed) (hfree : bed.current_member_id = none) :
    LinkInv ((s1.setBed B (occupyBed M)).setMember M (setBedId (some B))) := by
  intro Y X b m hb hm
  by_cases hY : Y = B <;> by_cases hX : X = M
  · subst hY; subst hX
    simp [hbed, occupyBed] at hb
    cases hmm : s1.members X with
    | none => simp [hmm] at hm
    | some m0 =>
      simp [hmm, setBedId] at hm
      subst hb; subst hm
      simp
  · subst hY
    simp [hbed, occupyBed] at hb
    simp [hX] at hm
    subst hb
    have h1 := hL Y X bed m hX hbed hm
    simp only [hfree] at h1
    simp
    constructor
    · intro hh
      exact absurd hh.symm hX
    · intro hh
      exact absurd (h1.2 hh) (by simp)
  · subst hX
    simp [hY] at hb
    cases hmm : s1.members X with
    | none => simp [hmm] at hm
    | some m0 =>
      simp [hmm, setBedId] at hm
      subst hm
      simp
      constructor
      · intro hh
        exact absurd hh (hN Y b hb)
      · intro hh
        exact absurd hh.symm hY
  · simp [hY] at hb
    simp [hX] at hm
    exact hL Y X b m hX hb hm

/-- Deleting a bed, after clearing its occupant if it has one, keeps the links
consistent. -/
theorem dropBed_link (s : Store) (id : Id) (s1 : Store) (hL : LinkInv s)
    (h1 : s1 = s ∨ ∃ bed occupant, s.beds id = some bed ∧
      bed.current_member_id = some occupant ∧ s1 = s.setMember occupant (setBedId none)) :
    LinkInv (s1.dropBed id) := by
  rcases h1 with rfl | ⟨bed, occupant, hbed, hocc, rfl⟩
  · intro B X b m hb hm
    by_cases hB : B = id
    · simp [hB] at hb
    · simp [hB] at hb
      exact hL B X b m hb hm
  · intro B X b m hb hm
    by_cases hB : B = id
    · simp [hB] at hb
    · simp [hB] at hb
      by_cases hX : X = occupant
      · subst hX
        cases hmm : s.members X with
        | none => simp [hmm] at hm
        | some m0 =>
          simp [hmm, setBedId] at hm
          subst hm
          simp
          intro hh
          have h2 := (hL B X b m0 hb hmm).1 hh
          have h3 := (hL id X bed m0 hbed hmm).1 hocc
          rw [h2] at h3
          exact hB (Option.some.inj h3)
      · simp [hX] at hm
        exact hL B X b m hb hm

/-- Deleting a member, after releasing its bed if it has one, keeps the links
consistent. -/
theorem dropMember_link (s : Store) (id : Id) (s1 : Store) (hL : LinkInv s)
    (h1 : s1 = s ∨ ∃ member bedId, s.members id = some member ∧
      member.bed_id = some bedId ∧ s1 = s.setBed bedId releaseBed) :
    LinkInv (s1.dropMember id) := by
  rcases h1 with rfl | ⟨member, bedId, hmem, hbid, rfl⟩
  · intro B X b m hb hm
    by_cases hX : X = id
    · simp [hX] at hm
    · simp [hX] at hm
      exact hL B X b m hb hm
  · intro B X b m hb hm
    by_cases hX : X = id
    · simp [hX] at hm
    · simp [hX] at hm
      by_cases hB : B = bedId
      · subst hB
        cases hbb : s.beds B with
        | none => simp [hbb] at hb
        | some b0 =>
          simp [hbb, releaseBed] at hb
          subst hb
          simp
          intro hh
          have h2 := (hL B X b0 m hbb hm).2 hh
          have h3 := (hL B id b0 member hbb hmem).2 hbid
          rw [h2] at h3
          exact hX (Option.some.inj h3)
      · simp [hB] at hb
        exact hL B X b m hb hm

/-- The repair of `getMember` keeps the links consistent. -/
theorem repair_link (s : Store) (id bedId : Id) (member : MemberRow)
    (hL : LinkInv s) (hmem : s.members id = some member)
    (hbid : member.bed_id = some bedId)
    (hbad : (s.beds bedId).bind (fun b => b.current_member_id) ≠ some id) :
    LinkInv (s.setMember id (setBedId none)) := by
  intro B X b m hb hm
  simp only [setMember_beds] at hb
  by_cases hX : X = id
  · subst hX
    simp [hmem, setBedId] at hm
    subst hm
    simp
    intro hh
    have h2 := (hL B X b member hb hmem).1 hh
    rw [hbid] at h2
    have h3 : B = bedId := (Option.some.inj h2).symm
    subst h3
    simp [hb, hh] at hbad
  · simp [hX] at hm
    exact hL B X b m hb hm

/-! ## Preservation of the bidirectional invariant by the handlers -/

/-- A request to `assign` that is not answered 500 keeps the links consistent,
provided available beds have no occupant. -/
theorem link_assign (fault : Fault) (s : Store) (m b : Option Id)
    (hA : AvailFree s) (hL : LinkInv s) (hok : (assign fault s m b).1.code ≠ 500) :
    LinkInv (assign fault s m b).2 := by
  rcases assign_store fault s m b with h0 | ⟨mid, bid, bed, member, s1, -, -, hbed, hst, hmem, hr, hres⟩
  · rw [h0]; exact hL
  · rcases hres with hres | hres
    · rw [hres] at hok
      exact absurd rfl hok
    · rw [hres]
      obtain ⟨hE, hN, -, hkeep⟩ := assignRelease_link fault s s1 mid member hL hmem hr
      have hfree : bed.current_member_id = none := hA bid bed hbed hst
      exact occupy_link s1 bid mid bed hE hN (hkeep bid bed hbed hfree) hfree

theorem link_unassign (fault : Fault) (s : Store) (id : Id) (hL : LinkInv s) :
    LinkInv (unassign fault s id).2 := by
  rcases unassign_store fault s id with h0 | ⟨-, h0⟩ | ⟨bed, -, -, h0⟩ | ⟨bed, M, hbed, hocc, h0⟩
  · rw [h0]; exact hL
  · rw [h0]; exact hL
  · rw [h0]; exact hL
  · rw [h0]; exact release_clear_link s id M bed hL hbed hocc

theorem link_deleteBed (fault : Fault) (s : Store) (id : Id) (hL : LinkInv s) :
    LinkInv (deleteBed fault s id).2 := by
  rcases deleteBed_store fault s id with h0 | ⟨-, h0⟩ | ⟨bed, occupant, hbed, hocc, h0⟩
  · rw [h0]; exact hL
  · rw [h0]; exact dropBed_link s id s hL (Or.inl rfl)
  · rw [h0]; exact dropBed_link s id _ hL (Or.inr ⟨bed, occupant, hbed, hocc, rfl⟩)

theorem link_deleteMember (fault : Fault) (s : Store) (id : Id) (hL : LinkInv s) :
    LinkInv (deleteMember fault s id).2 := by
  rcases deleteMember_store fault s id with h0 | ⟨-, h0⟩ | ⟨member, bedId, hmem, hbid, h0⟩
  · rw [h0]; exact hL
  · rw [h0]; exact dropMember_link s id s hL (Or.inl rfl)
  · rw [h0]; exact dropMember_link s id _ hL (Or.inr ⟨member, bedId, hmem, hbid, rfl⟩)

theorem link_getMember (fault : Fault) (s : Store) (id : Id) (hL : LinkInv s) :
    LinkInv (getMember fault s id).store := by
  rcases getMember_store fault s id with h0 | ⟨member, bedId, hmem, hbid, hbad, h0⟩
  · rw [h0]; exact hL
  · rw [h0]; exact repair_link s id bedId member hL hmem hbid hbad

/-! ## Sample store -/

theorem sampleStore_status : StatusInv sampleStore := by
  intro B bed hb
  simp only [sampleStore] at hb
  split_ifs at hb <;> simp at hb <;> subst hb <;> simp [sampleBed]

theorem sampleStore_link : LinkInv sampleStore := by
  intro B M bed member hb hm
  simp only [sampleStore] at hb hm
  split_ifs at hb hm <;> simp at hb hm <;> subst hb <;> subst hm <;> simp_all [sampleBed]

/-- Without faults step 3 of `assign` always yields a store. -/
theorem assignRelease_noFault (s : Store) (M : Id) (old : Option Id) :
    ∃ s1, assignRelease noFault s M old = some s1 := by
  unfold assignRelease
  repeat' split
  all_goals simp_all [noFault]

/-- Without faults `assign` to an available bed for an existing member commits. -/
theorem assign_noFault (s : Store) (M B : Id) (bed : BedRow) (member : MemberRow)
    (hbed : s.beds B = some bed) (hst : bed.status = some "available")
    (hmem : s.members M = some member) :
    ∃ s1, assignRelease noFault s M member.bed_id = some s1 ∧
      assign noFault s (some M) (some B) =
        (⟨200, "床位分配成功"⟩,
          (s1.setBed B (occupyBed M)).setMember M (setBedId (some B))) := by
  obtain ⟨s1, h1⟩ := assignRelease_noFault s M member.bed_id
  refine ⟨s1, h1, ?_⟩
  simp [assign, hbed, hst, hmem, h1, assignTransaction, noFault]

/-- Step 3 of `assign` keeps every member row and the existence of every bed
row. -/
theorem assignRelease_rows (fault : Fault) (s s1 : Store) (M : Id) (old : Option Id)
    (h : assignRelease fault s M old = some s1) :
    s1.members = s.members ∧ ∀ B bed, s.beds B = some bed → ∃ bed1, s1.beds B = some bed1 := by
  rcases assignRelease_store fault s s1 M old h with ⟨rfl, -⟩ | ⟨A, bedA, -, -, -, rfl⟩
  · exact ⟨rfl, fun B bed hb => ⟨bed, hb⟩⟩
  · refine ⟨rfl, fun B bed hb => ?_⟩
    by_cases hB : B = A
    · subst hB
      exact ⟨releaseBed bed, by simp [hb]⟩
    · exact ⟨bed, by simp [hB, hb]⟩

/-! ## Keys and references stay below the counters -/

theorem Shrinks.refl (s : Store) : Shrinks s s :=
  ⟨rfl, rfl, fun _ bed1 h => ⟨bed1, h, Or.inl rfl⟩, fun _ m1 h => ⟨m1, h, Or.inl rfl⟩⟩

theorem Shrinks.trans {s t u : Store} (h1 : Shrinks s t) (h2 : Shrinks t u) : Shrinks s u := by
  obtain ⟨hb1, hm1, hB1, hM1⟩ := h1
  obtain ⟨hb2, hm2, hB2, hM2⟩ := h2
  refine ⟨hb2.trans hb1, hm2.trans hm1, ?_, ?_⟩
  · intro B bed2 hbed2
    obtain ⟨bed1, hbed1, hc2⟩ := hB2 B bed2 hbed2
    obtain ⟨bed, hbed, hc1⟩ := hB1 B bed1 hbed1
    refine ⟨bed, hbed, ?_⟩
    rcases hc2 with hc2 | hc2
    · rw [hc2]; exact hc1
    · right
      intro M hM
      cases hmm : t.members M with
      | none => exact absurd hmm (hc2 M hM)
      | some m1 =>
        obtain ⟨m, hm, -⟩ := hM1 M m1 hmm
        simp [hm]
  · intro M mem2 hmem2
    obtain ⟨mem1, hmem1, hc2⟩ := hM2 M mem2 hmem2
    obtain ⟨mem, hmem, hc1⟩ := hM1 M mem1 hmem1
    refine ⟨mem, hmem, ?_⟩
    rcases hc2 with hc2 | hc2
    · rw [hc2]; exact hc1
    · right
      intro B hB
      cases hbb : t.beds B with
      | none => exact absurd hbb (hc2 B hB)
      | some b1 =>
        obtain ⟨b, hb, -⟩ := hB1 B b1 hbb
        simp [hb]

theorem Shrinks.fresh {s t : Store} (h : Shrinks s t) (hF : Fresh s) : Fresh t := by
  obtain ⟨hb, hm, hB, hM⟩ := h
  obtain ⟨hFB, hFM⟩ := hF
  constructor
  · intro B bed1 hbed1
    obtain ⟨bed, hbed, hc⟩ := hB B bed1 hbed1
    rw [hb, hm]
    refine ⟨(hFB B bed hbed).1, ?_⟩
    intro M hocc
    rcases hc with hc | hc
    · rw [hc] at hocc
      exact (hFB B bed hbed).2 M hocc
    · cases hmm : s.members M with
      | none => exact absurd hmm (hc M hocc)
      | some m => exact (hFM M m hmm).1
  · intro M mem1 hmem1
    obtain ⟨mem, hmem, hc⟩ := hM M mem1 hmem1
    rw [hb, hm]
    refine ⟨(hFM M mem hmem).1, ?_⟩
    intro B hbid
    rcases hc with hc | hc
    · rw [hc] at hbid
      exact (hFM M mem hmem).2 B hbid
    · cases hbb : s.beds B with
      | none => exact absurd hbb (hc B hbid)
      | some b => exact (hFB B b hbb).1

theorem shrinks_setBed (s : Store) (id : Id) (g : BedRow → BedRow)
    (hg : ∀ b, s.beds id = some b →
      (g b).current_member_id = b.current_member_id ∨
        ∀ M, (g b).current_member_id = some M → s.members M ≠ none) :
    Shrinks s (s.setBed id g) := by
  refine ⟨rfl, rfl, ?_, fun _ m1 h => ⟨m1, h, Or.inl rfl⟩⟩
  intro B bed1 hb
  by_cases hB : B = id
  · subst hB
    cases hbb : s.beds B with
    | none => simp [hbb] at hb
    | some b0 =>
      simp [hbb] at hb
      subst hb
      exact ⟨b0, rfl, hg b0 hbb⟩
  · simp [hB] at hb
    exact ⟨bed1, hb, Or.inl rfl⟩

theorem shrinks_setMember (s : Store) (id : Id) (g : MemberRow → MemberRow)
    (hg : ∀ m, s.members id = some m →
      (g m).bed_id = m.bed_id ∨ ∀ B, (g m).bed_id = some B → s.beds B ≠ none) :
    Shrinks s (s.setMember id g) := by
  refine ⟨rfl, rfl, fun _ b1 h => ⟨b1, h, Or.inl rfl⟩, ?_⟩
  intro M mem1 hm
  by_cases hM : M = id
  · subst hM
    cases hmm : s.members M with
    | none => simp [hmm] at hm
    | some m0 =>
      simp [hmm] at hm
      subst hm
      exact ⟨m0, rfl, hg m0 hmm⟩
  · simp [hM] at hm
    exact ⟨mem1, hm, Or.inl rfl⟩

theorem shrinks_dropBed (s : Store) (id : Id) : Shrinks s (s.dropBed id) := by
  refine ⟨rfl, rfl, ?_, fun _ m1 h => ⟨m1, h, Or.inl rfl⟩⟩
  intro B bed1 hb
  by_cases hB : B = id
  · simp [hB] at hb
  · simp [hB] at hb
    exact ⟨bed1, hb, Or.inl rfl⟩

theorem shrinks_dropMember (s : Store) (id : Id) : Shrinks s (s.dropMember id) := by
  refine ⟨rfl, rfl, fun _ b1 h => ⟨b1, h, Or.inl rfl⟩, ?_⟩
  intro M mem1 hm
  by_cases hM : M = id
  · simp [hM] at hm
  · simp [hM] at hm
    exact ⟨mem1, hm, Or.inl rfl⟩

theorem shrinks_release (s : Store) (id : Id) : Shrinks s (s.setBed id releaseBed) :=
  shrinks_setBed s id releaseBed fun _ _ => Or.inr (by simp [releaseBed])

theorem shrinks_clear (s : Store) (id : Id) : Shrinks s (s.setMember id (setBedId none)) :=
  shrinks_setMember s id (setBedId none) fun _ _ => Or.inr (by simp [setBedId])

theorem shrinks_assign (fault : Fault) (s : Store) (m b : Option Id) :
    Shrinks s (assign fault s m b).2 := by
  rcases assign_store fault s m b with h0 | ⟨mid, bid, bed, member, s1, -, -, hbed, -, hmem, hr, hres⟩
  · rw [h0]; exact Shrinks.refl s
  · have h1 : Shrinks s s1 := by
      rcases assignRelease_store fault s s1 mid member.bed_id hr with
        ⟨h2, -⟩ | ⟨A, bedA, -, -, -, h2⟩
      · rw [h2]; exact Shrinks.refl s
      · rw [h2]; exact shrinks_release s A
    obtain ⟨hm1, hb1⟩ := assignRelease_rows fault s s1 mid member.bed_id hr
    rcases hres with hres | hres
    · rw [hres]; exact h1
    · rw [hres]
      refine h1.trans ((shrinks_setBed s1 bid (occupyBed mid) ?_).trans
        (shrinks_setMember _ mid (setBedId (some bid)) ?_))
      · intro b0 _
        right
        intro M hM
        simp [occupyBed] at hM
        subst hM
        simp [hm1, hmem]
      · intro m0 _
        right
        intro B hB
        simp [setBedId] at hB
        subst hB
        obtain ⟨bed1, hbed1⟩ := hb1 bid bed hbed
        simp [hbed1]

theorem shrinks_unassign (fault : Fault) (s : Store) (id : Id) :
    Shrinks s (unassign fault s id).2 := by
  rcases unassign_store fault s id with h0 | ⟨-, h0⟩ | ⟨bed, -, -, h0⟩ | ⟨bed, M, -, -, h0⟩
  · rw [h0]; exact Shrinks.refl s
  · rw [h0]; exact Shrinks.refl s
  · rw [h0]; exact Shrinks.refl s
  · rw [h0]; exact (shrinks_release s id).trans (shrinks_clear _ M)

theorem shrinks_deleteBed (fault : Fault) (s : Store) (id : Id) :
    Shrinks s (deleteBed fault s id).2 := by
  rcases deleteBed_store fault s id with h0 | ⟨-, h0⟩ | ⟨bed, occupant, -, -, h0⟩
  · rw [h0]; exact Shrinks.refl s
  · rw [h0]; exact shrinks_dropBed s id
  · rw [h0]; exact (shrinks_clear s occupant).trans (shrinks_dropBed _ id)

theorem shrinks_deleteMember (fault : Fault) (s : Store) (id : Id) :
    Shrinks s (deleteMember fault s id).2 := by
  rcases deleteMember_store fault s id with h0 | ⟨-, h0⟩ | ⟨member, bedId, -, -, h0⟩
  · rw [h0]; exact Shrinks.refl s
  · rw [h0]; exact shrinks_dropMember s id
  · rw [h0]; exact (shrinks_release s bedId).trans (shrinks_dropMember _ id)

theorem shrinks_getMember (fault : Fault) (s : Store) (id : Id) :
    Shrinks s (getMember fault s id).store := by
  rcases getMember_store fault s id with h0 | ⟨member, bedId, -, -, -, h0⟩
  · rw [h0]; exact Shrinks.refl s
  · rw [h0]; exact shrinks_clear s id

/-! ## Handlers that write other columns only -/

/-- The store after `putBed`: untouched, or the six fields of the row rewritten. -/
theorem putBed_store (fault : Fault) (s : Store) (id : Id)
    (a b c d status g : Option String) :
    (putBed fault s id a b c d status g).2 = s ∨
    (putBed fault s id a b c d status g).2 =
      s.setBed id fun r =>
        { r with bed_number := a, building := b, floor := c, room_number := d,
                 status := status, description := g } := by
  unfold putBed
  split <;> simp

/-- The store after `putMember`: untouched, or the columns other than `bed_id`
rewritten. -/
theorem putMember_store (fault : Fault) (s : Store) (id : Id)
    (updateData : MemberRow → MemberCols) :
    (putMember fault s id updateData).2 = s ∨
    ∃ cols, (putMember fault s id updateData).2 =
      s.setMember id fun m => { m with toMemberCols := cols } := by
  simp only [putMember]
  split
  · left; rfl
  · split
    · left; rfl
    · split
      · left; rfl
      · split
        · right; exact ⟨_, rfl⟩
        · right; exact ⟨_, rfl⟩

/-- The store after `postMonitor`: untouched, or columns other than `bed_id`
rewritten. -/
theorem postMonitor_store (fault : Fault) (s : Store) (member_id : Option Id)
    (w h : Option String) (d : Option (Option String)) :
    (postMonitor fault s member_id w h d).2 = s ∨
    ∃ mid g, (∀ m, (g m).bed_id = m.bed_id) ∧
      (postMonitor fault s member_id w h d).2 = s.setMember mid g := by
  cases member_id with
  | none => left; rfl
  | some mid =>
    simp only [postMonitor]
    split
    · split
      · left; rfl
      · right
        refine ⟨mid, _, ?_, rfl⟩
        intro m
        rfl
    · left; rfl

/-- Rewriting a bed row without touching its occupant keeps the links. -/
theorem link_setBed_same (s : Store) (id : Id) (g : BedRow → BedRow)
    (hg : ∀ b, (g b).current_member_id = b.current_member_id) (hL : LinkInv s) :
    LinkInv (s.setBed id g) := by
  intro B X b m hb hm
  by_cases hB : B = id
  · subst hB
    cases hbb : s.beds B with
    | none => simp [hbb] at hb
    | some b0 =>
      simp [hbb] at hb
      subst hb
      rw [hg]
      exact hL B X b0 m hbb hm
  · simp [hB] at hb
    exact hL B X b m hb hm

/-- Rewriting a member row without touching its bed keeps the links. -/
theorem link_setMember_same (s : Store) (id : Id) (g : MemberRow → MemberRow)
    (hg : ∀ m, (g m).bed_id = m.bed_id) (hL : LinkInv s) :
    LinkInv (s.setMember id g) := by
  intro B X b m hb hm
  by_cases hX : X = id
  · subst hX
    cases hmm : s.members X with
    | none => simp [hmm] at hm
    | some m0 =>
      simp [hmm] at hm
      subst hm
      rw [hg]
      exact hL B X b m0 hb hmm
  · simp [hX] at hm
    exact hL B X b m hb hm

theorem link_putBed (fault : Fault) (s : Store) (id : Id) (a b c d status g : Option String)
    (hL : LinkInv s) : LinkInv (putBed fault s id a b c d status g).2 := by
  rcases putBed_store fault s id a b c d status g with h0 | h0
  · rw [h0]; exact hL
  · rw [h0]; exact link_setBed_same s id _ (fun _ => rfl) hL

theorem link_putMember (fault : Fault) (s : Store) (id : Id)
    (updateData : MemberRow → MemberCols) (hL : LinkInv s) :
    LinkInv (putMember fault s id updateData).2 := by
  rcases putMember_store fault s id updateData with h0 | ⟨cols, h0⟩
  · rw [h0]; exact hL
  · rw [h0]; exact link_setMember_same s id _ (fun _ => rfl) hL

theorem link_postMonitor (fault : Fault) (s : Store) (member_id : Option Id)
    (w h : Option String) (d : Option (Option String)) (hL : LinkInv s) :
    LinkInv (postMonitor fault s member_id w h d).2 := by
  rcases postMonitor_store fault s member_id w h d with h0 | ⟨mid, g, hg, h0⟩
  · rw [h0]; exact hL
  · rw [h0]; exact link_setMember_same s mid g hg hL

theorem shrinks_putBed (fault : Fault) (s : Store) (id : Id) (a b c d status g : Option String) :
    Shrinks s (putBed fault s id a b c d status g).2 := by
  rcases putBed_store fault s id a b c d status g with h0 | h0
  · rw [h0]; exact Shrinks.refl s
  · rw [h0]; exact shrinks_setBed s id _ (fun _ _ => Or.inl rfl)

theorem shrinks_putMember (fault : Fault) (s : Store) (id : Id)
    (updateData : MemberRow → MemberCols) : Shrinks s (putMember fault s id updateData).2 := by
  rcases putMember_store fault s id updateData with h0 | ⟨cols, h0⟩
  · rw [h0]; exact Shrinks.refl s
  · rw [h0]; exact shrinks_setMember s id _ (fun _ _ => Or.inl rfl)

theorem shrinks_postMonitor (fault : Fault) (s : Store) (member_id : Option Id)
    (w h : Option String) (d : Option (Option String)) :
    Shrinks s (postMonitor fault s member_id w h d).2 := by
  rcases postMonitor_store fault s member_id w h d with h0 | ⟨mid, g, hg, h0⟩
  · rw [h0]; exact Shrinks.refl s
  · rw [h0]; exact shrinks_setMember s mid g (fun m _ => Or.inl (hg m))

theorem putMember_beds (fault : Fault) (s : Store) (id : Id)
    (updateData : MemberRow → MemberCols) : (putMember fault s id updateData).2.beds = s.beds := by
  rcases putMember_store fault s id updateData with h0 | ⟨cols, h0⟩
  · rw [h0]
  · rw [h0]; rfl

theorem postMonitor_beds (fault : Fault) (s : Store) (member_id : Option Id)
    (w h : Option String) (d : Option (Option String)) :
    (postMonitor fault s member_id w h d).2.beds = s.beds := by
  rcases postMonitor_store fault s member_id w h d with h0 | ⟨mid, g, hg, h0⟩
  · rw [h0]
  · rw [h0]; rfl

theorem createMember_beds (fault : Fault) (s : Store) (cols : MemberCols) :
    (createMember fault s cols).2.beds = s.beds := by
  unfold createMember
  repeat' split
  all_goals rfl

theorem bedsSat_of_beds (P : BedRow → Prop) (s t : Store) (h : t.beds = s.beds)
    (hs : BedsSat P s) : BedsSat P t := by
  intro B bed hb
  rw [h] at hb
  exact hs B bed hb

/-! ## Inserts -/

theorem createBed_store (fault : Fault) (s : Store) (a b c d status g : Option String) :
    (createBed fault s a b c d status g).2 = s ∨
    (createBed fault s a b c d status g).2 =
      { s with
        beds := fun i =>
          if i = s.nextBedId then some ⟨a, b, c, d, status, g, none⟩ else s.beds i
        nextBedId := s.nextBedId + 1 } := by
  unfold createBed
  split
  · left; rfl
  · right; rfl

theorem createMember_store (fault : Fault) (s : Store) (cols : MemberCols) :
    (createMember fault s cols).2 = s ∨
    (createMember fault s cols).2 =
      { s with
        members := fun i => if i = s.nextMemberId then some ⟨cols, none⟩ else s.members i
        nextMemberId := s.nextMemberId + 1 } := by
  unfold createMember
  split
  · left; rfl
  · split
    · left; rfl
    · right; rfl

/-- An inserted bed is recorded by no member, so the links stay consistent. -/
theorem link_createBed (fault : Fault) (s : Store) (a b c d status g : Option String)
    (hF : Fresh s) (hL : LinkInv s) : LinkInv (createBed fault s a b c d status g).2 := by
  rcases createBed_store fault s a b c d status g with h0 | h0
  · rw [h0]; exact hL
  · rw [h0]
    intro B X bed m hb hm
    simp only at hb hm
    by_cases hB : B = s.nextBedId
    · subst hB
      simp at hb
      subst hb
      simp
      intro hh
      exact absurd ((hF.2 X m hm).2 _ hh) (lt_irrefl _)
    · simp [hB] at hb
      exact hL B X bed m hb hm

/-- An inserted member is recorded by no bed, so the links stay consistent. -/
theorem link_createMember (fault : Fault) (s : Store) (cols : MemberCols)
    (hF : Fresh s) (hL : LinkInv s) : LinkInv (createMember fault s cols).2 := by
  rcases createMember_store fault s cols with h0 | h0
  · rw [h0]; exact hL
  · rw [h0]
    intro B X bed m hb hm
    simp only at hb hm
    by_cases hX : X = s.nextMemberId
    · subst hX
      simp at hm
      subst hm
      simp
      intro hh
      exact absurd ((hF.1 B bed hb).2 _ hh) (lt_irrefl _)
    · simp [hX] at hm
      exact hL B X bed m hb hm

theorem fresh_createBed (fault : Fault) (s : Store) (a b c d status g : Option String)
    (hF : Fresh s) : Fresh (createBed fault s a b c d status g).2 := by
  rcases createBed_store fault s a b c d status g with h0 | h0
  · rw [h0]; exact hF
  · rw [h0]
    constructor
    · intro B bed hb
      simp only at hb ⊢
      by_cases hB : B = s.nextBedId
      · subst hB
        simp at hb
        subst hb
        exact ⟨PNat.lt_add_right _ _, fun M hM => by simp at hM⟩
      · simp [hB] at hb
        exact ⟨lt_trans (hF.1 B bed hb).1 (PNat.lt_add_right _ _), (hF.1 B bed hb).2⟩
    · intro M m hm
      simp only at hm ⊢
      exact ⟨(hF.2 M m hm).1,
        fun B hB => lt_trans ((hF.2 M m hm).2 B hB) (PNat.lt_add_right _ _)⟩

theorem fresh_createMember (fault : Fault) (s : Store) (cols : MemberCols)
    (hF : Fresh s) : Fresh (createMember fault s cols).2 := by
  rcases createMember_store fault s cols with h0 | h0
  · rw [h0]; exact hF
  · rw [h0]
    constructor
    · intro B bed hb
      simp only at hb ⊢
      exact ⟨(hF.1 B bed hb).1,
        fun M hM => lt_trans ((hF.1 B bed hb).2 M hM) (PNat.lt_add_right _ _)⟩
    · intro M m hm
      simp only at hm ⊢
      by_cases hM : M = s.nextMemberId
      · subst hM
        simp at hm
        subst hm
        exact ⟨PNat.lt_add_right _ _, fun B hB => by simp at hB⟩
      · simp [hM] at hm
        exact ⟨lt_trans (hF.2 M m hm).1 (PNat.lt_add_right _ _), (hF.2 M m hm).2⟩

/-- A property of bed rows survives `createBed` when the inserted row has it. -/
theorem bedsSat_createBed (P : BedRow → Prop) (fault : Fault) (s : Store)
    (a b c d status g : Option String) (hP : P ⟨a, b, c, d, status, g, none⟩)
    (h : BedsSat P s) : BedsSat P (createBed fault s a b c d status g).2 := by
  rcases createBed_store fault s a b c d status g with h0 | h0
  · rw [h0]; exact h
  · rw [h0]
    intro B bed hb
    simp only at hb
    by_cases hB : B = s.nextBedId
    · subst hB
      simp at hb
      subst hb
      exact hP
    · simp [hB] at hb
      exact h B bed hb

/-- A property of bed rows survives `putBed` when the rewritten row has it. -/
theorem bedsSat_putBed (P : BedRow → Prop) (fault : Fault) (s : Store) (id : Id)
    (a b c d status g : Option String)
    (hP : ∀ r, s.beds id = some r →
      P { r with bed_number := a, building := b, floor := c, room_number := d,
                 status := status, description := g })
    (h : BedsSat P s) : BedsSat P (putBed fault s id a b c d status g).2 := by
  rcases putBed_store fault s id a b c d status g with h0 | h0
  · rw [h0]; exact h
  · rw [h0]; exact bedsSat_setBed P s id _ h hP

/-! ## One request, then a run -/

theorem good_empty : Good Store.empty := by
  refine ⟨?_, ?_, ?_, ?_⟩
  · intro B M bed member hb
    simp [Store.empty] at hb
  · intro B bed hb
    simp [Store.empty] at hb
  · intro B bed hb
    simp [Store.empty] at hb
  · intro M member hm
    simp [Store.empty] at hm

theorem good_step (fault : Fault) (s : Store) (op : Op) (h : Good s)
    (hsafe : linkSafe s fault op = true) : Good (step fault s op) := by
  obtain ⟨hL, hA, hF⟩ := h
  cases op with
  | createBed a b c d status g =>
    exact ⟨link_createBed fault s a b c d status g hF hL,
      bedsSat_createBed _ fault s a b c d status g (fun _ => rfl) hA,
      fresh_createBed fault s a b c d status g hF⟩
  | putBed id a b c d status g =>
    refine ⟨link_putBed fault s id a b c d status g hL,
      bedsSat_putBed _ fault s id a b c d status g ?_ hA,
      (shrinks_putBed fault s id a b c d status g).fresh hF⟩
    intro r hr hst
    simp only [linkSafe, decide_eq_true_eq] at hsafe
    have := hsafe hst
    simpa [hr] using this
  | assign m b =>
    simp only [linkSafe, decide_eq_true_eq] at hsafe
    exact ⟨link_assign fault s m b hA hL hsafe,
      bedsSat_assign _ availFree_release availFree_occupy fault s m b hA,
      (shrinks_assign fault s m b).fresh hF⟩
  | unassign id =>
    exact ⟨link_unassign fault s id hL, bedsSat_unassign _ availFree_release fault s id hA,
      (shrinks_unassign fault s id).fresh hF⟩
  | deleteBed id =>
    exact ⟨link_deleteBed fault s id hL, bedsSat_deleteBed _ fault s id hA,
      (shrinks_deleteBed fault s id).fresh hF⟩
  | createMember cols =>
    exact ⟨link_createMember fault s cols hF hL,
      bedsSat_of_beds _ s _ (createMember_beds fault s cols) hA,
      fresh_createMember fault s cols hF⟩
  | putMember id u =>
    exact ⟨link_putMember fault s id u hL,
      bedsSat_of_beds _ s _ (putMember_beds fault s id u) hA,
      (shrinks_putMember fault s id u).fresh hF⟩
  | deleteMember id =>
    exact ⟨link_deleteMember fault s id hL,
      bedsSat_deleteMember _ availFree_release fault s id hA,
      (shrinks_deleteMember fault s id).fresh hF⟩
  | getMember id =>
    exact ⟨link_getMember fault s id hL, bedsSat_getMember _ fault s id hA,
      (shrinks_getMember fault s id).fresh hF⟩
  | postMonitor m w h d =>
    exact ⟨link_postMonitor fault s m w h d hL,
      bedsSat_of_beds _ s _ (postMonitor_beds fault s m w h d) hA,
      (shrinks_postMonitor fault s m w h d).fresh hF⟩

theorem good_run (ops : List (Fault × Op)) :
    ∀ s, Good s → runOk linkSafe s ops = true → Good (run s ops) := by
  induction ops with
  | nil => intro s h _; exact h
  | cons x rest ih =>
    intro s h hok
    obtain ⟨fault, op⟩ := x
    simp only [runOk, Bool.and_eq_true] at hok
    exact ih (step fault s op) (good_step fault s op h hok.1) hok.2

theorem status_step (fault : Fault) (s : Store) (op : Op) (hS : StatusInv s)
    (hsafe : statusSafe s fault op = true) : StatusInv (step fault s op) := by
  cases op with
  | createBed a b c d status g =>
    simp only [statusSafe, decide_eq_true_eq] at hsafe
    refine bedsSat_createBed _ fault s a b c d status g ?_ hS
    simp [hsafe]
  | putBed id a b c d status g =>
    refine bedsSat_putBed _ fault s id a b c d status g ?_ hS
    intro r hr
    simp only [statusSafe, hr, decide_eq_true_eq] at hsafe
    exact hsafe
  | assign m b => exact bedsSat_assign _ statusInv_release statusInv_occupy fault s m b hS
  | unassign id => exact bedsSat_unassign _ statusInv_release fault s id hS
  | deleteBed id => exact bedsSat_deleteBed _ fault s id hS
  | createMember cols => exact bedsSat_of_beds _ s _ (createMember_beds fault s cols) hS
  | putMember id u => exact bedsSat_of_beds _ s _ (putMember_beds fault s id u) hS
  | deleteMember id => exact bedsSat_deleteMember _ statusInv_release fault s id hS
  | getMember id => exact bedsSat_getMember _ fault s id hS
  | postMonitor m w h d =>
    exact bedsSat_of_beds _ s _ (postMonitor_beds fault s m w h d) hS

theorem status_run (ops : List (Fault × Op)) :
    ∀ s, StatusInv s → runOk statusSafe s ops = true → StatusInv (run s ops) := by
  induction ops with
  | nil => intro s hS _; exact hS
  | cons x rest ih =>
    intro s hS hok
    obtain ⟨fault, op⟩ := x
    simp only [runOk, Bool.and_eq_true] at hok
    exact ih (step fault s op) (status_step fault s op hS hok.1) hok.2

theorem statusInv_empty : StatusInv Store.empty := by
  intro B bed hb
  simp [Store.empty] at hb

/-! ## Records and identifiers -/

theorem idOf_condition (id name severity : JsVal) : idOf (condition id name severity) = id := by
  simp [idOf, condition, JsVal.get, List.lookup]

theorem nameOf_condition (id name severity : JsVal) :
    nameOf (condition id name severity) = name := by
  simp [nameOf, condition, JsVal.get, List.lookup]

theorem severityOf_condition (id name severity : JsVal) :
    severityOf (condition id name severity) = severity := by
  simp [severityOf, condition, JsVal.get, List.lookup]

theorem lookup_setField (fields : List (String × JsVal)) (key : String) (v : JsVal) :
    (setField fields key v).lookup key = some v := by
  unfold setField
  split
  · rename_i h
    induction fields with
    | nil => simp at h
    | cons p rest ih =>
      by_cases hp : p.1 = key
      · obtain ⟨a, b⟩ := p
        simp only at hp
        subst hp
        show List.lookup a ((if a = a then (a, v) else (a, b)) :: _) = some v
        rw [if_pos rfl]
        simp [List.lookup]
      · have hne : (key == p.1) = false := by
          simp only [beq_eq_false_iff_ne, ne_eq]
          exact fun h1 => hp h1.symm
        simp only [List.any_cons, Bool.or_eq_true] at h
        have hrest : rest.any (fun p => p.1 == key) = true := by
          rcases h with h | h
          · exact absurd (by simpa using h) hp
          · exact h
        simp only [List.map_cons, hp, if_false]
        obtain ⟨a, b⟩ := p
        simp only [List.lookup, hne]
        exact ih hrest
  · rename_i h
    induction fields with
    | nil => simp [List.lookup]
    | cons p rest ih =>
      simp only [List.any_cons, Bool.or_eq_true, not_or] at h
      have hne : (key == p.1) = false := by
        simp only [beq_eq_false_iff_ne, ne_eq]
        intro h1
        exact h.1 (by simp [h1])
      obtain ⟨a, b⟩ := p
      simp only [List.cons_append, List.lookup, hne]
      exact ih h.2

theorem idOf_withId (item id : JsVal) : idOf (withId item id) = id := by
  simp [idOf, withId, JsVal.get, lookup_setField]

theorem get_withId (item id : JsVal) : (withId item id).get "id" = some id := by
  simp [withId, JsVal.get, lookup_setField]

theorem mintId_truthy (mint : Mint) (k : Nat) : (mintId mint k).truthy = true := by
  simp only [mintId, JsVal.truthy, bne_iff_ne, ne_eq]
  intro h
  have h1 := congrArg String.length h
  simp [String.length_append] at h1
  have h2 : ("hc-" : String).length = 3 := by decide
  omega

theorem mintId_injective (mint : Mint) (hinj : Function.Injective mint) :
    Function.Injective (mintId mint) := by
  intro a b h
  simp only [mintId, JsVal.str.injEq] at h
  apply hinj
  have h1 := congrArg String.data h
  simp only [String.data_append] at h1
  exact String.ext (List.append_cancel_left h1)

theorem hasId_condition (mint : Mint) (k : Nat) (name severity : JsVal) :
    hasId (condition (mintId mint k) name severity) :=
  ⟨mintId mint k, by simp [condition, JsVal.get, List.lookup], mintId_truthy mint k⟩

theorem hasId_withId (item id : JsVal) (h : id.truthy = true) : hasId (withId item id) :=
  ⟨id, get_withId item id, h⟩

/-- A value that carries an id is an object. -/
theorem hasId_obj (v : JsVal) (h : hasId v) : ∃ fields, v = .obj fields := by
  obtain ⟨id, hget, ht⟩ := h
  cases v with
  | obj fields => exact ⟨fields, rfl⟩
  | undefined => simp [JsVal.get] at hget
  | null => simp [JsVal.get] at hget
  | bool b => simp [JsVal.get] at hget; subst hget; simp [JsVal.truthy] at ht
  | num t => simp [JsVal.get] at hget; subst hget; simp [JsVal.truthy] at ht
  | str s => simp [JsVal.get] at hget; subst hget; simp [JsVal.truthy] at ht
  | arr items => simp [JsVal.get] at hget; subst hget; simp [JsVal.truthy] at ht

/-- A record that carries an id is returned as it is, without a new id, by the
three callbacks. -/
theorem directItem_hasId (mint : Mint) (k : Nat) (y : JsVal) (h : hasId y) :
    directItem mint k y = (some y, k) := by
  obtain ⟨fields, rfl⟩ := hasId_obj y h
  obtain ⟨id, hget, ht⟩ := h
  simp only [JsVal.get, Option.some.injEq] at hget
  simp [directItem, JsVal.isString, JsVal.isObject, JsVal.get, hget, ht]

theorem parsedItem_hasId (mint : Mint) (k : Nat) (y : JsVal) (h : hasId y) :
    parsedItem mint k y = (some y, k) := by
  obtain ⟨fields, rfl⟩ := hasId_obj y h
  obtain ⟨id, hget, ht⟩ := h
  simp only [JsVal.get, Option.some.injEq] at hget
  simp [parsedItem, JsVal.isString, JsVal.get, hget, ht]

theorem readItem_hasId (mint : Mint) (k : Nat) (y : JsVal) (h : hasId y) :
    readItem mint k y = (some y, k) := by
  obtain ⟨fields, rfl⟩ := hasId_obj y h
  obtain ⟨id, hget, ht⟩ := h
  simp only [JsVal.get, Option.some.injEq] at hget
  simp [readItem, JsVal.isString, JsVal.isObject, JsVal.get, hget, ht]

theorem mapItems_fix (f : Nat → JsVal → Option JsVal × Nat) (k : Nat) (ys : List JsVal)
    (hf : ∀ y, hasId y → f k y = (some y, k)) (h : ∀ y ∈ ys, hasId y) :
    mapItems f k ys = (some ys, k) := by
  induction ys with
  | nil => rfl
  | cons y rest ih =>
    have h1 := hf y (h y (List.mem_cons_self y rest))
    have h2 := ih (fun z hz => h z (List.mem_cons_of_mem y hz))
    simp [mapItems, h1, h2]

/-! ## The callbacks on strings and objects -/

theorem hasId_iff_obj (fields : List (String × JsVal)) :
    hasId (.obj fields) ↔ (idOf (.obj fields)).truthy = true := by
  constructor
  · rintro ⟨id, hget, ht⟩
    simp only [JsVal.get, Option.some.injEq] at hget
    simp [idOf, JsVal.get, hget, ht]
  · intro h
    exact ⟨_, rfl, h⟩

/-- The callback for direct arrays on an object: it is returned as it is when it
carries an id; otherwise a condition is built with a generated id, the name of
the object or the text of the object, and the severity of the object or
moderate. -/
theorem directItem_obj (mint : Mint) (k : Nat) (fields : List (String × JsVal))
    (hd : isDirectItem (.obj fields) = true) :
    (hasId (.obj fields) ∧ directItem mint k (.obj fields) = (some (.obj fields), k)) ∨
    (¬ hasId (.obj fields) ∧
      directItem mint k (.obj fields) =
        (some (condition (mintId mint k)
          ((nameOf (.obj fields)).orElse (.str "[object Object]"))
          ((severityOf (.obj fields)).orElse (.str "moderate"))), k + 1)) := by
  by_cases h : (idOf (.obj fields)).truthy = true
  · left
    exact ⟨(hasId_iff_obj fields).2 h, directItem_hasId mint k _ ((hasId_iff_obj fields).2 h)⟩
  · right
    refine ⟨fun hh => h ((hasId_iff_obj fields).1 hh), ?_⟩
    simp only [isDirectItem, h, Bool.false_or, Bool.or_eq_true, Bool.not_eq_true'] at hd
    simp only [idOf, JsVal.get, Option.getD_some] at h
    simp only [nameOf, JsVal.get, Option.getD_some] at hd
    rcases hd with hn | hn
    · simp [directItem, JsVal.isString, JsVal.isObject, JsVal.get, h, nameOf, severityOf,
        JsVal.orStr, JsVal.orElse, hn]
    · by_cases hn1 : ((List.lookup "name" fields).getD JsVal.undefined).truthy = true
      · simp [directItem, JsVal.isString, JsVal.isObject, JsVal.get, h, nameOf, severityOf,
          JsVal.orStr, JsVal.orElse, hn1]
      · simp [directItem, JsVal.isString, JsVal.isObject, JsVal.get, h, nameOf, severityOf,
          JsVal.orStr, JsVal.orElse, hn1, JsVal.toStr, hn]

/-- On an object without id and without truthy name whose own property
`toString` hides the inherited method, the callback for direct arrays throws,
after it has generated an identifier. -/
theorem directItem_throws (mint : Mint) (k : Nat) (fields : List (String × JsVal))
    (hd : isDirectItem (.obj fields) = false) :
    directItem mint k (.obj fields) = (none, k + 1) := by
  simp only [isDirectItem, Bool.or_eq_false_iff, Bool.not_eq_false'] at hd
  obtain ⟨⟨hi, hn⟩, ht⟩ := hd
  simp only [idOf, nameOf, JsVal.get, Option.getD_some] at hi hn
  simp [directItem, JsVal.isString, JsVal.isObject, JsVal.get, hi, hn, JsVal.orStr,
    JsVal.toStr, ht]

theorem isDirectItem_cond (x : JsVal) (h : isDirectItem x = true) : isCondItem x = true := by
  cases x <;> simp_all [isDirectItem, isCondItem]

theorem directItem_str (mint : Mint) (k : Nat) (s : String) :
    directItem mint k (.str s) =
      (some (condition (mintId mint k) (.str s) (.str "moderate")), k + 1) := by
  simp [directItem, JsVal.isString]

theorem not_hasId_str (s : String) : ¬ hasId (.str s) := by
  intro h
  obtain ⟨fields, hf⟩ := hasId_obj _ h
  cases hf

/-- On a string or an object the callback for direct arrays does not throw, its
result carries an id, and an element that carries an id is returned as it is
without generating one. -/
theorem directItem_cond (mint : Mint) (k : Nat) (x : JsVal) (hx : isDirectItem x = true) :
    ∃ y k1, directItem mint k x = (some y, k1) ∧ hasId y ∧ (hasId x → y = x ∧ k1 = k) := by
  cases x with
  | str s =>
    exact ⟨_, _, directItem_str mint k s, hasId_condition mint k _ _,
      fun h => absurd h (not_hasId_str s)⟩
  | obj fields =>
    rcases directItem_obj mint k fields hx with ⟨h, heq⟩ | ⟨h, heq⟩
    · exact ⟨_, _, heq, h, fun _ => ⟨rfl, rfl⟩⟩
    · exact ⟨_, _, heq, hasId_condition mint k _ _, fun hh => absurd hh h⟩
  | undefined => simp [isDirectItem] at hx
  | null => simp [isDirectItem] at hx
  | bool b => simp [isDirectItem] at hx
  | num t => simp [isDirectItem] at hx
  | arr items => simp [isDirectItem] at hx

/-- When the callback succeeds on every element of the domain with a result
related to the element, `mapItems` returns a list related position by
position. -/
theorem mapItems_forall₂ (f : Nat → JsVal → Option JsVal × Nat) (D : JsVal → Prop)
    (R : JsVal → JsVal → Prop)
    (hf : ∀ k x, D x → ∃ y k1, f k x = (some y, k1) ∧ R x y) (xs : List JsVal) :
    ∀ k, (∀ x ∈ xs, D x) → ∃ out k1, mapItems f k xs = (some out, k1) ∧ List.Forall₂ R xs out := by
  induction xs with
  | nil => intro k _; exact ⟨[], k, rfl, List.Forall₂.nil⟩
  | cons x rest ih =>
    intro k h
    obtain ⟨y, k1, hy, hR⟩ := hf k x (h x (List.mem_cons_self x rest))
    obtain ⟨out, k2, hout, hF⟩ := ih k1 (fun z hz => h z (List.mem_cons_of_mem x hz))
    exact ⟨y :: out, k2, by simp [mapItems, hy, hout], List.Forall₂.cons hR hF⟩

theorem forall₂_right {R : JsVal → JsVal → Prop} {P : JsVal → Prop} {xs out : List JsVal}
    (h : List.Forall₂ R xs out) (hP : ∀ x y, R x y → P y) : ∀ y ∈ out, P y := by
  induction h with
  | nil => intro y hy; cases hy
  | cons hxy _ ih =>
    intro y hy
    rcases List.mem_cons.1 hy with rfl | hy
    · exact hP _ _ hxy
    · exact ih y hy

theorem monitor_direct (parse : String → Option JsVal) (mint : Mint) (k : Nat)
    (xs : List JsVal) (hs : JsVal) :
    monitorConditions parse mint k (.arr xs) hs = mapItems (directItem mint) k xs := by
  simp [monitorConditions, JsVal.truthy]

theorem put_direct (parse : String → Option JsVal) (mint : Mint) (k : Nat)
    (xs : List JsVal) (hs : JsVal) :
    putConditions parse mint k (.arr xs) hs = mapItems (directItem mint) k xs := by
  simp [putConditions, JsVal.truthy]

/-- Every path over a list of records that all carry an id returns the list as it
is and generates no id. -/
theorem renormalise_fix (parse : String → Option JsVal) (mint : Mint) (k : Nat)
    (out : List JsVal) (hs : JsVal) (h : ∀ y ∈ out, hasId y) :
    monitorConditions parse mint k (.arr out) hs = (some out, k) ∧
    putConditions parse mint k (.arr out) hs = (some out, k) ∧
    ∀ t, t ≠ "" → parse t = some (.arr out) →
      monitorConditions parse mint k (.str t) hs = (some out, k) ∧
      putConditions parse mint k (.str t) hs = (some out, k) ∧
      monitorConditions parse mint k .undefined (.str t) = (some out, k) ∧
      putConditions parse mint k .undefined (.str t) = (some out, k) ∧
      readConditions parse mint k (some t) = (out, k) := by
  have hd := mapItems_fix (directItem mint) k out (directItem_hasId mint k) h
  have hp := mapItems_fix (parsedItem mint) k out (parsedItem_hasId mint k) h
  have hr := mapItems_fix (readItem mint) k out (readItem_hasId mint k) h
  refine ⟨by rw [monitor_direct, hd], by rw [put_direct, hd], ?_⟩
  intro t ht hparse
  have htr : (JsVal.str t).truthy = true := by simp [JsVal.truthy, ht]
  refine ⟨?_, ?_, ?_, ?_, ?_⟩
  · simp [monitorConditions, htr, hparse, writeParsed, hp, orCatch, tryParse]
  · simp [putConditions, htr, hparse, writeParsed, hp, orCatch, tryParse]
  · simp [monitorConditions, JsVal.truthy, ht, JsVal.toStr, hparse, writeParsed, hp, orCatch, tryParse, tryParseOf]
  · simp [putConditions, JsVal.truthy, ht, JsVal.toStr, hparse, writeParsed, hp, orCatch, tryParse, tryParseOf]
  · simp [readConditions, ht, hparse, hr]

/-! ## String inputs never reach the outer catch -/

theorem orCatch_isSome (r : Option (List JsVal) × Nat)
    (handler : Nat → Option (List JsVal) × Nat) (h : ∀ k1, (handler k1).1.isSome = true) :
    (orCatch r handler).1.isSome = true := by
  rcases r with ⟨_ | out, k1⟩
  · exact h k1
  · rfl

theorem tryParse_isSome (parse : String → Option JsVal) (s : String) (k : Nat)
    (body : JsVal → Option (List JsVal) × Nat) (handler : Nat → Option (List JsVal) × Nat)
    (h : ∀ k1, (handler k1).1.isSome = true) :
    (tryParse parse s k body handler).1.isSome = true := by
  unfold tryParse
  cases parse s with
  | none => exact h k
  | some parsed => exact orCatch_isSome _ _ h

theorem monitor_str_conditions (parse : String → Option JsVal) (mint : Mint) (k : Nat)
    (s : String) (hs : JsVal) (h : s ≠ "") :
    (monitorConditions parse mint k (.str s) hs).1.isSome = true := by
  have htr : (JsVal.str s).truthy = true := by simp [JsVal.truthy, h]
  simp only [monitorConditions, htr, if_true]
  exact tryParse_isSome _ _ _ _ _ (fun _ => rfl)

theorem monitor_str_status (parse : String → Option JsVal) (mint : Mint) (k : Nat)
    (hc : JsVal) (s : String) (hhc : hc.truthy = false) :
    (monitorConditions parse mint k hc (.str s)).1.isSome = true := by
  simp only [monitorConditions, hhc, Bool.false_eq_true, if_false]
  split
  · exact tryParse_isSome _ _ _ _ _ (fun _ => rfl)
  · rfl

theorem put_str_conditions (parse : String → Option JsVal) (mint : Mint) (k : Nat)
    (s : String) (hs : JsVal) (h : s ≠ "") :
    (putConditions parse mint k (.str s) hs).1.isSome = true := by
  have htr : (JsVal.str s).truthy = true := by simp [JsVal.truthy, h]
  simp only [putConditions, htr, Bool.true_or, if_true]
  exact tryParse_isSome _ _ _ _ _ (fun _ => rfl)

theorem put_str_status (parse : String → Option JsVal) (mint : Mint) (k : Nat)
    (hc : JsVal) (s : String) (hhc : hc.truthy = false) :
    (putConditions parse mint k hc (.str s)).1.isSome = true := by
  simp only [putConditions, hhc, Bool.false_or, Bool.false_eq_true, if_false]
  split
  · exact tryParse_isSome _ _ _ _ _ (fun _ => rfl)
  · rfl

/-! ## The callbacks on objects -/

theorem orElse_truthy (a b : JsVal) (hb : b.truthy = true) : (a.orElse b).truthy = true := by
  unfold JsVal.orElse
  split
  · assumption
  · exact hb

theorem orElse_of_truthy (a b : JsVal) (ha : a.truthy = true) : a.orElse b = a := by
  simp [JsVal.orElse, ha]

theorem orElse_of_falsy (a b : JsVal) (ha : a.truthy = false) : a.orElse b = b := by
  simp [JsVal.orElse, ha]

/-- The callback for parsed arrays on an object: it is returned as it is when it
carries an id; otherwise it is copied with a generated id and nothing else is
filled in. -/
theorem parsedItem_obj (mint : Mint) (k : Nat) (fields : List (String × JsVal)) :
    (hasId (.obj fields) ∧ parsedItem mint k (.obj fields) = (some (.obj fields), k)) ∨
    (¬ hasId (.obj fields) ∧
      parsedItem mint k (.obj fields) =
        (some (withId (.obj fields) (mintId mint k)), k + 1)) := by
  by_cases h : (idOf (.obj fields)).truthy = true
  · left
    exact ⟨(hasId_iff_obj fields).2 h, parsedItem_hasId mint k _ ((hasId_iff_obj fields).2 h)⟩
  · right
    refine ⟨fun hh => h ((hasId_iff_obj fields).1 hh), ?_⟩
    simp only [idOf, JsVal.get, Option.getD_some] at h
    simp [parsedItem, JsVal.isString, JsVal.get, h]

theorem directItem_fill (mint : Mint) (k : Nat) (x : JsVal) (hx : isObj x = true)
    (hd : isDirectItem x = true) :
    ∃ y k1, directItem mint k x = (some y, k1) ∧
      hasId y ∧ (hasId x → y = x) ∧ (¬ hasId x → DirectFill x y) := by
  cases x with
  | obj fields =>
    rcases directItem_obj mint k fields hd with ⟨h, heq⟩ | ⟨h, heq⟩
    · exact ⟨_, _, heq, h, fun _ => rfl, fun hh => absurd h hh⟩
    · refine ⟨_, _, heq, hasId_condition mint k _ _, fun hh => absurd hh h, fun _ => ?_⟩
      refine ⟨?_, ?_, ?_, ?_⟩
      · rw [nameOf_condition]
        exact orElse_truthy _ _ rfl
      · rw [severityOf_condition]
        exact orElse_truthy _ _ rfl
      · intro hs
        rw [severityOf_condition, orElse_of_falsy _ _ hs]
      · intro hs
        rw [severityOf_condition, orElse_of_truthy _ _ hs]
  | undefined => simp [isObj] at hx
  | null => simp [isObj] at hx
  | bool b => simp [isObj] at hx
  | num t => simp [isObj] at hx
  | str s => simp [isObj] at hx
  | arr items => simp [isObj] at hx

theorem parsedItem_keep (mint : Mint) (k : Nat) (x : JsVal) (hx : isObj x = true) :
    ∃ y k1, parsedItem mint k x = (some y, k1) ∧ hasId y ∧ (hasId x → y = x) := by
  cases x with
  | obj fields =>
    rcases parsedItem_obj mint k fields with ⟨h, heq⟩ | ⟨h, heq⟩
    · exact ⟨_, _, heq, h, fun _ => rfl⟩
    · exact ⟨_, _, heq, hasId_withId _ _ (mintId_truthy mint k), fun hh => absurd hh h⟩
  | undefined => simp [isObj] at hx
  | null => simp [isObj] at hx
  | bool b => simp [isObj] at hx
  | num t => simp [isObj] at hx
  | str s => simp [isObj] at hx
  | arr items => simp [isObj] at hx

/-- The four string entries of the write paths on a text that parses to an
array on which the callback does not throw. -/
theorem write_parsed_array (parse : String → Option JsVal) (mint : Mint) (k k1 : Nat)
    (t : String) (xs out : List JsVal) (hs : JsVal) (ht : t ≠ "")
    (hparse : parse t = some (.arr xs))
    (hmap : mapItems (parsedItem mint) k xs = (some out, k1)) :
    monitorConditions parse mint k (.str t) hs = (some out, k1) ∧
    putConditions parse mint k (.str t) hs = (some out, k1) ∧
    monitorConditions parse mint k .undefined (.str t) = (some out, k1) ∧
    putConditions parse mint k .undefined (.str t) = (some out, k1) := by
  have htr : (JsVal.str t).truthy = true := by simp [JsVal.truthy, ht]
  refine ⟨?_, ?_, ?_, ?_⟩
  · simp [monitorConditions, htr, hparse, writeParsed, hmap, orCatch, tryParse]
  · simp [putConditions, htr, hparse, writeParsed, hmap, orCatch, tryParse]
  · simp [monitorConditions, JsVal.truthy, ht, JsVal.toStr, hparse, writeParsed, hmap, orCatch, tryParse, tryParseOf]
  · simp [putConditions, JsVal.truthy, ht, JsVal.toStr, hparse, writeParsed, hmap, orCatch, tryParse, tryParseOf]

/-! ## Distinct identifiers -/

theorem carriedIds_cons_hasId (x : JsVal) (xs : List JsVal) (h : hasId x) :
    carriedIds (x :: xs) = idOf x :: carriedIds xs := by
  obtain ⟨id, hget, ht⟩ := h
  simp [carriedIds, List.filterMap_cons, hget, ht, idOf]

theorem carriedIds_cons_not (x : JsVal) (xs : List JsVal) (h : ¬ hasId x) :
    carriedIds (x :: xs) = carriedIds xs := by
  cases hget : x.get "id" with
  | none => simp [carriedIds, List.filterMap_cons, hget]
  | some id =>
    have ht : id.truthy = false := by
      by_contra hne
      exact h ⟨id, hget, by simpa using hne⟩
    simp [carriedIds, List.filterMap_cons, hget, ht]

/-- When the callback throws on the first element, `mapItems` throws. -/
theorem mapItems_none (f : Nat → JsVal → Option JsVal × Nat) (k : Nat) (x : JsVal)
    (rest : List JsVal) (h : (f k x).1 = none) : (mapItems f k (x :: rest)).1 = none := by
  rcases hfx : f k x with ⟨_ | y, k1⟩
  · simp [mapItems, hfx]
  · rw [hfx] at h
    cases h

theorem directItem_spec (mint : Mint) :
    ItemSpec mint (fun x => isCondItem x = true) (directItem mint) := by
  intro k x hx
  cases x with
  | str s =>
    exact Or.inr (Or.inr ⟨not_hasId_str s, _, directItem_str mint k s, idOf_condition _ _ _⟩)
  | obj fields =>
    by_cases hd : isDirectItem (.obj fields) = true
    · rcases directItem_obj mint k fields hd with ⟨h, heq⟩ | ⟨h, heq⟩
      · exact Or.inr (Or.inl ⟨h, heq⟩)
      · exact Or.inr (Or.inr ⟨h, _, heq, idOf_condition _ _ _⟩)
    · left
      rw [directItem_throws mint k fields (by simpa using hd)]
  | undefined => simp [isCondItem] at hx
  | null => simp [isCondItem] at hx
  | bool b => simp [isCondItem] at hx
  | num t => simp [isCondItem] at hx
  | arr items => simp [isCondItem] at hx

theorem parsedItem_spec (mint : Mint) : ItemSpec mint (fun _ => True) (parsedItem mint) := by
  intro k x _
  have hno : ∀ v : JsVal, v.get "id" = some .undefined → ¬ hasId v := by
    rintro v hv ⟨id, hget, ht⟩
    rw [hv] at hget
    cases hget
    simp [JsVal.truthy] at ht
  cases x with
  | str s =>
    have h1 : parsedItem mint k (.str s) =
        (some (condition (mintId mint k) (.str s) (.str "moderate")), k + 1) := by
      simp [parsedItem, JsVal.isString]
    exact Or.inr (Or.inr ⟨not_hasId_str s, _, h1, idOf_condition _ _ _⟩)
  | obj fields =>
    rcases parsedItem_obj mint k fields with ⟨h, heq⟩ | ⟨h, heq⟩
    · exact Or.inr (Or.inl ⟨h, heq⟩)
    · exact Or.inr (Or.inr ⟨h, _, heq, idOf_withId _ _⟩)
  | undefined => left; simp [parsedItem, JsVal.isString, JsVal.get]
  | null => left; simp [parsedItem, JsVal.isString, JsVal.get]
  | bool b =>
    have h1 : parsedItem mint k (.bool b) = (some (withId (.bool b) (mintId mint k)), k + 1) := by
      simp [parsedItem, JsVal.isString, JsVal.get, JsVal.truthy]
    exact Or.inr (Or.inr ⟨hno _ rfl, _, h1, idOf_withId _ _⟩)
  | num t =>
    have h1 : parsedItem mint k (.num t) = (some (withId (.num t) (mintId mint k)), k + 1) := by
      simp [parsedItem, JsVal.isString, JsVal.get, JsVal.truthy]
    exact Or.inr (Or.inr ⟨hno _ rfl, _, h1, idOf_withId _ _⟩)
  | arr items =>
    have h1 : parsedItem mint k (.arr items) =
        (some (withId (.arr items) (mintId mint k)), k + 1) := by
      simp [parsedItem, JsVal.isString, JsVal.get, JsVal.truthy]
    exact Or.inr (Or.inr ⟨hno _ rfl, _, h1, idOf_withId _ _⟩)

/-- The ids of the output of `mapItems` are ids carried by the input or ids
generated during the call. -/
theorem mapItems_ids (mint : Mint) (D : JsVal → Prop) (f : Nat → JsVal → Option JsVal × Nat)
    (hf : ItemSpec mint D f) (xs : List JsVal) :
    ∀ k out k1, (∀ x ∈ xs, D x) → mapItems f k xs = (some out, k1) →
      k ≤ k1 ∧ ∀ c ∈ out.map idOf,
        c ∈ carriedIds xs ∨ ∃ j, k ≤ j ∧ j < k1 ∧ c = mintId mint j := by
  induction xs with
  | nil =>
    intro k out k1 _ h
    simp only [mapItems, Prod.mk.injEq, Option.some.injEq] at h
    obtain ⟨rfl, rfl⟩ := h
    exact ⟨le_refl _, fun c hc => by simp at hc⟩
  | cons x rest ih =>
    intro k out k1 hD h
    have hx := hf k x (hD x (List.mem_cons_self x rest))
    have hrest : ∀ z ∈ rest, D z := fun z hz => hD z (List.mem_cons_of_mem x hz)
    rcases hx with hx | ⟨hid, hx⟩ | ⟨hid, y, hx, hy⟩
    · have hnone := mapItems_none f k x rest hx
      rw [h] at hnone
      cases hnone
    · simp only [mapItems, hx] at h
      rcases hm : mapItems f k rest with ⟨_ | ys, k2⟩
      · simp [hm] at h
      · simp only [hm, Prod.mk.injEq, Option.some.injEq] at h
        obtain ⟨rfl, rfl⟩ := h
        obtain ⟨hle, hids⟩ := ih k ys k2 hrest hm
        refine ⟨hle, ?_⟩
        intro c hc
        rw [carriedIds_cons_hasId x rest hid]
        simp only [List.map_cons, List.mem_cons] at hc
        rcases hc with rfl | hc
        · exact Or.inl (List.mem_cons_self _ _)
        · rcases hids c hc with h1 | h1
          · exact Or.inl (List.mem_cons_of_mem _ h1)
          · exact Or.inr h1
    · simp only [mapItems, hx] at h
      rcases hm : mapItems f (k + 1) rest with ⟨_ | ys, k2⟩
      · simp [hm] at h
      · simp only [hm, Prod.mk.injEq, Option.some.injEq] at h
        obtain ⟨rfl, rfl⟩ := h
        obtain ⟨hle, hids⟩ := ih (k + 1) ys k2 hrest hm
        refine ⟨by omega, ?_⟩
        intro c hc
        rw [carriedIds_cons_not x rest hid]
        simp only [List.map_cons, List.mem_cons] at hc
        rcases hc with rfl | hc
        · exact Or.inr ⟨k, le_refl _, by omega, hy⟩
        · rcases hids c hc with h1 | ⟨j, hj1, hj2, hj3⟩
          · exact Or.inl h1
          · exact Or.inr ⟨j, by omega, hj2, hj3⟩

/-- With an injective source, carried ids that are pairwise distinct and that the
source never yields, the ids of the output of `mapItems` are pairwise
distinct. -/
theorem mapItems_nodup (mint : Mint) (hinj : Function.Injective mint) (D : JsVal → Prop)
    (f : Nat → JsVal → Option JsVal × Nat) (hf : ItemSpec mint D f) (xs : List JsVal) :
    ∀ k out k1, (∀ x ∈ xs, D x) → mapItems f k xs = (some out, k1) →
      (carriedIds xs).Nodup → (∀ c ∈ carriedIds xs, ∀ j, c ≠ mintId mint j) →
      (out.map idOf).Nodup := by
  induction xs with
  | nil =>
    intro k out k1 _ h _ _
    simp only [mapItems, Prod.mk.injEq, Option.some.injEq] at h
    obtain ⟨rfl, rfl⟩ := h
    exact List.nodup_nil
  | cons x rest ih =>
    intro k out k1 hD h hnd hfresh
    have hx := hf k x (hD x (List.mem_cons_self x rest))
    have hrest : ∀ z ∈ rest, D z := fun z hz => hD z (List.mem_cons_of_mem x hz)
    rcases hx with hx | ⟨hid, hx⟩ | ⟨hid, y, hx, hy⟩
    · have hnone := mapItems_none f k x rest hx
      rw [h] at hnone
      cases hnone
    · simp only [mapItems, hx] at h
      rcases hm : mapItems f k rest with ⟨_ | ys, k2⟩
      · simp [hm] at h
      · simp only [hm, Prod.mk.injEq, Option.some.injEq] at h
        obtain ⟨rfl, rfl⟩ := h
        rw [carriedIds_cons_hasId x rest hid] at hnd hfresh
        obtain ⟨-, hids⟩ := mapItems_ids mint D f hf rest k ys k2 hrest hm
        have hnd2 := ih k ys k2 hrest hm (List.nodup_cons.1 hnd).2
          (fun c hc => hfresh c (List.mem_cons_of_mem _ hc))
        simp only [List.map_cons]
        refine List.nodup_cons.2 ⟨?_, hnd2⟩
        intro hmem
        rcases hids _ hmem with h1 | ⟨j, -, -, hj⟩
        · exact (List.nodup_cons.1 hnd).1 h1
        · exact hfresh _ (List.mem_cons_self _ _) j hj
    · simp only [mapItems, hx] at h
      rcases hm : mapItems f (k + 1) rest with ⟨_ | ys, k2⟩
      · simp [hm] at h
      · simp only [hm, Prod.mk.injEq, Option.some.injEq] at h
        obtain ⟨rfl, rfl⟩ := h
        rw [carriedIds_cons_not x rest hid] at hnd hfresh
        obtain ⟨-, hids⟩ := mapItems_ids mint D f hf rest (k + 1) ys k2 hrest hm
        have hnd2 := ih (k + 1) ys k2 hrest hm hnd hfresh
        simp only [List.map_cons]
        refine List.nodup_cons.2 ⟨?_, hnd2⟩
        intro hmem
        rw [hy] at hmem
        rcases hids _ hmem with h1 | ⟨j, hj1, -, hj⟩
        · exact hfresh _ h1 k rfl
        · have := mintId_injective mint hinj hj
          omega

theorem mintAll_ids (mint : Mint) (ns : List String) :
    ∀ k, ∀ c ∈ (mintAll mint k ns).map idOf, ∃ j, k ≤ j ∧ c = mintId mint j := by
  induction ns with
  | nil => intro k c hc; simp [mintAll] at hc
  | cons n rest ih =>
    intro k c hc
    simp only [mintAll, List.map_cons, List.mem_cons, idOf_condition] at hc
    rcases hc with rfl | hc
    · exact ⟨k, le_refl _, rfl⟩
    · obtain ⟨j, hj, hc⟩ := ih (k + 1) c hc
      exact ⟨j, by omega, hc⟩

theorem mintAll_nodup (mint : Mint) (hinj : Function.Injective mint) (ns : List String) :
    ∀ k, ((mintAll mint k ns).map idOf).Nodup := by
  induction ns with
  | nil => intro k; exact List.nodup_nil
  | cons n rest ih =>
    intro k
    simp only [mintAll, List.map_cons, idOf_condition]
    refine List.nodup_cons.2 ⟨?_, ih (k + 1)⟩
    intro hmem
    obtain ⟨j, hj, hc⟩ := mintAll_ids mint rest (k + 1) _ hmem
    have := mintId_injective mint hinj hc
    omega

theorem distinctIds_single (y : JsVal) (k : Nat) : DistinctIds (some [y], k) :=
  ⟨[y], k, rfl, by simp⟩

theorem distinctIds_nil (k : Nat) : DistinctIds (some [], k) :=
  ⟨[], k, rfl, by simp⟩

theorem distinctIds_mintAll (mint : Mint) (hinj : Function.Injective mint) (ns : List String)
    (k k1 : Nat) : DistinctIds (some (mintAll mint k ns), k1) :=
  ⟨_, _, rfl, mintAll_nodup mint hinj ns k⟩

theorem distinctIds_orCatch (r : Option (List JsVal) × Nat)
    (handler : Nat → Option (List JsVal) × Nat) (hh : ∀ k1, DistinctIds (handler k1))
    (hr : ∀ out k1, r = (some out, k1) → (out.map idOf).Nodup) :
    DistinctIds (orCatch r handler) := by
  rcases r with ⟨_ | out, k1⟩
  · exact hh k1
  · exact ⟨out, k1, rfl, hr out k1 rfl⟩

theorem singleObject_nodup (mint : Mint) (k : Nat) (parsed : JsVal) (out : List JsVal)
    (k1 : Nat) (h : singleObject mint k parsed = (some out, k1)) : (out.map idOf).Nodup := by
  unfold singleObject at h
  split at h
  · simp at h
  · split at h <;>
    · simp only [Prod.mk.injEq, Option.some.injEq] at h
      obtain ⟨rfl, -⟩ := h
      simp

/-- The body of the `try` block under its `catch`: distinct ids when the handler
gives distinct ids and the ids carried by a parsed array are distinct and never
generated. -/
theorem writeParsed_distinct (mint : Mint) (hinj : Function.Injective mint) (k : Nat)
    (parsed : JsVal) (nm : Option String) (handler : Nat → Option (List JsVal) × Nat)
    (hh : ∀ k1, DistinctIds (handler k1))
    (hnd : ∀ xs, parsed = .arr xs → (carriedIds xs).Nodup ∧
      ∀ c ∈ carriedIds xs, ∀ j, c ≠ mintId mint j) :
    DistinctIds (orCatch (writeParsed mint k parsed nm) handler) := by
  apply distinctIds_orCatch _ _ hh
  intro out k1 h
  have prim : namedCondition mint k nm = (some out, k1) → (out.map idOf).Nodup := by
    intro h1
    cases nm with
    | none => simp [namedCondition] at h1
    | some name =>
      simp only [namedCondition, Prod.mk.injEq, Option.some.injEq] at h1
      obtain ⟨rfl, -⟩ := h1
      simp
  cases parsed with
  | arr xs =>
    simp only [writeParsed] at h
    exact mapItems_nodup mint hinj (fun _ => True) (parsedItem mint) (parsedItem_spec mint) xs
      k out k1 (fun _ _ => trivial) h (hnd xs rfl).1 (hnd xs rfl).2
  | obj fields =>
    simp only [writeParsed, JsVal.isObject, if_true] at h
    exact singleObject_nodup mint k _ out k1 h
  | null =>
    simp only [writeParsed, JsVal.isObject, if_true] at h
    exact singleObject_nodup mint k _ out k1 h
  | undefined =>
    simp only [writeParsed, JsVal.isObject, Bool.false_eq_true, if_false] at h
    exact prim h
  | bool b =>
    simp only [writeParsed, JsVal.isObject, Bool.false_eq_true, if_false] at h
    exact prim h
  | num t =>
    simp only [writeParsed, JsVal.isObject, Bool.false_eq_true, if_false] at h
    exact prim h
  | str s =>
    simp only [writeParsed, JsVal.isObject, Bool.false_eq_true, if_false] at h
    exact prim h

theorem tryParse_distinct (parse : String → Option JsVal) (mint : Mint)
    (hinj : Function.Injective mint) (s : String) (k : Nat) (nm : JsVal → Option String)
    (handler : Nat → Option (List JsVal) × Nat) (hh : ∀ k1, DistinctIds (handler k1))
    (hnd : (carriedIds (itemsOf parse (.str s))).Nodup)
    (hfresh : ∀ c ∈ carriedIds (itemsOf parse (.str s)), ∀ j, c ≠ mintId mint j) :
    DistinctIds (tryParse parse s k (fun parsed => writeParsed mint k parsed (nm parsed))
      handler) := by
  unfold tryParse
  cases hp : parse s with
  | none => exact hh k
  | some parsed =>
    apply writeParsed_distinct mint hinj k parsed (nm parsed) handler hh
    intro xs hxs
    subst hxs
    simp only [itemsOf, hp] at hnd hfresh
    exact ⟨hnd, hfresh⟩

theorem mintUnary_injective : Function.Injective mintUnary := by
  intro a b h
  have h1 := congrArg String.length h
  simpa [mintUnary, String.length] using h1

/-- Both write paths on a string field. -/
theorem string_field_distinct (parse : String → Option JsVal) (mint : Mint)
    (hinj : Function.Injective mint) (k : Nat) (s : String) (hs : JsVal) (h : s ≠ "")
    (hnd : (carriedIds (itemsOf parse (.str s))).Nodup)
    (hfresh : ∀ c ∈ carriedIds (itemsOf parse (.str s)), ∀ j, c ≠ mintId mint j) :
    DistinctIds (monitorConditions parse mint k (.str s) hs) ∧
    DistinctIds (putConditions parse mint k (.str s) hs) ∧
    DistinctIds (monitorConditions parse mint k .undefined (.str s)) ∧
    DistinctIds (putConditions parse mint k .undefined (.str s)) ∧
    DistinctIds (monitorConditions parse mint k (.str "") (.str s)) ∧
    DistinctIds (putConditions parse mint k (.str "") (.str s)) := by
  have htr : (JsVal.str s).truthy = true := by simp [JsVal.truthy, h]
  have hu : JsVal.undefined.truthy = false := rfl
  have he : (JsVal.str "").truthy = false := rfl
  have hstr : (JsVal.str s).toStr = some s := rfl
  refine ⟨?_, ?_, ?_, ?_, ?_, ?_⟩
  · simp only [monitorConditions, htr, if_true]
    exact tryParse_distinct parse mint hinj s k (fun _ => some s) _
      (fun k1 => distinctIds_single _ _) hnd hfresh
  · simp only [putConditions, htr, Bool.true_or, if_true]
    exact tryParse_distinct parse mint hinj s k (fun p => p.toStr) _
      (fun k1 => distinctIds_mintAll mint hinj _ _ _) hnd hfresh
  · simp only [monitorConditions, tryParseOf, hu, htr, hstr, Bool.false_eq_true, if_false,
      if_true]
    exact tryParse_distinct parse mint hinj s k (fun p => p.toStr) _
      (fun k1 => distinctIds_mintAll mint hinj _ _ _) hnd hfresh
  · simp only [putConditions, tryParseOf, hu, htr, hstr, Bool.false_or, Bool.false_eq_true,
      if_false, if_true]
    exact tryParse_distinct parse mint hinj s k (fun p => p.toStr) _
      (fun k1 => distinctIds_mintAll mint hinj _ _ _) hnd hfresh
  · simp only [monitorConditions, tryParseOf, he, htr, hstr, Bool.false_eq_true, if_false,
      if_true]
    exact tryParse_distinct parse mint hinj s k (fun p => p.toStr) _
      (fun k1 => distinctIds_mintAll mint hinj _ _ _) hnd hfresh
  · simp only [putConditions, tryParseOf, he, htr, hstr, Bool.false_or, Bool.false_eq_true,
      if_false, if_true]
    exact tryParse_distinct parse mint hinj s k (fun p => p.toStr) _
      (fun k1 => distinctIds_mintAll mint hinj _ _ _) hnd hfresh

/-! ## Every stored record carries an id -/

theorem hasId_of_idOf_mint (mint : Mint) (k : Nat) (y : JsVal) (h : idOf y = mintId mint k) :
    hasId y := by
  cases hget : y.get "id" with
  | none => simp [idOf, hget, mintId] at h
  | some id =>
    simp only [idOf, hget, Option.getD_some] at h
    exact ⟨id, hget, by rw [h]; exact mintId_truthy mint k⟩

/-- Every record that `mapItems` returns carries an id. -/
theorem mapItems_allIds (mint : Mint) (D : JsVal → Prop) (f : Nat → JsVal → Option JsVal × Nat)
    (hf : ItemSpec mint D f) (xs : List JsVal) :
    ∀ k out k1, (∀ x ∈ xs, D x) → mapItems f k xs = (some out, k1) → ∀ y ∈ out, hasId y := by
  induction xs with
  | nil =>
    intro k out k1 _ h
    simp only [mapItems, Prod.mk.injEq, Option.some.injEq] at h
    obtain ⟨rfl, -⟩ := h
    intro y hy
    cases hy
  | cons x rest ih =>
    intro k out k1 hD h
    have hx := hf k x (hD x (List.mem_cons_self x rest))
    have hrest : ∀ z ∈ rest, D z := fun z hz => hD z (List.mem_cons_of_mem x hz)
    rcases hx with hx | ⟨hid, hx⟩ | ⟨hid, y, hx, hy⟩
    · have hnone := mapItems_none f k x rest hx
      rw [h] at hnone
      cases hnone
    · simp only [mapItems, hx] at h
      rcases hm : mapItems f k rest with ⟨_ | ys, k2⟩
      · simp [hm] at h
      · simp only [hm, Prod.mk.injEq, Option.some.injEq] at h
        obtain ⟨rfl, -⟩ := h
        intro z hz
        rcases List.mem_cons.1 hz with rfl | hz
        · exact hid
        · exact ih k ys k2 hrest hm z hz
    · simp only [mapItems, hx] at h
      rcases hm : mapItems f (k + 1) rest with ⟨_ | ys, k2⟩
      · simp [hm] at h
      · simp only [hm, Prod.mk.injEq, Option.some.injEq] at h
        obtain ⟨rfl, -⟩ := h
        intro z hz
        rcases List.mem_cons.1 hz with rfl | hz
        · exact hasId_of_idOf_mint mint k _ hy
        · exact ih (k + 1) ys k2 hrest hm z hz

theorem mintAll_allIds (mint : Mint) (ns : List String) :
    ∀ k, ∀ y ∈ mintAll mint k ns, hasId y := by
  induction ns with
  | nil => intro k y hy; cases hy
  | cons n rest ih =>
    intro k y hy
    simp only [mintAll, List.mem_cons] at hy
    rcases hy with rfl | hy
    · exact hasId_condition mint k _ _
    · exact ih (k + 1) y hy

theorem allHaveId_single (y : JsVal) (k : Nat) (h : hasId y) : AllHaveId (some [y], k) :=
  ⟨[y], k, rfl, fun z hz => by
    simp only [List.mem_singleton] at hz
    subst hz
    exact h⟩

theorem allHaveId_mintAll (mint : Mint) (ns : List String) (k k1 : Nat) :
    AllHaveId (some (mintAll mint k ns), k1) :=
  ⟨_, _, rfl, mintAll_allIds mint ns k⟩

theorem allHaveId_orCatch (r : Option (List JsVal) × Nat)
    (handler : Nat → Option (List JsVal) × Nat) (hh : ∀ k1, AllHaveId (handler k1))
    (hr : ∀ out k1, r = (some out, k1) → ∀ y ∈ out, hasId y) :
    AllHaveId (orCatch r handler) := by
  rcases r with ⟨_ | out, k1⟩
  · exact hh k1
  · exact ⟨out, k1, rfl, hr out k1 rfl⟩

theorem singleObject_allIds (mint : Mint) (k : Nat) (parsed : JsVal) (out : List JsVal)
    (k1 : Nat) (h : singleObject mint k parsed = (some out, k1)) : ∀ y ∈ out, hasId y := by
  unfold singleObject at h
  split at h
  · simp at h
  · split at h
    · rename_i id _ ht
      simp only [Prod.mk.injEq, Option.some.injEq] at h
      obtain ⟨rfl, -⟩ := h
      intro y hy
      simp only [List.mem_singleton] at hy
      subst hy
      exact hasId_withId _ _ ht
    · simp only [Prod.mk.injEq, Option.some.injEq] at h
      obtain ⟨rfl, -⟩ := h
      intro y hy
      simp only [List.mem_singleton] at hy
      subst hy
      exact hasId_withId _ _ (mintId_truthy mint k)

theorem writeParsed_allIds (mint : Mint) (k : Nat) (parsed : JsVal) (nm : Option String)
    (handler : Nat → Option (List JsVal) × Nat) (hh : ∀ k1, AllHaveId (handler k1)) :
    AllHaveId (orCatch (writeParsed mint k parsed nm) handler) := by
  apply allHaveId_orCatch _ _ hh
  intro out k1 h
  have prim : namedCondition mint k nm = (some out, k1) → ∀ y ∈ out, hasId y := by
    intro h1
    cases nm with
    | none => simp [namedCondition] at h1
    | some name =>
      simp only [namedCondition, Prod.mk.injEq, Option.some.injEq] at h1
      obtain ⟨rfl, -⟩ := h1
      intro y hy
      simp only [List.mem_singleton] at hy
      subst hy
      exact hasId_condition mint k _ _
  cases parsed with
  | arr xs =>
    simp only [writeParsed] at h
    exact mapItems_allIds mint (fun _ => True) (parsedItem mint) (parsedItem_spec mint) xs
      k out k1 (fun _ _ => trivial) h
  | obj fields =>
    simp only [writeParsed, JsVal.isObject, if_true] at h
    exact singleObject_allIds mint k _ out k1 h
  | null =>
    simp only [writeParsed, JsVal.isObject, if_true] at h
    exact singleObject_allIds mint k _ out k1 h
  | undefined =>
    simp only [writeParsed, JsVal.isObject, Bool.false_eq_true, if_false] at h
    exact prim h
  | bool b =>
    simp only [writeParsed, JsVal.isObject, Bool.false_eq_true, if_false] at h
    exact prim h
  | num t =>
    simp only [writeParsed, JsVal.isObject, Bool.false_eq_true, if_false] at h
    exact prim h
  | str s =>
    simp only [writeParsed, JsVal.isObject, Bool.false_eq_true, if_false] at h
    exact prim h

theorem tryParse_allIds (parse : String → Option JsVal) (mint : Mint) (s : String) (k : Nat)
    (nm : JsVal → Option String) (handler : Nat → Option (List JsVal) × Nat)
    (hh : ∀ k1, AllHaveId (handler k1)) :
    AllHaveId (tryParse parse s k (fun parsed => writeParsed mint k parsed (nm parsed))
      handler) := by
  unfold tryParse
  cases parse s with
  | none => exact hh k
  | some parsed => exact writeParsed_allIds mint k parsed (nm parsed) handler hh

/-- Both write paths on a non-empty health input of the accepted shapes end
normally with records that all carry an id. -/
theorem write_paths_allIds (parse : String → Option JsVal) (mint : Mint) (k : Nat)
    (hc : JsVal) (hs : Option String) (hshape : isDirectInput hc = true)
    (hne : (hc.truthy || (optStr hs).truthy) = true) :
    AllHaveId (monitorConditions parse mint k hc (optStr hs)) ∧
    AllHaveId (putConditions parse mint k hc (optStr hs)) := by
  have hu : JsVal.undefined.truthy = false := rfl
  have he : (JsVal.str "").truthy = false := rfl
  have status : ∀ v : JsVal, v.truthy = false →
      ((optStr hs).truthy = true) →
      AllHaveId (monitorConditions parse mint k v (optStr hs)) ∧
      AllHaveId (putConditions parse mint k v (optStr hs)) := by
    intro v hv hst
    cases hs with
    | none => simp [optStr, JsVal.truthy] at hst
    | some t =>
      have hstr : (JsVal.str t).toStr = some t := rfl
      simp only [optStr] at hst ⊢
      constructor
      · simp only [monitorConditions, tryParseOf, hv, hst, hstr, Bool.false_eq_true, if_false,
          if_true]
        exact tryParse_allIds parse mint t k (fun p => p.toStr) _
          (fun k1 => allHaveId_mintAll mint _ _ _)
      · simp only [putConditions, tryParseOf, hv, hst, hstr, Bool.false_or, Bool.false_eq_true,
          if_false, if_true]
        exact tryParse_allIds parse mint t k (fun p => p.toStr) _
          (fun k1 => allHaveId_mintAll mint _ _ _)
  cases hc with
  | undefined => exact status _ rfl (by simpa [hu] using hne)
  | str s =>
    by_cases h : s = ""
    · subst h
      exact status _ rfl (by simpa [he] using hne)
    · have htr : (JsVal.str s).truthy = true := by simp [JsVal.truthy, h]
      constructor
      · simp only [monitorConditions, htr, if_true]
        exact tryParse_allIds parse mint s k (fun _ => some s) _
          (fun k1 => allHaveId_single _ _ (hasId_condition mint k1 _ _))
      · simp only [putConditions, htr, Bool.true_or, if_true]
        exact tryParse_allIds parse mint s k (fun p => p.toStr) _
          (fun k1 => allHaveId_mintAll mint _ _ _)
  | arr xs =>
    have hxs : ∀ x ∈ xs, isDirectItem x = true := by
      simpa [isDirectInput, List.all_eq_true] using hshape
    obtain ⟨out, k1, hout, hF⟩ :=
      mapItems_forall₂ (directItem mint) (fun x => isDirectItem x = true)
        (fun _ y => hasId y)
        (fun k x hx => by
          obtain ⟨y, k1, h1, h2, -⟩ := directItem_cond mint k x hx
          exact ⟨y, k1, h1, h2⟩) xs k hxs
    have hall : ∀ y ∈ out, hasId y := forall₂_right hF (fun _ _ h => h)
    exact ⟨⟨out, k1, by rw [monitor_direct, hout], hall⟩,
      ⟨out, k1, by rw [put_direct, hout], hall⟩⟩
  | null => simp [isDirectInput] at hshape
  | bool b => simp [isDirectInput] at hshape
  | num t => simp [isDirectInput] at hshape
  | obj fields => simp [isDirectInput] at hshape

/-- The text of `JSON.stringify` of an array is never empty, so the handlers
treat it as a value to store. -/
theorem jsonStringify_truthy (out : List JsVal) :
    truthyStr (some (jsonStringify out)) = true := by
  have h : jsonStringify out ≠ "" := by
    intro h
    have hl := congrArg String.length h
    simp only [jsonStringify, jsonValue, String.length_append] at hl
    have h1 : "[".length = 1 := rfl
    have h2 : "".length = 0 := rfl
    omega
  simp [truthyStr, h]

/-- The join of an array of strings does not throw. -/
theorem joinStr_names (sep : String) (xs : List JsVal) (h : ∀ x ∈ xs, x.isString = true) :
    (JsVal.joinStr sep xs).isSome = true := by
  induction xs with
  | nil => rfl
  | cons x rest ih =>
    have hx := h x (List.mem_cons_self x rest)
    have hr := ih fun z hz => h z (List.mem_cons_of_mem x hz)
    cases x with
    | str s =>
      cases rest with
      | nil => simp [JsVal.joinStr, JsVal.elemStr]
      | cons y rest1 =>
        obtain ⟨b, hb⟩ := Option.isSome_iff_exists.1 hr
        simp [JsVal.joinStr, JsVal.elemStr, hb]
    | undefined => simp [JsVal.isString] at hx
    | null => simp [JsVal.isString] at hx
    | bool b => simp [JsVal.isString] at hx
    | num t => simp [JsVal.isString] at hx
    | arr items => simp [JsVal.isString] at hx
    | obj fields => simp [JsVal.isString] at hx

theorem joinedText_names (xs : List JsVal) (h : ∀ x ∈ xs, x.isString = true) :
    (joinedText xs).isSome = true := by
  unfold joinedText
  split
  · rfl
  · exact joinStr_names ", " xs h

/-- An array of strings passes the callback of `POST /members` unchanged. -/
theorem mapOpt_names (xs : List JsVal) (h : ∀ x ∈ xs, x.isString = true) :
    mapOpt nameItem xs = some xs := by
  induction xs with
  | nil => rfl
  | cons x rest ih =>
    have hx := h x (List.mem_cons_self x rest)
    have hr := ih fun z hz => h z (List.mem_cons_of_mem x hz)
    simp [mapOpt, nameItem, hx, hr]

/-! ## The steps of one assign request -/

/-- Run with no other request in between, the five steps of a request are the
handler `assign` without fault. -/
theorem assignSteps_alone (s : Store) (member_id bed_id : Id) :
    assignSteps member_id bed_id 5 (.checkBed, s) =
      (.answered (assign noFault s (some member_id) (some bed_id)).1,
        (assign noFault s (some member_id) (some bed_id)).2) := by
  simp only [assignSteps, assign, noFault, Bool.false_eq_true, if_false]
  cases hb : s.beds bed_id with
  | none => simp [assignStep, hb]
  | some bed =>
    by_cases ha : bed.status = some "available"
    · cases hm : s.members member_id with
      | none => simp [assignStep, hb, ha, hm]
      | some member =>
        cases ho : member.bed_id with
        | none => simp [assignStep, hb, ha, hm, ho, assignRelease, noFault]
        | some oldBedId =>
          cases hob : s.beds oldBedId with
          | none => simp [assignStep, hb, ha, hm, ho, hob, assignRelease, noFault]
          | some oldBed =>
            by_cases hc : oldBed.current_member_id = some member_id
            · simp [assignStep, hb, ha, hm, ho, hob, hc, assignRelease, noFault]
            · simp [assignStep, hb, ha, hm, ho, hob, hc, assignRelease, noFault]
    · simp [assignStep, hb, ha]

/-! ## References to rows -/

/-- The full bidirectional invariant is the pairwise one together with the
absence of dangling references. -/
theorem linked_iff (s : Store) : Linked s ↔ LinkInv s ∧ RefInv s := by
  constructor
  · intro h
    refine ⟨?_, ?_, ?_⟩
    · intro B M bed member hb hm
      constructor
      · intro ho
        obtain ⟨m1, hm1, h1⟩ := (h B M).1 ⟨bed, hb, ho⟩
        rw [hm] at hm1
        cases hm1
        exact h1
      · intro ho
        obtain ⟨b1, hb1, h1⟩ := (h B M).2 ⟨member, hm, ho⟩
        rw [hb] at hb1
        cases hb1
        exact h1
    · intro B M bed hb ho
      obtain ⟨m1, hm1, -⟩ := (h B M).1 ⟨bed, hb, ho⟩
      simp [hm1]
    · intro M B member hm ho
      obtain ⟨b1, hb1, -⟩ := (h B M).2 ⟨member, hm, ho⟩
      simp [hb1]
  · rintro ⟨hL, hR1, hR2⟩ B M
    constructor
    · rintro ⟨bed, hb, ho⟩
      cases hm : s.members M with
      | none => exact absurd hm (hR1 B M bed hb ho)
      | some member => exact ⟨member, rfl, (hL B M bed member hb hm).1 ho⟩
    · rintro ⟨member, hm, ho⟩
      cases hb : s.beds B with
      | none => exact absurd hb (hR2 M B member hm ho)
      | some bed => exact ⟨bed, rfl, (hL B M bed member hb hm).2 ho⟩

/-- A store with the rows of `s` whose references are references of `s` has no
dangling reference when `s` has none. -/
theorem refInv_of_fewer (s t : Store)
    (hb : ∀ B bed1, t.beds B = some bed1 → ∃ bed, s.beds B = some bed ∧
      (bed1.current_member_id = bed.current_member_id ∨ bed1.current_member_id = none))
    (hm : ∀ M m1, t.members M = some m1 → ∃ m, s.members M = some m ∧
      (m1.bed_id = m.bed_id ∨ m1.bed_id = none))
    (hkb : ∀ B, s.beds B ≠ none → t.beds B ≠ none)
    (hkm : ∀ M, s.members M ≠ none → t.members M ≠ none)
    (h : RefInv s) : RefInv t := by
  refine ⟨?_, ?_⟩
  · intro B M bed1 hb1 ho
    obtain ⟨bed, hbed, hor⟩ := hb B bed1 hb1
    rcases hor with hor | hor
    · rw [hor] at ho
      exact hkm M (h.1 B M bed hbed ho)
    · rw [hor] at ho
      cases ho
  · intro M B m1 hm1 ho
    obtain ⟨m, hmem, hor⟩ := hm M m1 hm1
    rcases hor with hor | hor
    · rw [hor] at ho
      exact hkb B (h.2 M B m hmem ho)
    · rw [hor] at ho
      cases ho

theorem refInv_setBed (s : Store) (id : Id) (g : BedRow → BedRow)
    (hg : ∀ r, (g r).current_member_id = r.current_member_id ∨ (g r).current_member_id = none)
    (h : RefInv s) : RefInv (s.setBed id g) := by
  refine refInv_of_fewer s _ ?_ ?_ ?_ ?_ h
  · intro B bed1 hb1
    by_cases hB : B = id
    · subst hB
      cases hbed : s.beds B with
      | none => simp [hbed] at hb1
      | some bed =>
        simp [hbed] at hb1
        subst hb1
        exact ⟨bed, rfl, hg bed⟩
    · simp [hB] at hb1
      exact ⟨bed1, hb1, Or.inl rfl⟩
  · intro M m1 hm1
    exact ⟨m1, hm1, Or.inl rfl⟩
  · intro B hB
    by_cases hB1 : B = id
    · subst hB1
      cases hbed : s.beds B with
      | none => exact absurd hbed hB
      | some bed => simp [hbed]
    · simpa [hB1] using hB
  · intro M hM
    exact hM

theorem refInv_setMember (s : Store) (id : Id) (g : MemberRow → MemberRow)
    (hg : ∀ r, (g r).bed_id = r.bed_id ∨ (g r).bed_id = none)
    (h : RefInv s) : RefInv (s.setMember id g) := by
  refine refInv_of_fewer s _ ?_ ?_ ?_ ?_ h
  · intro B bed1 hb1
    exact ⟨bed1, hb1, Or.inl rfl⟩
  · intro M m1 hm1
    by_cases hM : M = id
    · subst hM
      cases hmem : s.members M with
      | none => simp [hmem] at hm1
      | some m =>
        simp [hmem] at hm1
        subst hm1
        exact ⟨m, rfl, hg m⟩
    · simp [hM] at hm1
      exact ⟨m1, hm1, Or.inl rfl⟩
  · intro B hB
    exact hB
  · intro M hM
    by_cases hM1 : M = id
    · subst hM1
      cases hmem : s.members M with
      | none => exact absurd hmem hM
      | some m => simp [hmem]
    · simpa [hM1] using hM

/-- Occupying an existing bed with an existing member adds two references that
name rows. -/
theorem refInv_occupy (s : Store) (B M : Id) (hb : s.beds B ≠ none) (hm : s.members M ≠ none)
    (h : RefInv s) :
    RefInv ((s.setBed B (occupyBed M)).setMember M (setBedId (some B))) := by
  refine ⟨?_, ?_⟩
  · intro B1 M1 bed1 hb1 ho
    simp only [setMember_beds, setBed_beds] at hb1
    simp only [setMember_members, setBed_members]
    have hex : s.members M1 ≠ none := by
      by_cases hB : B1 = B
      · subst hB
        cases hbed : s.beds B1 with
        | none => simp [hbed] at hb1
        | some bed =>
          simp [hbed, occupyBed] at hb1
          subst hb1
          simp at ho
          subst ho
          exact hm
      · simp [hB] at hb1
        exact h.1 B1 M1 bed1 hb1 ho
    by_cases hM : M1 = M
    · subst hM
      cases hmem : s.members M1 with
      | none => exact absurd hmem hex
      | some m => simp [hmem]
    · simpa [hM] using hex
  · intro M1 B1 m1 hm1 ho
    simp only [setMember_members, setBed_members] at hm1
    simp only [setMember_beds, setBed_beds]
    have hex : s.beds B1 ≠ none := by
      by_cases hM : M1 = M
      · subst hM
        cases hmem : s.members M1 with
        | none => simp [hmem] at hm1
        | some m =>
          simp [hmem, setBedId] at hm1
          subst hm1
          simp at ho
          subst ho
          exact hb
      · simp [hM] at hm1
        exact h.2 M1 B1 m1 hm1 ho
    by_cases hB : B1 = B
    · subst hB
      cases hbed : s.beds B1 with
      | none => exact absurd hbed hex
      | some bed => simp [hbed]
    · simpa [hB] using hex

theorem ref_assign (fault : Fault) (s : Store) (m b : Option Id) (h : RefInv s) :
    RefInv (assign fault s m b).2 := by
  rcases assign_store fault s m b with
    h0 | ⟨mid, bid, bed, member, s1, -, -, hbed, -, hmem, hr, hres⟩
  · rw [h0]; exact h
  · have h1 : RefInv s1 := by
      rcases assignRelease_store fault s s1 mid member.bed_id hr with
        ⟨h2, -⟩ | ⟨A, bedA, -, -, -, h2⟩
      · rw [h2]; exact h
      · rw [h2]; exact refInv_setBed s A releaseBed (fun r => Or.inr rfl) h
    obtain ⟨hm1, hb1⟩ := assignRelease_rows fault s s1 mid member.bed_id hr
    rcases hres with hres | hres
    · rw [hres]; exact h1
    · rw [hres]
      refine refInv_occupy s1 bid mid ?_ ?_ h1
      · obtain ⟨bed1, hbed1⟩ := hb1 bid bed hbed
        simp [hbed1]
      · simp [hm1, hmem]

theorem ref_unassign (fault : Fault) (s : Store) (id : Id) (h : RefInv s) :
    RefInv (unassign fault s id).2 := by
  rcases unassign_store fault s id with h0 | ⟨-, h0⟩ | ⟨bed, -, -, h0⟩ | ⟨bed, M, -, -, h0⟩
  · rw [h0]; exact h
  · rw [h0]; exact h
  · rw [h0]; exact h
  · rw [h0]
    exact refInv_setMember _ M (setBedId none) (fun r => Or.inr rfl)
      (refInv_setBed s id releaseBed (fun r => Or.inr rfl) h)

theorem ref_getMember (fault : Fault) (s : Store) (id : Id) (h : RefInv s) :
    RefInv (getMember fault s id).store := by
  rcases getMember_store fault s id with h0 | ⟨member, bedId, -, -, -, h0⟩
  · rw [h0]; exact h
  · rw [h0]; exact refInv_setMember s id (setBedId none) (fun r => Or.inr rfl) h

/-- Deleting a bed after clearing its occupant leaves no reference to it, when
the links were consistent. -/
theorem ref_deleteBed (fault : Fault) (s : Store) (id : Id) (hL : LinkInv s) (h : RefInv s) :
    RefInv (deleteBed fault s id).2 := by
  rcases deleteBed_store fault s id with h0 | ⟨hfree, h0⟩ | ⟨bed, occupant, hbed, hocc, h0⟩
  · rw [h0]; exact h
  · rw [h0]
    refine ⟨?_, ?_⟩
    · intro B M bed hb ho
      by_cases hB : B = id
      · simp [hB] at hb
      · simp [hB] at hb
        exact h.1 B M bed hb ho
    · intro M B member hm ho
      simp only [dropBed_members] at hm
      by_cases hB : B = id
      · subst hB
        cases hbed : s.beds B with
        | none => exact absurd hbed (h.2 M B member hm ho)
        | some bed =>
          have h1 := (hL B M bed member hbed hm).2 ho
          rw [hfree bed hbed] at h1
          cases h1
      · simpa [hB] using h.2 M B member hm ho
  · rw [h0]
    refine ⟨?_, ?_⟩
    · intro B M bed1 hb ho
      by_cases hB : B = id
      · simp [hB] at hb
      · simp [hB] at hb
        have hex := h.1 B M bed1 hb ho
        simp only [dropBed_members, setMember_members]
        by_cases hM : M = occupant
        · subst hM
          cases hmem : s.members M with
          | none => exact absurd hmem hex
          | some m => simp [hmem]
        · simpa [hM] using hex
    · intro M B member hm ho
      simp only [dropBed_members, setMember_members] at hm
      by_cases hM : M = occupant
      · subst hM
        cases hmem : s.members M with
        | none => simp [hmem] at hm
        | some m =>
          simp [hmem, setBedId] at hm
          subst hm
          simp at ho
      · simp [hM] at hm
        by_cases hB : B = id
        · subst hB
          have h1 := (hL B M bed member hbed hm).2 ho
          rw [hocc] at h1
          exact absurd (Option.some.inj h1).symm hM
        · simpa [hB] using h.2 M B member hm ho

/-- Deleting a member after releasing its bed leaves no reference to it, when
the links were consistent. -/
theorem ref_deleteMember (fault : Fault) (s : Store) (id : Id) (hL : LinkInv s)
    (h : RefInv s) : RefInv (deleteMember fault s id).2 := by
  rcases deleteMember_store fault s id with h0 | ⟨hfree, h0⟩ | ⟨member, bedId, hmem, hbid, h0⟩
  · rw [h0]; exact h
  · rw [h0]
    refine ⟨?_, ?_⟩
    · intro B M bed hb ho
      simp only [dropMember_beds] at hb
      by_cases hM : M = id
      · subst hM
        cases hmem : s.members M with
        | none => exact absurd hmem (h.1 B M bed hb ho)
        | some member =>
          have h1 := (hL B M bed member hb hmem).1 ho
          rw [hfree member hmem] at h1
          cases h1
      · simpa [hM] using h.1 B M bed hb ho
    · intro M B member hm ho
      by_cases hM : M = id
      · simp [hM] at hm
      · simp [hM] at hm
        exact h.2 M B member hm ho
  · rw [h0]
    refine ⟨?_, ?_⟩
    · intro B M bed1 hb ho
      simp only [dropMember_beds, setBed_beds] at hb
      by_cases hB : B = bedId
      · subst hB
        cases hbed : s.beds B with
        | none => simp [hbed] at hb
        | some bed =>
          simp [hbed, releaseBed] at hb
          subst hb
          simp at ho
      · simp [hB] at hb
        by_cases hM : M = id
        · subst hM
          have h1 := (hL B M bed1 member hb hmem).1 ho
          rw [hbid] at h1
          exact absurd (Option.some.inj h1).symm hB
        · simpa [hM] using h.1 B M bed1 hb ho
    · intro M B member1 hm ho
      by_cases hM : M = id
      · simp [hM] at hm
      · simp [hM] at hm
        have hex := h.2 M B member1 hm ho
        simp only [dropMember_beds, setBed_beds]
        by_cases hB : B = bedId
        · subst hB
          cases hbed : s.beds B with
          | none => exact absurd hbed hex
          | some bed => simp [hbed]
        · simpa [hB] using hex

theorem ref_putBed (fault : Fault) (s : Store) (id : Id) (a b c d status g : Option String)
    (h : RefInv s) : RefInv (putBed fault s id a b c d status g).2 := by
  rcases putBed_store fault s id a b c d status g with h0 | h0
  · rw [h0]; exact h
  · rw [h0]; exact refInv_setBed s id _ (fun r => Or.inl rfl) h

theorem ref_putMember (fault : Fault) (s : Store) (id : Id)
    (updateData : MemberRow → MemberCols) (h : RefInv s) :
    RefInv (putMember fault s id updateData).2 := by
  rcases putMember_store fault s id updateData with h0 | ⟨cols, h0⟩
  · rw [h0]; exact h
  · rw [h0]; exact refInv_setMember s id _ (fun r => Or.inl rfl) h

theorem ref_postMonitor (fault : Fault) (s : Store) (member_id : Option Id)
    (w hs : Option String) (d : Option (Option String)) (h : RefInv s) :
    RefInv (postMonitor fault s member_id w hs d).2 := by
  rcases postMonitor_store fault s member_id w hs d with h0 | ⟨mid, g, hg, h0⟩
  · rw [h0]; exact h
  · rw [h0]; exact refInv_setMember s mid g (fun r => Or.inl (hg r)) h

theorem ref_createBed (fault : Fault) (s : Store) (a b c d status g : Option String)
    (h : RefInv s) : RefInv (createBed fault s a b c d status g).2 := by
  rcases createBed_store fault s a b c d status g with h0 | h0
  · rw [h0]; exact h
  · rw [h0]
    refine ⟨?_, ?_⟩
    · intro B M bed hb ho
      by_cases hB : B = s.nextBedId
      · simp [hB] at hb
        subst hb
        simp at ho
      · simp [hB] at hb
        exact h.1 B M bed hb ho
    · intro M B member hm ho
      by_cases hB : B = s.nextBedId
      · simp [hB]
      · simpa [hB] using h.2 M B member hm ho

theorem ref_createMember (fault : Fault) (s : Store) (cols : MemberCols) (h : RefInv s) :
    RefInv (createMember fault s cols).2 := by
  rcases createMember_store fault s cols with h0 | h0
  · rw [h0]; exact h
  · rw [h0]
    refine ⟨?_, ?_⟩
    · intro B M bed hb ho
      by_cases hM : M = s.nextMemberId
      · simp [hM]
      · simpa [hM] using h.1 B M bed hb ho
    · intro M B member hm ho
      by_cases hM : M = s.nextMemberId
      · simp [hM] at hm
        subst hm
        simp at ho
      · simp [hM] at hm
        exact h.2 M B member hm ho

theorem ref_step (fault : Fault) (s : Store) (op : Op) (hL : LinkInv s) (h : RefInv s) :
    RefInv (step fault s op) := by
  cases op with
  | createBed a b c d status g => exact ref_createBed fault s a b c d status g h
  | putBed id a b c d status g => exact ref_putBed fault s id a b c d status g h
  | assign m b => exact ref_assign fault s m b h
  | unassign id => exact ref_unassign fault s id h
  | deleteBed id => exact ref_deleteBed fault s id hL h
  | createMember cols => exact ref_createMember fault s cols h
  | putMember id u => exact ref_putMember fault s id u h
  | deleteMember id => exact ref_deleteMember fault s id hL h
  | getMember id => exact ref_getMember fault s id h
  | postMonitor m w hs d => exact ref_postMonitor fault s m w hs d h

theorem refInv_empty : RefInv Store.empty := by
  refine ⟨?_, ?_⟩
  · intro B M bed hb
    simp [Store.empty] at hb
  · intro M B member hm
    simp [Store.empty] at hm

/-- Runs in which every request is `linkSafe` keep the full bidirectional
invariant. -/
theorem linked_run (ops : List (Fault × Op)) :
    ∀ s, Good s → RefInv s → runOk linkSafe s ops = true → Linked (run s ops) := by
  induction ops with
  | nil =>
    intro s hG hR _
    exact (linked_iff s).2 ⟨hG.1, hR⟩
  | cons x rest ih =>
    intro s hG hR hok
    obtain ⟨fault, op⟩ := x
    simp only [runOk, Bool.and_eq_true] at hok
    exact ih (step fault s op) (good_step fault s op hG hok.1)
      (ref_step fault s op hG.1 hR) hok.2

/-- A reference to a key without row satisfies the status invariant and the
pairwise invariant, and breaks the invariant in full. -/
theorem danglingStore_not_linked :
    StatusInv danglingStore ∧ LinkInv danglingStore ∧ ¬ Linked danglingStore := by
  refine ⟨?_, ?_, ?_⟩
  · intro B bed hb
    simp only [danglingStore] at hb
    split_ifs at hb
    simp at hb
    subst hb
    simp [sampleBed]
  · intro B M bed member _ hm
    simp [danglingStore] at hm
  · intro h
    obtain ⟨member, hm, -⟩ := (h 1 1).1 ⟨sampleBed "occupied" (some 1), by decide, rfl⟩
    simp [danglingStore] at hm

theorem sampleStore_linked : Linked sampleStore := by
  refine (linked_iff sampleStore).2 ⟨sampleStore_link, ?_, ?_⟩
  · intro B M bed hb ho
    simp only [sampleStore] at hb ⊢
    split_ifs at hb <;> simp at hb <;> subst hb <;> simp_all [sampleBed]
  · intro M B member hm ho
    simp only [sampleStore] at hm ⊢
    split_ifs at hm <;> simp at hm <;> subst hm <;> simp_all

/-! ## Rounding to a double -/

theorem roundHalfEven_near (x : ℚ) : |(roundHalfEven x : ℚ) - x| ≤ 1 / 2 := by
  have h1 := Int.floor_le x
  have h2 := Int.lt_floor_add_one x
  unfold roundHalfEven
  split_ifs with a b c
  · rw [abs_le]; constructor <;> linarith
  · rw [abs_le]; push_cast; constructor <;> linarith
  · rw [abs_le]; constructor <;> linarith
  · rw [abs_le]; push_cast; constructor <;> linarith

theorem roundHalfEven_nonneg (x : ℚ) (hx : 0 ≤ x) : 0 ≤ roundHalfEven x := by
  have h1 : 0 ≤ ⌊x⌋ := Int.floor_nonneg.2 hx
  unfold roundHalfEven
  split_ifs <;> omega

/-- A value nearer than one half to an integer rounds to it. -/
theorem roundHalfEven_eq (x : ℚ) (m : ℤ) (h : |x - m| < 1 / 2) : roundHalfEven x = m := by
  rw [abs_lt] at h
  obtain ⟨h1, h2⟩ := h
  by_cases hx : (m : ℚ) ≤ x
  · have hf : ⌊x⌋ = m := by
      rw [Int.floor_eq_iff]
      constructor
      · exact hx
      · linarith
    unfold roundHalfEven
    rw [hf, if_pos (by linarith)]
  · have hf : ⌊x⌋ = m - 1 := by
      rw [Int.floor_eq_iff]
      push_cast
      constructor <;> linarith
    unfold roundHalfEven
    rw [hf]
    push_cast
    rw [if_neg (by linarith), if_pos (by linarith)]
    ring

theorem binaryLog_eq (q : ℚ) (e : ℤ) (hq : 0 < q) (h1 : (2 : ℚ) ^ e ≤ q)
    (h2 : q < (2 : ℚ) ^ (e + 1)) : Int.log 2 q = e := by
  have two : (1 : ℕ) < 2 := by norm_num
  have a := (@Int.zpow_le_iff_le_log ℚ _ _ 2 two e q hq).1 (by exact_mod_cast h1)
  have b := (@Int.lt_zpow_iff_log_lt ℚ _ _ 2 two (e + 1) q hq).1 (by exact_mod_cast h2)
  omega

/-- The double of a positive value, from its binary exponent and its 53-bit
significand. -/
theorem roundDouble_eq (q : ℚ) (e m : ℤ) (hq : 0 < q) (he : -1022 ≤ e)
    (h1 : (2 : ℚ) ^ e ≤ q) (h2 : q < (2 : ℚ) ^ (e + 1))
    (hm : |q / 2 ^ (e - 52) - m| < 1 / 2) : roundDouble q = m * 2 ^ (e - 52) := by
  have hl := binaryLog_eq q e hq h1 h2
  unfold roundDouble
  rw [if_neg (ne_of_gt hq), if_neg (not_lt.2 (le_of_lt hq)), abs_of_pos hq, hl, max_eq_left he,
    roundHalfEven_eq _ m hm]
  ring

theorem roundDouble_nonneg (q : ℚ) (hq : 0 ≤ q) : 0 ≤ roundDouble q := by
  unfold roundDouble
  split_ifs with h0 hneg
  · exact le_refl 0
  · exact absurd hneg (not_lt.2 hq)
  · have hp : (0 : ℚ) < 2 ^ (max (Int.log 2 |q|) (-1022) - 52) := by positivity
    have hr : (0 : ℚ) ≤ roundHalfEven (|q| / 2 ^ (max (Int.log 2 |q|) (-1022) - 52)) := by
      exact_mod_cast roundHalfEven_nonneg _ (div_nonneg (abs_nonneg q) (le_of_lt hp))
    rw [one_mul]
    exact mul_nonneg hr (le_of_lt hp)

/-- Relative error of the rounding in the normal range: at most `2 ^ (-53)`. -/
theorem roundDouble_near (q : ℚ) (h : (2 : ℚ) ^ (-1022 : ℤ) ≤ q) :
    |roundDouble q - q| ≤ q / 2 ^ 53 := by
  have hq : 0 < q := lt_of_lt_of_le (by positivity) h
  have two : (1 : ℕ) < 2 := by norm_num
  have he : -1022 ≤ Int.log 2 q :=
    (@Int.zpow_le_iff_le_log ℚ _ _ 2 two (-1022) q hq).1 (by exact_mod_cast h)
  have hle : (2 : ℚ) ^ Int.log 2 q ≤ q := by
    exact_mod_cast @Int.zpow_log_le_self ℚ _ _ 2 q two hq
  have hu : (0 : ℚ) < 2 ^ (Int.log 2 q - 52) := by positivity
  have hnear := roundHalfEven_near (q / 2 ^ (Int.log 2 q - 52))
  have hval : roundDouble q =
      (roundHalfEven (q / 2 ^ (Int.log 2 q - 52)) : ℚ) * 2 ^ (Int.log 2 q - 52) := by
    unfold roundDouble
    rw [if_neg (ne_of_gt hq), if_neg (not_lt.2 (le_of_lt hq)), abs_of_pos hq, max_eq_left he]
    ring
  have hsplit : (roundHalfEven (q / 2 ^ (Int.log 2 q - 52)) : ℚ) * 2 ^ (Int.log 2 q - 52) - q =
      ((roundHalfEven (q / 2 ^ (Int.log 2 q - 52)) : ℚ) - q / 2 ^ (Int.log 2 q - 52)) *
        2 ^ (Int.log 2 q - 52) := by
    field_simp
  have hulp : (2 : ℚ) ^ (Int.log 2 q - 52) = 2 ^ Int.log 2 q / 2 ^ 52 := by
    rw [zpow_sub₀ (by norm_num : (2 : ℚ) ≠ 0)]
    norm_num
  rw [hval, hsplit, abs_mul, abs_of_pos hu]
  calc |(roundHalfEven (q / 2 ^ (Int.log 2 q - 52)) : ℚ) - q / 2 ^ (Int.log 2 q - 52)| *
        2 ^ (Int.log 2 q - 52)
      ≤ 1 / 2 * 2 ^ (Int.log 2 q - 52) := mul_le_mul_of_nonneg_right hnear (le_of_lt hu)
    _ = 2 ^ Int.log 2 q / 2 ^ 53 := by rw [hulp]; ring
    _ ≤ q / 2 ^ 53 := by
      apply div_le_div_of_nonneg_right hle
      positivity

/-- Two values nearer than `d` to each other have the same floor when the second
is farther than `d` from every integer. -/
theorem floor_eq_of_near (u v d : ℚ) (h : |v - u| ≤ d) (hfar : ∀ n : ℤ, d < |u - n|) :
    ⌊v⌋ = ⌊u⌋ := by
  have h1 := Int.floor_le u
  have h2 := Int.lt_floor_add_one u
  have f1 := hfar ⌊u⌋
  have f2 := hfar (⌊u⌋ + 1)
  rw [abs_of_nonneg (by linarith)] at f1
  rw [abs_of_nonpos (by push_cast; linarith)] at f2
  push_cast at f2
  rw [abs_le] at h
  rw [Int.floor_eq_iff]
  constructor <;> linarith

/-- The text of `toFixed(2)` for a value that is not negative, from the integer
nearest to a hundred times the value. -/
theorem toFixed2_of_floor (q : ℚ) (n : ℕ) (hq : 0 ≤ q) (hn : ⌊q * 100 + 1 / 2⌋ = n) :
    toFixed2 (.finite q) =
      toString (n / 100) ++ "." ++ (if n % 100 < 10 then "0" else "") ++ toString (n % 100) := by
  simp only [one_div] at hn
  simp [toFixed2, not_lt.2 hq, hn]

/-- The handler on a table that is not empty. -/
theorem statistics_rows (round : ℚ → ℚ) (rows : List BedRow) (hne : rows ≠ []) :
    (statistics round rows).stats =
      ⟨rows.length, some (countStatus rows "occupied"), some (countStatus rows "available"),
        some (countStatus rows "maintenance")⟩ ∧
    (statistics round rows).occupancyRate =
      toFixed2 (.finite (round (round ((countStatus rows "occupied" : ℚ) / rows.length) * 100))) := by
  have hlen : (rows.length : ℚ) ≠ 0 := by
    have : rows.length ≠ 0 := fun h => hne (List.length_eq_zero.1 h)
    exact_mod_cast this
  have he : rows.isEmpty = false := by
    cases rows with
    | nil => exact absurd rfl hne
    | cons r rest => rfl
  constructor
  · simp [statistics, bedStats, sumCase, he, countStatus]
  · simp [statistics, bedStats, sumCase, he, countStatus, toNumber, jsDiv, jsMul, hlen]

theorem countStatus_le (rows : List BedRow) (status : String) :
    countStatus rows status ≤ rows.length :=
  List.length_filter_le _ rows

/-- The double computed by the handler is within `10 ^ (-13)` of the exact
rate. -/
theorem rate_near (o t : ℕ) (hpos : 0 < t) (hle : o ≤ t) (hlt : t < 2 ^ 53) :
    0 ≤ roundDouble (roundDouble ((o : ℚ) / t) * 100) ∧
    |roundDouble (roundDouble ((o : ℚ) / t) * 100) - (o : ℚ) / t * 100| ≤ 1 / 10 ^ 13 := by
  have ht : (0 : ℚ) < t := by exact_mod_cast hpos
  have hq0 : (0 : ℚ) ≤ (o : ℚ) / t := by positivity
  have hq1 : (o : ℚ) / t ≤ 1 := by
    rw [div_le_one ht]
    exact_mod_cast hle
  have hn1 := roundDouble_nonneg _ hq0
  have hn2 := roundDouble_nonneg _ (mul_nonneg hn1 (by norm_num : (0 : ℚ) ≤ 100))
  refine ⟨hn2, ?_⟩
  rcases Nat.eq_zero_or_pos o with ho | ho
  · subst ho
    have z : roundDouble 0 = 0 := by simp [roundDouble]
    simp [z]
  · have ho1 : (1 : ℚ) ≤ o := by exact_mod_cast ho
    have htb : (t : ℚ) < 2 ^ 53 := by exact_mod_cast hlt
    have hlow : (1 : ℚ) / 2 ^ 53 ≤ (o : ℚ) / t := by
      rw [div_le_div_iff₀ (by positivity) ht]
      nlinarith
    have hsmall : (2 : ℚ) ^ (-1022 : ℤ) ≤ 1 / 2 ^ 54 := by
      norm_num
    have hA := roundDouble_near ((o : ℚ) / t) (le_trans hsmall (le_trans (by
      apply div_le_div_of_nonneg_left <;> norm_num) hlow))
    rw [abs_le] at hA
    have hqlow : (1 : ℚ) / 2 ^ 54 ≤ roundDouble ((o : ℚ) / t) := by
      have : (o : ℚ) / t / 2 ^ 53 ≤ (o : ℚ) / t / 2 := by
        apply div_le_div_of_nonneg_left hq0 (by norm_num) (by norm_num)
      have hh : (1 : ℚ) / 2 ^ 54 = 1 / 2 ^ 53 / 2 := by norm_num
      linarith
    have hB := roundDouble_near (roundDouble ((o : ℚ) / t) * 100) (by
      have : (1 : ℚ) / 2 ^ 54 ≤ roundDouble ((o : ℚ) / t) * 100 := by linarith
      exact le_trans hsmall this)
    rw [abs_le] at hB
    have hdiv : (o : ℚ) / t / 2 ^ 53 ≤ 1 / 2 ^ 53 := by
      apply div_le_div_of_nonneg_right hq1
      positivity
    have hqup : roundDouble ((o : ℚ) / t) ≤ 1 + 1 / 2 ^ 53 := by linarith
    have hdiv2 : roundDouble ((o : ℚ) / t) * 100 / 2 ^ 53 ≤ (1 + 1 / 2 ^ 53) * 100 / 2 ^ 53 := by
      apply div_le_div_of_nonneg_right _ (by positivity)
      linarith
    have hnum : (1 + 1 / 2 ^ 53) * 100 / 2 ^ 53 + 100 * (1 / 2 ^ 53) ≤ (1 : ℚ) / 10 ^ 13 := by
      norm_num
    rw [abs_le]
    constructor <;> linarith

theorem sampleBeds_counts (o a m : Nat) :
    (sampleBeds o a m).length = o + a + m ∧
    countStatus (sampleBeds o a m) "occupied" = o ∧
    countStatus (sampleBeds o a m) "available" = a ∧
    countStatus (sampleBeds o a m) "maintenance" = m := by
  refine ⟨?_, ?_, ?_, ?_⟩
  · simp [sampleBeds, Nat.add_assoc]
  · simp [sampleBeds, countStatus, List.filter_append, List.filter_replicate, sampleBed]
  · simp [sampleBeds, countStatus, List.filter_append, List.filter_replicate, sampleBed]
  · simp [sampleBeds, countStatus, List.filter_append, List.filter_replicate, sampleBed]

/-- The double of 3 / 10, times 100, is the double 30. -/
theorem rate_three_of_ten : roundDouble (roundDouble ((3 : ℚ) / 10) * 100) = 30 := by
  rw [roundDouble_eq (3 / 10) (-2) 5404319552844595 (by norm_num) (by norm_num) (by norm_num)
    (by norm_num) (by rw [abs_lt]; constructor <;> norm_num)]
  rw [roundDouble_eq _ 4 8444249301319680 (by norm_num) (by norm_num) (by norm_num)
    (by norm_num) (by rw [abs_lt]; constructor <;> norm_num)]
  norm_num

/-- The double of 23 / 160, times 100, is a double below 14.375. -/
theorem rate_23_of_160 :
    roundDouble (roundDouble ((23 : ℚ) / 160) * 100) = 8092405580431359 / 2 ^ 49 := by
  rw [roundDouble_eq (23 / 160) (-3) 5179139571476070 (by norm_num) (by norm_num)
    (by norm_num) (by norm_num) (by rw [abs_lt]; constructor <;> norm_num)]
  rw [roundDouble_eq _ 3 8092405580431359 (by norm_num) (by norm_num) (by norm_num)
    (by norm_num) (by rw [abs_lt]; constructor <;> norm_num)]
  norm_num

/-! ## Claims -/

/-- C1: from a store that satisfies the status invariant and the bidirectional
invariant (bed B is a row with occupant M iff member M is a row with assigned
bed B), each of assign (when it succeeds or is rejected, that is when it is not
answered 500), unassign, delete-bed, delete-member and the single-member read
leaves a store that satisfies both invariants again, whichever database calls
throw. -/
theorem C1_operations_preserve_invariants (fault : Fault) (s : Store)
    (hS : StatusInv s) (hL : Linked s) :
    (∀ m b, (assign fault s m b).1.code ≠ 500 →
      StatusInv (assign fault s m b).2 ∧ Linked (assign fault s m b).2) ∧
    (∀ id, StatusInv (unassign fault s id).2 ∧ Linked (unassign fault s id).2) ∧
    (∀ id, StatusInv (deleteBed fault s id).2 ∧ Linked (deleteBed fault s id).2) ∧
    (∀ id, StatusInv (deleteMember fault s id).2 ∧ Linked (deleteMember fault s id).2) ∧
    (∀ id, StatusInv (getMember fault s id).store ∧ Linked (getMember fault s id).store) := by
  obtain ⟨hP, hR⟩ := (linked_iff s).1 hL
  refine ⟨?_, ?_, ?_, ?_, ?_⟩
  · intro m b hok
    exact ⟨bedsSat_assign _ statusInv_release statusInv_occupy fault s m b hS,
      (linked_iff _).2 ⟨link_assign fault s m b (StatusInv.availFree s hS) hP hok,
        ref_assign fault s m b hR⟩⟩
  · intro id
    exact ⟨bedsSat_unassign _ statusInv_release fault s id hS,
      (linked_iff _).2 ⟨link_unassign fault s id hP, ref_unassign fault s id hR⟩⟩
  · intro id
    exact ⟨bedsSat_deleteBed _ fault s id hS,
      (linked_iff _).2 ⟨link_deleteBed fault s id hP, ref_deleteBed fault s id hP hR⟩⟩
  · intro id
    exact ⟨bedsSat_deleteMember _ statusInv_release fault s id hS,
      (linked_iff _).2 ⟨link_deleteMember fault s id hP, ref_deleteMember fault s id hP hR⟩⟩
  · intro id
    exact ⟨bedsSat_getMember _ fault s id hS,
      (linked_iff _).2 ⟨link_getMember fault s id hP, ref_getMember fault s id hR⟩⟩

/-- C1 at the sample store: moving member 1 from bed 1 to bed 2 keeps both
invariants, and so does deleting member 1 with its bed released. -/
theorem C1_operations_preserve_invariants_witness :
    (StatusInv sampleStore ∧ Linked sampleStore) ∧
    (assign noFault sampleStore (some 1) (some 2)).1.code ≠ 500 ∧
    (StatusInv (assign noFault sampleStore (some 1) (some 2)).2 ∧
      Linked (assign noFault sampleStore (some 1) (some 2)).2) ∧
    (StatusInv (deleteMember noFault sampleStore 1).2 ∧
      Linked (deleteMember noFault sampleStore 1).2) :=
  ⟨⟨sampleStore_status, sampleStore_linked⟩, by decide,
    (C1_operations_preserve_invariants noFault sampleStore sampleStore_status
      sampleStore_linked).1 (some 1) (some 2) (by decide),
    (C1_operations_preserve_invariants noFault sampleStore sampleStore_status
      sampleStore_linked).2.2.2.1 1⟩

/-- C2, the claim as stated fails.  In the run that creates a bed and two
members, assigns member 1 to the bed, updates the bed with status available and
assigns member 2 to it, every request is answered with success, and at the end
member 1 still records bed 1 while bed 1 records member 2. -/
theorem C2_links_break_after_status_update :
    (run Store.empty overbookRun).beds 1 =
      some ⟨some "1", some "A", some "1", some "101", some "occupied", none, some 2⟩ ∧
    (run Store.empty overbookRun).members 1 = some ⟨sampleCols "m1", some 1⟩ ∧
    ¬ LinkInv (run Store.empty overbookRun) := by
  refine ⟨by decide, by decide, ?_⟩
  intro h
  have h1 := (h 1 1 ⟨some "1", some "A", some "1", some "101", some "occupied", none, some 2⟩
    ⟨sampleCols "m1", some 1⟩ (by decide) (by decide)).2 rfl
  exact absurd h1 (by decide)

/-- C2, amended: in every store reached from the empty store by a run in which no
update of a bed gives status available to a bed that has an occupant and no
assign is answered 500, every bed B and member M satisfy: B is a row that
records M as occupant iff M is a row that records B as assigned bed. -/
theorem C2_links_consistent_on_safe_runs (ops : List (Fault × Op))
    (h : runOk linkSafe Store.empty ops = true) : Linked (run Store.empty ops) :=
  linked_run ops Store.empty good_empty refInv_empty h

/-- C2 amended, at a run through every route. -/
theorem C2_links_consistent_on_safe_runs_witness :
    runOk linkSafe Store.empty tourRun = true ∧ Linked (run Store.empty tourRun) :=
  ⟨by decide, C2_links_consistent_on_safe_runs tourRun (by decide)⟩

/-- C3, the claim as stated fails.  A bed created with status occupied has no
occupant, and a bed updated with status maintenance while a member is assigned
to it has an occupant without status occupied. -/
theorem C3_status_breaks_on_requested_status :
    (run Store.empty createOccupiedRun).beds 1 =
      some ⟨some "1", some "A", some "1", some "101", some "occupied", none, none⟩ ∧
    ¬ StatusInv (run Store.empty createOccupiedRun) ∧
    (run Store.empty maintenanceRun).beds 1 =
      some ⟨some "1", some "A", some "1", some "101", some "maintenance", none, some 1⟩ ∧
    ¬ StatusInv (run Store.empty maintenanceRun) := by
  refine ⟨by decide, ?_, by decide, ?_⟩
  · intro h
    have h1 := (h 1 ⟨some "1", some "A", some "1", some "101", some "occupied", none, none⟩
      (by decide)).1 rfl
    exact absurd rfl h1
  · intro h
    have h1 := (h 1 ⟨some "1", some "A", some "1", some "101", some "maintenance", none, some 1⟩
      (by decide)).2 (by decide)
    exact absurd h1 (by decide)

/-- C3, amended: in every store reached from the empty store by a run in which no
bed is created with status occupied and every update of a bed gives status
occupied exactly when the bed has an occupant, every bed has status occupied iff
its occupant is set. -/
theorem C3_status_consistent_on_safe_runs (ops : List (Fault × Op))
    (h : runOk statusSafe Store.empty ops = true) : StatusInv (run Store.empty ops) :=
  status_run ops Store.empty statusInv_empty h

/-- C3 amended, at a run through every route. -/
theorem C3_status_consistent_on_safe_runs_witness :
    runOk statusSafe Store.empty tourRun = true ∧ StatusInv (run Store.empty tourRun) :=
  ⟨by decide, C3_status_consistent_on_safe_runs tourRun (by decide)⟩

/-- C4: when bed B exists with status available, member M exists and every
database call succeeds, assign(M, B) answers 200 and afterwards B has status
occupied and occupant M, and M has assigned bed B. -/
theorem C4_assign_links_bed_and_member (s : Store) (M B : Id) (bed : BedRow)
    (member : MemberRow) (hbed : s.beds B = some bed) (hst : bed.status = some "available")
    (hmem : s.members M = some member) :
    (assign noFault s (some M) (some B)).1 = ⟨200, "床位分配成功"⟩ ∧
    ∃ bed1 member1,
      (assign noFault s (some M) (some B)).2.beds B = some bed1 ∧
      bed1.status = some "occupied" ∧ bed1.current_member_id = some M ∧
      (assign noFault s (some M) (some B)).2.members M = some member1 ∧
      member1.bed_id = some B := by
  obtain ⟨s1, hr, hres⟩ := assign_noFault s M B bed member hbed hst hmem
  obtain ⟨hm1, hb1⟩ := assignRelease_rows noFault s s1 M member.bed_id hr
  obtain ⟨bed1, hbed1⟩ := hb1 B bed hbed
  rw [hres]
  refine ⟨rfl, occupyBed M bed1, setBedId (some B) member, ?_, rfl, rfl, ?_, rfl⟩
  · simp [hbed1]
  · simp [hm1, hmem]

/-- C4 at the sample store: member 2 is assigned to the available bed 2. -/
theorem C4_assign_links_bed_and_member_witness :
    (assign noFault sampleStore (some 2) (some 2)).1 = ⟨200, "床位分配成功"⟩ ∧
    ∃ bed1 member1,
      (assign noFault sampleStore (some 2) (some 2)).2.beds 2 = some bed1 ∧
      bed1.status = some "occupied" ∧ bed1.current_member_id = some 2 ∧
      (assign noFault sampleStore (some 2) (some 2)).2.members 2 = some member1 ∧
      member1.bed_id = some 2 :=
  C4_assign_links_bed_and_member sampleStore 2 2 (sampleBed "available" none)
    ⟨sampleCols "m2", none⟩ (by decide) (by decide) (by decide)

/-- C5: when member M is on bed A (each records the other) and another bed B is
available, assign(M, B) with every database call succeeding answers 200 and
afterwards A is available without occupant, B is occupied by M, and M has
assigned bed B. -/
theorem C5_reassign_releases_old_bed (s : Store) (M A B : Id) (member : MemberRow)
    (bedA bedB : BedRow) (hmem : s.members M = some member) (hon : member.bed_id = some A)
    (hA : s.beds A = some bedA) (hoccA : bedA.current_member_id = some M) (hne : B ≠ A)
    (hB : s.beds B = some bedB) (hst : bedB.status = some "available") :
    (assign noFault s (some M) (some B)).1 = ⟨200, "床位分配成功"⟩ ∧
    (∃ a, (assign noFault s (some M) (some B)).2.beds A = some a ∧
      a.status = some "available" ∧ a.current_member_id = none) ∧
    (∃ b, (assign noFault s (some M) (some B)).2.beds B = some b ∧
      b.status = some "occupied" ∧ b.current_member_id = some M) ∧
    (∃ m, (assign noFault s (some M) (some B)).2.members M = some m ∧
      m.bed_id = some B) := by
  obtain ⟨s1, hr, hres⟩ := assign_noFault s M B bedB member hB hst hmem
  have hs1 : s1 = s.setBed A releaseBed := by
    rcases assignRelease_store noFault s s1 M member.bed_id hr with
      ⟨-, hno⟩ | ⟨A1, bedA1, hold, -, -, h1⟩
    · exact absurd hoccA (hno A bedA hon hA)
    · rw [hon] at hold
      cases hold
      exact h1
  subst hs1
  rw [hres]
  refine ⟨rfl, ⟨releaseBed bedA, ?_, rfl, rfl⟩, ⟨occupyBed M bedB, ?_, rfl, rfl⟩,
    ⟨setBedId (some B) member, ?_, rfl⟩⟩
  · simp [hA, Ne.symm hne]
  · simp [hB, hne]
  · simp [hmem]

/-- C5 at the sample store: member 1 moves from bed 1 to bed 2. -/
theorem C5_reassign_releases_old_bed_witness :
    (assign noFault sampleStore (some 1) (some 2)).1 = ⟨200, "床位分配成功"⟩ ∧
    (∃ a, (assign noFault sampleStore (some 1) (some 2)).2.beds 1 = some a ∧
      a.status = some "available" ∧ a.current_member_id = none) ∧
    (∃ b, (assign noFault sampleStore (some 1) (some 2)).2.beds 2 = some b ∧
      b.status = some "occupied" ∧ b.current_member_id = some 1) ∧
    (∃ m, (assign noFault sampleStore (some 1) (some 2)).2.members 1 = some m ∧
      m.bed_id = some 2) :=
  C5_reassign_releases_old_bed sampleStore 1 1 2 ⟨sampleCols "m1", some 1⟩
    (sampleBed "occupied" (some 1)) (sampleBed "available" none)
    (by decide) (by decide) (by decide) (by decide) (by decide) (by decide) (by decide)

/-- C6: with both ids present and the two SELECTs of assign succeeding, assign
answers 404 bed-not-found when the bed is missing (whatever the member), else
400 bed-unavailable when the status of the bed is not available (whatever the
member), else 404 member-not-found when the member is missing, each time with
the store unchanged; when bed and member exist and the bed is available, the
answer is none of these three, whichever later calls throw. -/
theorem C6_assign_rejections_in_order (fault : Fault) (s : Store) (M B : Id)
    (h1 : fault 1 = false) (h2 : fault 2 = false) :
    (s.beds B = none → assign fault s (some M) (some B) = (⟨404, "床位不存在"⟩, s)) ∧
    (∀ bed, s.beds B = some bed → bed.status ≠ some "available" →
      assign fault s (some M) (some B) = (⟨400, "床位不可用"⟩, s)) ∧
    (∀ bed, s.beds B = some bed → bed.status = some "available" → s.members M = none →
      assign fault s (some M) (some B) = (⟨404, "老人信息不存在"⟩, s)) ∧
    (∀ bed member, s.beds B = some bed → bed.status = some "available" →
      s.members M = some member →
      (assign fault s (some M) (some B)).1 ≠ ⟨404, "床位不存在"⟩ ∧
      (assign fault s (some M) (some B)).1 ≠ ⟨400, "床位不可用"⟩ ∧
      (assign fault s (some M) (some B)).1 ≠ ⟨404, "老人信息不存在"⟩) := by
  refine ⟨?_, ?_, ?_, ?_⟩
  · intro hb
    simp [assign, h1, hb]
  · intro bed hb hst
    simp [assign, h1, hb, hst]
  · intro bed hb hst hm
    simp [assign, h1, h2, hb, hst, hm]
  · intro bed member hb hst hm
    simp only [assign, h1, h2, hb, hst, hm]
    cases hrel : assignRelease fault s M member.bed_id with
    | none => simp [serverError]
    | some s1 =>
      simp only [assignTransaction]
      repeat' split
      all_goals simp_all [serverError]

/-- C6 at the sample store: with a missing member, a missing bed is reported
first, and an occupied bed is reported before the missing member. -/
theorem C6_assign_rejections_in_order_witness :
    (noFault 1 = false ∧ noFault 2 = false) ∧
    assign noFault sampleStore (some 9) (some 7) = (⟨404, "床位不存在"⟩, sampleStore) ∧
    assign noFault sampleStore (some 9) (some 1) = (⟨400, "床位不可用"⟩, sampleStore) ∧
    assign noFault sampleStore (some 9) (some 2) = (⟨404, "老人信息不存在"⟩, sampleStore) :=
  ⟨⟨rfl, rfl⟩,
    (C6_assign_rejections_in_order noFault sampleStore 9 7 rfl rfl).1 (by decide),
    (C6_assign_rejections_in_order noFault sampleStore 9 1 rfl rfl).2.1
      (sampleBed "occupied" (some 1)) (by decide) (by decide),
    (C6_assign_rejections_in_order noFault sampleStore 9 2 rfl rfl).2.2.1
      (sampleBed "available" none) (by decide) (by decide) (by decide)⟩

/-- C7, the code at a failing input: member 1 is on bed 1 and bed 2 is available;
when the UPDATE of the member row inside the transaction of assign(1, 2) throws,
the answer is 500, bed 2 and member 1 are as before, but bed 1 stays released:
the release was issued before the transaction and is not rolled back. -/
theorem C7_assign_release_not_rolled_back :
    sampleStore.beds 1 = some (sampleBed "occupied" (some 1)) ∧
    (assign (faultAt 8) sampleStore (some 1) (some 2)).1.code = 500 ∧
    (assign (faultAt 8) sampleStore (some 1) (some 2)).2.beds 1 =
      some (sampleBed "available" none) ∧
    (assign (faultAt 8) sampleStore (some 1) (some 2)).2.beds 2 = sampleStore.beds 2 ∧
    (assign (faultAt 8) sampleStore (some 1) (some 2)).2.members 1 =
      some ⟨sampleCols "m1", some 1⟩ := by
  decide

/-- C8: for an existing bed B and all database calls succeeding, unassign(B)
answers 200, a second unassign(B) answers 200 again and leaves the store exactly
as the first call left it; on a bed without occupant the first call already
changes nothing. -/
theorem C8_unassign_idempotent (s : Store) (B : Id) (bed : BedRow)
    (hbed : s.beds B = some bed) :
    (unassign noFault s B).1.code = 200 ∧
    (unassign noFault (unassign noFault s B).2 B).1.code = 200 ∧
    (unassign noFault (unassign noFault s B).2 B).2 = (unassign noFault s B).2 ∧
    (bed.current_member_id = none →
      unassign noFault s B = (⟨200, "床位未分配，无需取消"⟩, s)) := by
  cases hocc : bed.current_member_id with
  | none =>
    have h1 : unassign noFault s B = (⟨200, "床位未分配，无需取消"⟩, s) := by
      simp [unassign, noFault, hbed, hocc]
    simp [h1]
  | some M =>
    have h1 : unassign noFault s B =
        (⟨200, "床位分配已取消"⟩, (s.setBed B releaseBed).setMember M (setBedId none)) := by
      simp [unassign, noFault, hbed, hocc]
    have h2 : unassign noFault ((s.setBed B releaseBed).setMember M (setBedId none)) B =
        (⟨200, "床位未分配，无需取消"⟩, (s.setBed B releaseBed).setMember M (setBedId none)) := by
      simp [unassign, noFault, hbed, releaseBed]
    simp [h1, h2]

/-- C8 at the sample store, on the occupied bed 1. -/
theorem C8_unassign_idempotent_witness :
    (unassign noFault sampleStore 1).1.code = 200 ∧
    (unassign noFault (unassign noFault sampleStore 1).2 1).1.code = 200 ∧
    (unassign noFault (unassign noFault sampleStore 1).2 1).2 =
      (unassign noFault sampleStore 1).2 ∧
    ((sampleBed "occupied" (some 1)).current_member_id = none →
      unassign noFault sampleStore 1 = (⟨200, "床位未分配，无需取消"⟩, sampleStore)) :=
  C8_unassign_idempotent sampleStore 1 (sampleBed "occupied" (some 1)) (by decide)

/-- C9: when bed B records occupant M and unassign(B) answers 200, afterwards B
is its old row with status available and no occupant, the row of M (if any) is
its old row with the assigned bed cleared, and every other bed and every other
member is unchanged. -/
theorem C9_unassign_clears_both_sides (fault : Fault) (s : Store) (B M : Id) (bed : BedRow)
    (hbed : s.beds B = some bed) (hocc : bed.current_member_id = some M)
    (hok : (unassign fault s B).1.code = 200) :
    (unassign fault s B).2.beds B = some (releaseBed bed) ∧
    (releaseBed bed).status = some "available" ∧
    (releaseBed bed).current_member_id = none ∧
    (unassign fault s B).2.members M = (s.members M).map (setBedId none) ∧
    (∀ m, (unassign fault s B).2.members M = some m → m.bed_id = none) ∧
    (∀ Y, Y ≠ B → (unassign fault s B).2.beds Y = s.beds Y) ∧
    (∀ X, X ≠ M → (unassign fault s B).2.members X = s.members X) := by
  rcases unassign_store fault s B with h0 | ⟨hn, -⟩ | ⟨bed1, hb1, ho1, -⟩ | ⟨bed1, M1, hb1, ho1, h0⟩
  · rw [h0] at hok
    exact absurd hok (by simp [serverError])
  · rw [hbed] at hn
    cases hn
  · rw [hbed] at hb1
    cases hb1
    rw [hocc] at ho1
    cases ho1
  · rw [hbed] at hb1
    cases hb1
    rw [hocc] at ho1
    cases ho1
    rw [h0]
    refine ⟨by simp [hbed], rfl, rfl, by simp, ?_, ?_, ?_⟩
    · intro m hm
      cases hmm : s.members M with
      | none => simp [hmm] at hm
      | some m0 =>
        simp [hmm, setBedId] at hm
        subst hm
        rfl
    · intro Y hY
      simp [hY]
    · intro X hX
      simp [hX]

/-- C9 at the sample store: unassign of bed 1, occupied by member 1. -/
theorem C9_unassign_clears_both_sides_witness :
    (unassign noFault sampleStore 1).2.beds 1 = some (sampleBed "available" none) ∧
    (unassign noFault sampleStore 1).2.members 1 = some ⟨sampleCols "m1", none⟩ ∧
    (unassign noFault sampleStore 1).2.beds 2 = sampleStore.beds 2 ∧
    (unassign noFault sampleStore 1).2.members 2 = sampleStore.members 2 :=
  have h := C9_unassign_clears_both_sides noFault sampleStore 1 1
    (sampleBed "occupied" (some 1)) (by decide) (by decide) (by decide)
  ⟨h.1, h.2.2.2.1, h.2.2.2.2.2.1 2 (by decide), h.2.2.2.2.2.2 2 (by decide)⟩

/-- C10: when member M records bed B, which exists, and delete-member(M) answers
200, afterwards M has no row and B is its old row with status available and no
occupant. -/
theorem C10_delete_member_releases_bed (fault : Fault) (s : Store) (M B : Id)
    (member : MemberRow) (bed : BedRow) (hmem : s.members M = some member)
    (hon : member.bed_id = some B) (hbed : s.beds B = some bed)
    (hok : (deleteMember fault s M).1.code = 200) :
    (deleteMember fault s M).2.members M = none ∧
    (deleteMember fault s M).2.beds B = some (releaseBed bed) ∧
    (releaseBed bed).status = some "available" ∧
    (releaseBed bed).current_member_id = none := by
  rcases deleteMember_store fault s M with h0 | ⟨hn, -⟩ | ⟨member1, bedId, hm1, hb1, h0⟩
  · rw [h0] at hok
    exact absurd hok (by simp [serverError])
  · rw [hn member hmem] at hon
    cases hon
  · rw [hmem] at hm1
    cases hm1
    rw [hon] at hb1
    cases hb1
    rw [h0]
    exact ⟨by simp, by simp [hbed], rfl, rfl⟩

/-- C10 at the sample store: deleting member 1, who is on bed 1. -/
theorem C10_delete_member_releases_bed_witness :
    (deleteMember noFault sampleStore 1).1.code = 200 ∧
    (deleteMember noFault sampleStore 1).2.members 1 = none ∧
    (deleteMember noFault sampleStore 1).2.beds 1 = some (sampleBed "available" none) :=
  have h := C10_delete_member_releases_bed noFault sampleStore 1 1 ⟨sampleCols "m1", some 1⟩
    (sampleBed "occupied" (some 1)) (by decide) (by decide) (by decide) (by decide)
  ⟨by decide, h.1, h.2.1⟩

/-- C11, the claim as stated fails.  After the run in which bed 1 is given to
member 1, updated with status available and given to member 2, delete-bed(1)
answers 200 and clears member 2, the recorded occupant; member 1 still records
the deleted bed. -/
theorem C11_delete_bed_leaves_other_reference :
    (deleteBed noFault (run Store.empty overbookRun) 1).1.code = 200 ∧
    (deleteBed noFault (run Store.empty overbookRun) 1).2.beds 1 = none ∧
    (deleteBed noFault (run Store.empty overbookRun) 1).2.members 2 =
      some ⟨sampleCols "m2", none⟩ ∧
    (deleteBed noFault (run Store.empty overbookRun) 1).2.members 1 =
      some ⟨sampleCols "m1", some 1⟩ := by
  decide

/-- C11, amended: when delete-bed(B) answers 200, B has no row any more and the
member that B recorded as occupant has its assigned bed cleared; if moreover the
store satisfied the bidirectional invariant and B existed, no member records B
afterwards. -/
theorem C11_delete_bed_severs_links (fault : Fault) (s : Store) (B : Id)
    (hok : (deleteBed fault s B).1.code = 200) :
    (deleteBed fault s B).2.beds B = none ∧
    (∀ bed occupant m, s.beds B = some bed → bed.current_member_id = some occupant →
      (deleteBed fault s B).2.members occupant = some m → m.bed_id = none) ∧
    (LinkInv s → s.beds B ≠ none →
      ∀ M m, (deleteBed fault s B).2.members M = some m → m.bed_id ≠ some B) := by
  rcases deleteBed_store fault s B with h0 | ⟨hfree, h0⟩ | ⟨bed, occupant, hbed, hocc, h0⟩
  · rw [h0] at hok
    exact absurd hok (by simp [serverError])
  · rw [h0]
    refine ⟨by simp, ?_, ?_⟩
    · intro bed occupant m hbed hocc
      rw [hfree bed hbed] at hocc
      cases hocc
    · intro hL hB M m hm hb
      cases hbb : s.beds B with
      | none => exact hB hbb
      | some bed =>
        have h1 := (hL B M bed m hbb hm).2 hb
        rw [hfree bed hbb] at h1
        cases h1
  · rw [h0]
    refine ⟨by simp, ?_, ?_⟩
    · intro bed1 occ1 m hbed1 hocc1 hm
      rw [hbed] at hbed1
      cases hbed1
      rw [hocc] at hocc1
      cases hocc1
      cases hmm : s.members occupant with
      | none => simp [hmm] at hm
      | some m0 =>
        simp [hmm, setBedId] at hm
        subst hm
        rfl
    · intro hL _ M m hm hb
      by_cases hM : M = occupant
      · subst hM
        cases hmm : s.members M with
        | none => simp [hmm] at hm
        | some m0 =>
          simp [hmm, setBedId] at hm
          subst hm
          simp at hb
      · simp [hM] at hm
        have h1 := (hL B M bed m hbed hm).2 hb
        rw [hocc] at h1
        exact hM (Option.some.inj h1).symm

/-- C11 amended, at the sample store: deleting bed 1, occupied by member 1. -/
theorem C11_delete_bed_severs_links_witness :
    (deleteBed noFault sampleStore 1).1.code = 200 ∧
    (deleteBed noFault sampleStore 1).2.beds 1 = none ∧
    (deleteBed noFault sampleStore 1).2.members 1 = some ⟨sampleCols "m1", none⟩ ∧
    (⟨sampleCols "m1", none⟩ : MemberRow).bed_id ≠ some 1 :=
  have h := C11_delete_bed_severs_links noFault sampleStore 1 (by decide)
  ⟨by decide, h.1, by decide,
    h.2.2 sampleStore_link (by decide) 1 ⟨sampleCols "m1", none⟩ (by decide)⟩

/-- C12: for an existing member M that records bed B and all database calls
succeeding, the single-member read answers 200; it clears the assigned bed of M
in the store and reports M without bed (`bed_id` null, `bed_info` the text for
unassigned) exactly when B has no row or records another occupant; when B
records M the store is untouched and the answer carries bed B with its columns. -/
theorem C12_member_read_repairs_broken_link (s : Store) (M B : Id) (member : MemberRow)
    (hmem : s.members M = some member) (hon : member.bed_id = some B) :
    (getMember noFault s M).resp.code = 200 ∧
    (((getMember noFault s M).store = s.setMember M (setBedId none) ∧
        ∃ v, (getMember noFault s M).member = some v ∧ v.row.bed_id = none ∧
          bedInfo v = "未分配") ↔
      (s.beds B).bind (fun b => b.current_member_id) ≠ some M) ∧
    ((s.beds B).bind (fun b => b.current_member_id) = some M →
      (getMember noFault s M).store = s ∧
      ∃ v bed, (getMember noFault s M).member = some v ∧ s.beds B = some bed ∧
        v.row = member ∧ v.row.bed_id = some B ∧ v.bed_number = bed.bed_number ∧
        v.building = bed.building ∧ v.floor = bed.floor ∧
        v.room_number = bed.room_number) := by
  by_cases hbad : (s.beds B).bind (fun b => b.current_member_id) = some M
  · have hres : getMember noFault s M = ⟨⟨200, ""⟩, some (joinBed s M member), s⟩ := by
      simp [getMember, noFault, hmem, hon, hbad]
    cases hbb : s.beds B with
    | none => simp [hbb] at hbad
    | some bed =>
      have hj : joinBed s M member =
          ⟨M, member, bed.bed_number, bed.building, bed.floor, bed.room_number⟩ := by
        simp [joinBed, hon, hbb]
      rw [hres, hj]
      refine ⟨rfl, ?_, ?_⟩
      · constructor
        · rintro ⟨-, v, hv, hnone, -⟩
          simp only [Option.some.injEq] at hv
          subst hv
          rw [hon] at hnone
          cases hnone
        · intro h
          exact absurd hbad (by simpa [hbb] using h)
      · intro _
        exact ⟨rfl, _, bed, rfl, rfl, rfl, hon, rfl, rfl, rfl, rfl⟩
  · have hres : getMember noFault s M =
        ⟨⟨200, ""⟩, some (joinBed s M member).clearBed, s.setMember M (setBedId none)⟩ := by
      simp [getMember, noFault, hmem, hon, hbad]
    rw [hres]
    refine ⟨rfl, ?_, ?_⟩
    · constructor
      · intro _
        exact hbad
      · intro _
        refine ⟨rfl, _, rfl, ?_, ?_⟩
        · simp [MemberView.clearBed, setBedId]
        · simp [bedInfo, MemberView.clearBed, truthyStr]
    · intro h
      exact absurd h hbad

/-- C12 at a corrupted store: member 1 records bed 1, which records member 2. -/
theorem C12_member_read_repairs_broken_link_witness :
    (getMember noFault brokenStore 1).resp.code = 200 ∧
    (getMember noFault brokenStore 1).store.members 1 = some ⟨sampleCols "m1", none⟩ ∧
    ∃ v, (getMember noFault brokenStore 1).member = some v ∧ v.row.bed_id = none ∧
      bedInfo v = "未分配" :=
  have h := C12_member_read_repairs_broken_link brokenStore 1 1 ⟨sampleCols "m1", some 1⟩
    (by decide) (by decide)
  have h2 := h.2.1.2 (by decide)
  ⟨h.1, by rw [h2.1]; decide, h2.2⟩

/-- C13, the claim as stated fails.  In a store where beds 1 and 2 both record
member 1 and member 1 records bed 1, the read of member 1 finds bed 1
consistent and changes nothing: bed 2 still records member 1, who does not
record bed 2. -/
theorem C13_member_read_leaves_stale_occupant :
    (getMember noFault staleStore 1).resp.code = 200 ∧
    (getMember noFault staleStore 1).store.beds 2 = some (sampleBed "occupied" (some 1)) ∧
    (getMember noFault staleStore 1).store.members 1 = some ⟨sampleCols "m1", some 1⟩ ∧
    ¬ (∀ B bed m, (getMember noFault staleStore 1).store.beds B = some bed →
        (getMember noFault staleStore 1).store.members 1 = some m →
        (bed.current_member_id = some 1 ↔ m.bed_id = some B)) := by
  refine ⟨by decide, by decide, by decide, ?_⟩
  intro h
  have h1 := (h 2 (sampleBed "occupied" (some 1)) ⟨sampleCols "m1", some 1⟩
    (by decide) (by decide)).1 rfl
  exact absurd h1 (by decide)

/-- C13, amended: for every store, consistent or corrupted, and every existing
member M, after the single-member read of M with all database calls succeeding,
whenever M records a bed B, bed B has a row and records M as occupant. -/
theorem C13_member_read_repairs_member_side (s : Store) (M : Id) (member : MemberRow)
    (hmem : s.members M = some member) :
    ∀ m B, (getMember noFault s M).store.members M = some m → m.bed_id = some B →
      ∃ bed, (getMember noFault s M).store.beds B = some bed ∧
        bed.current_member_id = some M := by
  intro m B hm hb
  cases hon : member.bed_id with
  | none =>
    have hres : (getMember noFault s M).store = s := by
      simp [getMember, noFault, hmem, hon]
    rw [hres] at hm
    rw [hmem] at hm
    cases hm
    rw [hon] at hb
    cases hb
  | some B0 =>
    by_cases hbad : (s.beds B0).bind (fun b => b.current_member_id) = some M
    · have hres : (getMember noFault s M).store = s := by
        simp [getMember, noFault, hmem, hon, hbad]
      rw [hres] at hm ⊢
      rw [hmem] at hm
      cases hm
      rw [hon] at hb
      cases hb
      cases hbb : s.beds B with
      | none => simp [hbb] at hbad
      | some bed => exact ⟨bed, rfl, by simpa [hbb] using hbad⟩
    · have hres : (getMember noFault s M).store = s.setMember M (setBedId none) := by
        simp [getMember, noFault, hmem, hon, hbad]
      rw [hres] at hm
      simp [hmem, setBedId] at hm
      subst hm
      simp at hb

/-- C13 amended, at the sample store: after the read of member 1, who records
bed 1, bed 1 records member 1. -/
theorem C13_member_read_repairs_member_side_witness :
    ∃ bed, (getMember noFault sampleStore 1).store.beds 1 = some bed ∧
      bed.current_member_id = some 1 :=
  C13_member_read_repairs_member_side sampleStore 1 ⟨sampleCols "m1", some 1⟩ (by decide)
    ⟨sampleCols "m1", some 1⟩ 1 (by decide) (by decide)

/-- C14, the claim as stated fails.  For a table of 160 beds of which 23 are
occupied the counts are reported as the claim says, and the exact rate is
14.375, which rounds to 14.38; the handler computes the rate in double
arithmetic, where it comes out below 14.375, and reports 14.37. -/
theorem C14_rate_is_not_the_rounded_quotient :
    (statistics roundDouble (sampleBeds 23 137 0)).stats = ⟨160, some 23, some 137, some 0⟩ ∧
    (statistics roundDouble (sampleBeds 23 137 0)).occupancyRate = "14.37" ∧
    (23 : ℚ) / 160 * 100 = 14375 / 1000 ∧
    toFixed2 (.finite ((23 : ℚ) / 160 * 100)) = "14.38" := by
  obtain ⟨hl, ho, ha, hm⟩ := sampleBeds_counts 23 137 0
  have hne : sampleBeds 23 137 0 ≠ [] := by
    intro h
    rw [h] at hl
    simp at hl
  obtain ⟨h1, h2⟩ := statistics_rows roundDouble (sampleBeds 23 137 0) hne
  refine ⟨?_, ?_, by norm_num, ?_⟩
  · rw [h1, hl, ho, ha, hm]
  · rw [h2, hl, ho]
    have e : ((23 : ℕ) : ℚ) / ((23 + 137 + 0 : ℕ) : ℚ) = 23 / 160 := by norm_num
    rw [e, rate_23_of_160]
    rw [toFixed2_of_floor _ 1437 (by norm_num) (by
      rw [Int.floor_eq_iff]
      constructor <;> norm_num)]
    decide
  · rw [toFixed2_of_floor _ 1438 (by norm_num) (by
      rw [Int.floor_eq_iff]
      constructor <;> norm_num)]
    decide

/-- C14, amended: for every table that is not empty (with fewer than 2^53 rows,
so that the counts are doubles), the handler reports total, occupied, available
and maintenance as the counts of the rows with those statuses, and as
occupancyRate the text with two decimals nearest to a double that is within
10^-13 of occupied/total × 100; the text is that of occupied/total × 100 rounded
to two decimals whenever a hundred times that value plus one half is farther
than 10^-11 from every integer; for 10 rows of which 3 are occupied it is
30.00. -/
theorem C14_statistics_counts_and_rate (rows : List BedRow) (hne : rows ≠ [])
    (hlt : rows.length < 2 ^ 53) :
    (statistics roundDouble rows).stats =
      ⟨rows.length, some (countStatus rows "occupied"), some (countStatus rows "available"),
        some (countStatus rows "maintenance")⟩ ∧
    (∃ y : ℚ, 0 ≤ y ∧ (statistics roundDouble rows).occupancyRate = toFixed2 (.finite y) ∧
      |y - (countStatus rows "occupied" : ℚ) / rows.length * 100| ≤ 1 / 10 ^ 13) ∧
    ((∀ n : ℤ, 1 / 10 ^ 11 <
        |(countStatus rows "occupied" : ℚ) / rows.length * 100 * 100 + 1 / 2 - n|) →
      (statistics roundDouble rows).occupancyRate =
        toFixed2 (.finite ((countStatus rows "occupied" : ℚ) / rows.length * 100))) ∧
    (rows.length = 10 → countStatus rows "occupied" = 3 →
      (statistics roundDouble rows).occupancyRate = "30.00") := by
  obtain ⟨h1, h2⟩ := statistics_rows roundDouble rows hne
  have hpos : 0 < rows.length := List.length_pos.2 hne
  obtain ⟨hy0, hy⟩ := rate_near (countStatus rows "occupied") rows.length hpos
    (countStatus_le rows "occupied") hlt
  have hx0 : (0 : ℚ) ≤ (countStatus rows "occupied" : ℚ) / rows.length * 100 := by positivity
  refine ⟨h1, ⟨_, hy0, h2, hy⟩, ?_, ?_⟩
  · intro hfar
    rw [h2]
    have hfl := floor_eq_of_near
      ((countStatus rows "occupied" : ℚ) / rows.length * 100 * 100 + 1 / 2)
      (roundDouble (roundDouble ((countStatus rows "occupied" : ℚ) / rows.length) * 100) * 100
        + 1 / 2) (1 / 10 ^ 11) (by
        rw [abs_le] at hy ⊢
        constructor <;> linarith [hy.1, hy.2]) hfar
    have hnn : (0 : ℤ) ≤
        ⌊(countStatus rows "occupied" : ℚ) / rows.length * 100 * 100 + 1 / 2⌋ :=
      Int.floor_nonneg.2 (by linarith)
    obtain ⟨n, hn⟩ := Int.eq_ofNat_of_zero_le hnn
    rw [toFixed2_of_floor _ n hy0 (by rw [hfl, hn]), toFixed2_of_floor _ n hx0 hn]
  · intro hlen hocc
    rw [h2, hlen, hocc]
    have e : ((3 : ℕ) : ℚ) / ((10 : ℕ) : ℚ) = 3 / 10 := by norm_num
    rw [e, rate_three_of_ten]
    rw [toFixed2_of_floor _ 3000 (by norm_num) (by
      rw [Int.floor_eq_iff]
      constructor <;> norm_num)]
    decide

/-- C14 amended, at a table with 3 occupied, 5 available and 2 maintenance
beds. -/
theorem C14_statistics_counts_and_rate_witness :
    (statistics roundDouble (sampleBeds 3 5 2)).stats = ⟨10, some 3, some 5, some 2⟩ ∧
    (statistics roundDouble (sampleBeds 3 5 2)).occupancyRate = "30.00" := by
  obtain ⟨hl, ho, ha, hm⟩ := sampleBeds_counts 3 5 2
  have h := C14_statistics_counts_and_rate (sampleBeds 3 5 2) (by decide) (by
    rw [hl]
    norm_num)
  refine ⟨?_, h.2.2.2 hl ho⟩
  rw [h.1, hl, ho, ha, hm]

/-- C15, the code at the failing input.  Over an empty table the aggregate row has
total 0 and NULL sums, the handler divides NULL by 0, and the answer carries the
text NaN as occupancy rate, whatever the rounding of finite results is. -/
theorem C15_empty_table_rate_is_nan (round : ℚ → ℚ) :
    Store.empty.bedRows = [] ∧
    (statistics round []).stats = ⟨0, none, none, none⟩ ∧
    (statistics round []).occupancyRate = "NaN" := by
  refine ⟨rfl, rfl, ?_⟩
  simp [statistics, bedStats, sumCase, toNumber, jsDiv, jsMul, toFixed2]

/-- C16, the code at a failing input.  The text `diabetes, hypertension,` does
not parse as JSON; as `health_status` of `POST /health/monitor` and of `PUT
/members/:id` it yields three conditions, the last with the empty name of the
segment after the final comma, while the read path of `GET /health/monitor`
drops that segment.  The text `diabetes, hypertension` yields the two
conditions of the claim. -/
theorem C16_empty_segment_becomes_condition :
    parseSample "diabetes, hypertension," = none ∧
    monitorConditions parseSample mintSample 0 .undefined (.str "diabetes, hypertension,") =
      (some [condition (.str "hc-0") (.str "diabetes") (.str "moderate"),
        condition (.str "hc-1") (.str "hypertension") (.str "moderate"),
        condition (.str "hc-2") (.str "") (.str "moderate")], 3) ∧
    putConditions parseSample mintSample 0 .undefined (.str "diabetes, hypertension,") =
      (some [condition (.str "hc-0") (.str "diabetes") (.str "moderate"),
        condition (.str "hc-1") (.str "hypertension") (.str "moderate"),
        condition (.str "hc-2") (.str "") (.str "moderate")], 3) ∧
    readConditions parseSample mintSample 0 (some "diabetes, hypertension,") =
      ([condition (.str "hc-0") (.str "diabetes") (.str "moderate"),
        condition (.str "hc-1") (.str "hypertension") (.str "moderate")], 2) ∧
    monitorConditions parseSample mintSample 0 .undefined (.str "diabetes, hypertension") =
      (some [condition (.str "hc-0") (.str "diabetes") (.str "moderate"),
        condition (.str "hc-1") (.str "hypertension") (.str "moderate")], 2) ∧
    putConditions parseSample mintSample 0 .undefined (.str "diabetes, hypertension") =
      (some [condition (.str "hc-0") (.str "diabetes") (.str "moderate"),
        condition (.str "hc-1") (.str "hypertension") (.str "moderate")], 2) :=
  ⟨rfl, rfl, rfl, rfl, rfl, rfl⟩

/-- C17, the claim as stated fails.  In an array whose first element carries the
id c1 and whose second element is an object without id and without name that
has an own property `toString`, the conversion `String(item)` of the second
element throws: `POST /health/monitor` and `PUT /members/:id` produce no
sequence and answer 500, so the element with the id c1 appears in no output. -/
theorem C17_hidden_toString_throws :
    hiddenItems.all isCondItem = true ∧
    monitorConditions parseSample mintSample 0 (.arr hiddenItems) .undefined = (none, 1) ∧
    putConditions parseSample mintSample 0 (.arr hiddenItems) .undefined = (none, 1) ∧
    (postMonitorRequest parseSample mintSample 0 noFault sampleStore (some 2)
      (.arr hiddenItems) .undefined none none).1.code = 500 ∧
    (putMemberRequest parseSample (fun _ => some false) mintSample 0 noFault sampleStore 2
      (fun r => r.toMemberCols) (.arr hiddenItems) .undefined).1.code = 500 :=
  ⟨by decide, by rfl, by rfl, by decide, by decide⟩

/-- C17, amended: for every input array of strings and objects on which the
conversion `String(item)` does not throw (every object has an id, a truthy name
or no own property `toString`), `POST /health/monitor` and `PUT /members/:id`
return a sequence of the same length in which every element that carried an id
stands unchanged at its position and every record carries an id; normalising
that sequence again, as an array (both handlers), as a text that parses to it
(both handlers, either field) or in the read path of `GET /health/monitor`,
returns the same sequence and generates no id, and `GET /health/monitor` answers
with it when the text of its answer can be built. -/
theorem C17_normalise_preserves_ids_and_is_idempotent (parse : String → Option JsVal)
    (mint : Mint) (k : Nat) (xs : List JsVal) (hs : JsVal)
    (hxs : ∀ x ∈ xs, isDirectItem x = true) :
    ∃ out k1,
      monitorConditions parse mint k (.arr xs) hs = (some out, k1) ∧
      putConditions parse mint k (.arr xs) hs = (some out, k1) ∧
      List.Forall₂ (fun x y => hasId y ∧ (hasId x → y = x)) xs out ∧
      ∀ (parse2 : String → Option JsVal) (mint2 : Mint) (k2 : Nat) (hs2 : JsVal),
        monitorConditions parse2 mint2 k2 (.arr out) hs2 = (some out, k2) ∧
        putConditions parse2 mint2 k2 (.arr out) hs2 = (some out, k2) ∧
        ∀ t, t ≠ "" → parse2 t = some (.arr out) →
          monitorConditions parse2 mint2 k2 (.str t) hs2 = (some out, k2) ∧
          putConditions parse2 mint2 k2 (.str t) hs2 = (some out, k2) ∧
          monitorConditions parse2 mint2 k2 .undefined (.str t) = (some out, k2) ∧
          putConditions parse2 mint2 k2 .undefined (.str t) = (some out, k2) ∧
          readConditions parse2 mint2 k2 (some t) = (out, k2) ∧
          ((statusText out).isSome = true → readAnswer parse2 mint2 k2 (some t) = (out, k2)) := by
  obtain ⟨out, k1, hout, hF⟩ :=
    mapItems_forall₂ (directItem mint) (fun x => isDirectItem x = true)
      (fun x y => hasId y ∧ (hasId x → y = x))
      (fun k x hx => by
        obtain ⟨y, k1, h1, h2, h3⟩ := directItem_cond mint k x hx
        exact ⟨y, k1, h1, h2, fun hh => (h3 hh).1⟩) xs k hxs
  refine ⟨out, k1, by rw [monitor_direct, hout], by rw [put_direct, hout], hF, ?_⟩
  intro parse2 mint2 k2 hs2
  obtain ⟨h1, h2, h3⟩ :=
    renormalise_fix parse2 mint2 k2 out hs2 (forall₂_right hF (fun _ _ h => h.1))
  refine ⟨h1, h2, ?_⟩
  intro t ht hparse
  obtain ⟨a1, a2, a3, a4, a5⟩ := h3 t ht hparse
  refine ⟨a1, a2, a3, a4, a5, ?_⟩
  intro htext
  obtain ⟨text, htext1⟩ := Option.isSome_iff_exists.1 htext
  simp only [readAnswer, a5, htext1]

/-- C17 at the sample input: the record with id c1 stays at position 1, and the
output of the first pass is returned unchanged by a second pass. -/
theorem C17_normalise_preserves_ids_and_is_idempotent_witness :
    ∃ out k1,
      monitorConditions parseSample mintSample 0 (.arr sampleItems) .undefined = (some out, k1) ∧
      idOf <$> out[1]? = some (.str "c1") ∧
      monitorConditions parseSample mintSample k1 (.arr out) .undefined = (some out, k1) :=
  have h := C17_normalise_preserves_ids_and_is_idempotent parseSample mintSample 0 sampleItems
    .undefined (by decide)
  match h with
  | ⟨out, k1, h1, _, _, h4⟩ =>
    ⟨out, k1, h1, by
      have h5 : monitorConditions parseSample mintSample 0 (.arr sampleItems) .undefined =
          (some [condition (.str "hc-0") (.str "diabetes") (.str "moderate"),
            .obj [("id", .str "c1"), ("name", .str "flu")],
            condition (.str "hc-1") (.str "asthma") (.str "mild")], 2) := by rfl
      rw [h5] at h1
      simp only [Prod.mk.injEq, Option.some.injEq] at h1
      rw [← h1.1]
      rfl, (h4 parseSample mintSample k1 .undefined).1⟩

/-- C18, the claim as stated fails.  A record given directly with an id and no
severity is returned as it is, without severity; a record without id inside a
JSON text gets an id and nothing else, so it has no severity either. -/
theorem C18_severity_not_filled :
    monitorConditions parseSample mintSample 0
        (.arr [.obj [("id", .str "c1"), ("name", .str "flu")]]) .undefined =
      (some [.obj [("id", .str "c1"), ("name", .str "flu")]], 0) ∧
    putConditions parseSample mintSample 0
        (.arr [.obj [("id", .str "c1"), ("name", .str "flu")]]) .undefined =
      (some [.obj [("id", .str "c1"), ("name", .str "flu")]], 0) ∧
    severityOf (.obj [("id", .str "c1"), ("name", .str "flu")]) = .undefined ∧
    parseSample "[\x7b\"name\":\"flu\"\x7d]" = some (.arr [.obj [("name", .str "flu")]]) ∧
    monitorConditions parseSample mintSample 0 (.str "[\x7b\"name\":\"flu\"\x7d]") .undefined =
      (some [.obj [("name", .str "flu"), ("id", .str "hc-0")]], 1) ∧
    putConditions parseSample mintSample 0 (.str "[\x7b\"name\":\"flu\"\x7d]") .undefined =
      (some [.obj [("name", .str "flu"), ("id", .str "hc-0")]], 1) ∧
    severityOf (.obj [("name", .str "flu"), ("id", .str "hc-0")]) = .undefined :=
  ⟨rfl, rfl, rfl, rfl, rfl, rfl, rfl⟩

/-- C18, amended: for every array of partial condition objects, given directly or
as a JSON text, `POST /health/monitor` and `PUT /members/:id` return one record
per object, each with an id: an object that carried an id is returned as it is,
another gets a generated id.  When the array is given directly and the
conversion `String(item)` does not throw on its objects (each has an id, a
truthy name or no own property `toString`), the record of an object without id
also has a name and a severity, the severity of the object or else moderate. -/
theorem C18_records_get_ids_and_direct_defaults (parse : String → Option JsVal)
    (mint : Mint) (k : Nat) (xs : List JsVal) (hs : JsVal)
    (hxs : ∀ x ∈ xs, isObj x = true) :
    ((∀ x ∈ xs, isDirectItem x = true) →
      ∃ out k1,
        monitorConditions parse mint k (.arr xs) hs = (some out, k1) ∧
        putConditions parse mint k (.arr xs) hs = (some out, k1) ∧
        List.Forall₂
          (fun x y => hasId y ∧ (hasId x → y = x) ∧ (¬ hasId x → DirectFill x y)) xs out) ∧
    (∀ t, t ≠ "" → parse t = some (.arr xs) →
      ∃ out k1,
        monitorConditions parse mint k (.str t) hs = (some out, k1) ∧
        putConditions parse mint k (.str t) hs = (some out, k1) ∧
        monitorConditions parse mint k .undefined (.str t) = (some out, k1) ∧
        putConditions parse mint k .undefined (.str t) = (some out, k1) ∧
        List.Forall₂ (fun x y => hasId y ∧ (hasId x → y = x)) xs out) := by
  constructor
  · intro hd
    obtain ⟨out, k1, hout, hF⟩ :=
      mapItems_forall₂ (directItem mint) (fun x => isObj x = true ∧ isDirectItem x = true)
        (fun x y => hasId y ∧ (hasId x → y = x) ∧ (¬ hasId x → DirectFill x y))
        (fun k x hx => directItem_fill mint k x hx.1 hx.2) xs k
        (fun x hx => ⟨hxs x hx, hd x hx⟩)
    exact ⟨out, k1, by rw [monitor_direct, hout], by rw [put_direct, hout], hF⟩
  · intro t ht hparse
    obtain ⟨out, k1, hout, hF⟩ :=
      mapItems_forall₂ (parsedItem mint) (fun x => isObj x = true)
        (fun x y => hasId y ∧ (hasId x → y = x))
        (fun k x hx => parsedItem_keep mint k x hx) xs k hxs
    obtain ⟨h1, h2, h3, h4⟩ := write_parsed_array parse mint k k1 t xs out hs ht hparse hout
    exact ⟨out, k1, h1, h2, h3, h4, hF⟩

/-- C18 amended, at the sample records given directly. -/
theorem C18_records_get_ids_and_direct_defaults_witness :
    ∃ out k1,
      monitorConditions parseSample mintSample 0 (.arr sampleRecords) .undefined =
        (some out, k1) ∧
      putConditions parseSample mintSample 0 (.arr sampleRecords) .undefined = (some out, k1) ∧
      List.Forall₂
        (fun x y => hasId y ∧ (hasId x → y = x) ∧ (¬ hasId x → DirectFill x y))
        sampleRecords out :=
  (C18_records_get_ids_and_direct_defaults parseSample mintSample 0 sampleRecords .undefined
    (by decide)).1 (by decide)

/-- C19: whatever `JSON.parse` does, when `health_conditions` and `health_status`
are strings or absent the normalisation of `POST /health/monitor` and of `PUT
/members/:id` produces a condition sequence and no exception reaches the outer
catch; a text that does not parse falls through to the string handling of its
branch: one condition named by the whole text for `health_conditions` of `POST
/health/monitor`, the comma split elsewhere. -/
theorem C19_string_inputs_never_throw (parse : String → Option JsVal) (mint : Mint)
    (k : Nat) :
    (∀ hc hs : Option String,
      (monitorConditions parse mint k (optStr hc) (optStr hs)).1.isSome = true ∧
      (putConditions parse mint k (optStr hc) (optStr hs)).1.isSome = true) ∧
    (∀ (s : String) (hs : JsVal), s ≠ "" → parse s = none →
      monitorConditions parse mint k (.str s) hs =
        (some [condition (mintId mint k) (.str s) (.str "moderate")], k + 1) ∧
      putConditions parse mint k (.str s) hs =
        (some (mintAll mint k ((jsSplit s).map jsTrim)), k + (jsSplit s).length) ∧
      monitorConditions parse mint k .undefined (.str s) =
        (some (mintAll mint k ((jsSplit s).map jsTrim)), k + (jsSplit s).length) ∧
      putConditions parse mint k .undefined (.str s) =
        (some (mintAll mint k ((jsSplit s).map jsTrim)), k + (jsSplit s).length)) := by
  constructor
  · intro hc hs
    have key : ∀ v : JsVal, v.truthy = false →
        (monitorConditions parse mint k v (optStr hs)).1.isSome = true ∧
        (putConditions parse mint k v (optStr hs)).1.isSome = true := by
      intro v hv
      cases hs with
      | none =>
        have hu : JsVal.undefined.truthy = false := rfl
        simp [optStr, monitorConditions, putConditions, hv, hu]
      | some t =>
        exact ⟨monitor_str_status parse mint k v t hv, put_str_status parse mint k v t hv⟩
    cases hc with
    | none => exact key .undefined rfl
    | some s =>
      by_cases h : s = ""
      · subst h
        exact key (.str "") rfl
      · exact ⟨monitor_str_conditions parse mint k s _ h, put_str_conditions parse mint k s _ h⟩
  · intro s hs h hp
    have htr : (JsVal.str s).truthy = true := by simp [JsVal.truthy, h]
    refine ⟨?_, ?_, ?_, ?_⟩
    · simp [monitorConditions, htr, hp, tryParse]
    · simp [putConditions, htr, hp, tryParse]
    · simp [monitorConditions, JsVal.truthy, h, JsVal.toStr, hp, tryParse, tryParseOf]
    · simp [putConditions, JsVal.truthy, h, JsVal.toStr, hp, tryParse, tryParseOf]

/-- C20, the claim as stated fails.  With an injective identifier source, two
records that carry the same id are both returned as they are by `POST
/health/monitor` and by `PUT /members/:id`, so the ids of the output are not
pairwise distinct. -/
theorem C20_carried_duplicates_are_kept :
    Function.Injective mintUnary ∧
    monitorConditions parseSample mintUnary 0 (.arr sampleTwins) .undefined =
      (some sampleTwins, 0) ∧
    putConditions parseSample mintUnary 0 (.arr sampleTwins) .undefined =
      (some sampleTwins, 0) ∧
    sampleTwins.map idOf = [.str "c1", .str "c1"] ∧
    ¬ (sampleTwins.map idOf).Nodup := by
  refine ⟨mintUnary_injective, rfl, rfl, rfl, ?_⟩
  have h : sampleTwins.map idOf = [.str "c1", .str "c1"] := rfl
  rw [h]
  simp

/-- C20, amended: given an identifier source that never returns the same value
twice, for every health input (`health_conditions` absent, a string or an array
of strings and objects on which the conversion `String(item)` does not throw;
`health_status` absent or a string) in which the ids
carried by the records are pairwise distinct and are not values of the source,
`POST /health/monitor` and `PUT /members/:id` return a sequence whose ids are
pairwise distinct. -/
theorem C20_ids_distinct_when_carried_ids_are (parse : String → Option JsVal) (mint : Mint)
    (k : Nat) (hc : JsVal) (hs : Option String) (hinj : Function.Injective mint)
    (hshape : isDirectInput hc = true)
    (hnd : (carriedIds (itemsOf parse (effectiveInput hc (optStr hs)))).Nodup)
    (hfresh : ∀ c ∈ carriedIds (itemsOf parse (effectiveInput hc (optStr hs))),
      ∀ j, c ≠ mintId mint j) :
    (∃ out k1, monitorConditions parse mint k hc (optStr hs) = (some out, k1) ∧
      (out.map idOf).Nodup) ∧
    (∃ out k1, putConditions parse mint k hc (optStr hs) = (some out, k1) ∧
      (out.map idOf).Nodup) := by
  show DistinctIds _ ∧ DistinctIds _
  have hu : JsVal.undefined.truthy = false := rfl
  have he : (JsVal.str "").truthy = false := rfl
  have status : ∀ v : JsVal, v = .undefined ∨ v = .str "" →
      (carriedIds (itemsOf parse (optStr hs))).Nodup →
      (∀ c ∈ carriedIds (itemsOf parse (optStr hs)), ∀ j, c ≠ mintId mint j) →
      DistinctIds (monitorConditions parse mint k v (optStr hs)) ∧
      DistinctIds (putConditions parse mint k v (optStr hs)) := by
    intro v hv hnd1 hfresh1
    have hvt : v.truthy = false := by rcases hv with rfl | rfl <;> rfl
    cases hs with
    | none =>
      simp only [optStr, monitorConditions, putConditions, hvt, hu, Bool.or_self,
        Bool.false_eq_true, if_false]
      exact ⟨distinctIds_nil k, distinctIds_nil k⟩
    | some t =>
      by_cases ht : t = ""
      · subst ht
        simp only [optStr, monitorConditions, putConditions, hvt, he, Bool.or_self,
          Bool.false_eq_true, if_false]
        exact ⟨distinctIds_nil k, distinctIds_nil k⟩
      · obtain ⟨-, -, h3, h4, h5, h6⟩ :=
          string_field_distinct parse mint hinj k t .undefined ht hnd1 hfresh1
        rcases hv with rfl | rfl
        · exact ⟨h3, h4⟩
        · exact ⟨h5, h6⟩
  cases hc with
  | undefined =>
    simp only [effectiveInput, hu, Bool.false_eq_true, if_false] at hnd hfresh
    exact status _ (Or.inl rfl) hnd hfresh
  | str s =>
    by_cases h : s = ""
    · subst h
      simp only [effectiveInput, he, Bool.false_eq_true, if_false] at hnd hfresh
      exact status _ (Or.inr rfl) hnd hfresh
    · have htr : (JsVal.str s).truthy = true := by simp [JsVal.truthy, h]
      simp only [effectiveInput, htr, if_true] at hnd hfresh
      obtain ⟨h1, h2, -⟩ := string_field_distinct parse mint hinj k s (optStr hs) h hnd hfresh
      exact ⟨h1, h2⟩
  | arr xs =>
    have htr : (JsVal.arr xs).truthy = true := rfl
    simp only [effectiveInput, htr, if_true, itemsOf] at hnd hfresh
    have hxs : ∀ x ∈ xs, isDirectItem x = true := by
      simpa [isDirectInput, List.all_eq_true] using hshape
    obtain ⟨out, k1, hout, -⟩ :=
      mapItems_forall₂ (directItem mint) (fun x => isDirectItem x = true) (fun _ _ => True)
        (fun k x hx => by
          obtain ⟨y, k1, h1, -⟩ := directItem_cond mint k x hx
          exact ⟨y, k1, h1, trivial⟩) xs k hxs
    have hnodup := mapItems_nodup mint hinj (fun x => isCondItem x = true) (directItem mint)
      (directItem_spec mint) xs k out k1 (fun x hx => isDirectItem_cond x (hxs x hx)) hout
      hnd hfresh
    exact ⟨⟨out, k1, by rw [monitor_direct, hout], hnodup⟩,
      ⟨out, k1, by rw [put_direct, hout], hnodup⟩⟩
  | null => simp [isDirectInput] at hshape
  | bool b => simp [isDirectInput] at hshape
  | num t => simp [isDirectInput] at hshape
  | obj fields => simp [isDirectInput] at hshape

/-- C20 amended, at the sample input, which carries the single id c1. -/
theorem C20_ids_distinct_when_carried_ids_are_witness :
    (∃ out k1, monitorConditions parseSample mintUnary 0 (.arr sampleItems) (optStr none) =
        (some out, k1) ∧ (out.map idOf).Nodup) ∧
    (∃ out k1, putConditions parseSample mintUnary 0 (.arr sampleItems) (optStr none) =
        (some out, k1) ∧ (out.map idOf).Nodup) :=
  C20_ids_distinct_when_carried_ids_are parseSample mintUnary 0 (.arr sampleItems) none
    mintUnary_injective (by decide)
    (show ([.str "c1"] : List JsVal).Nodup from List.nodup_singleton _)
    (show ∀ c ∈ ([.str "c1"] : List JsVal), ∀ j, c ≠ mintId mintUnary j from by
      intro c hc j h
      simp only [List.mem_singleton] at hc
      subst hc
      simp only [mintId, JsVal.str.injEq] at h
      have h1 := congrArg String.length h
      simp only [String.length_append] at h1
      have h2 : ("c1" : String).length = 2 := by decide
      have h3 : ("hc-" : String).length = 3 := by decide
      omega)

/-- C21, counterexample: `POST /members` with the health status
"diabetes, hypertension" answers 201 and stores the JSON text of the two names,
an array of strings and not of records; `POST /health/monitor` with the single
condition object of id "c1" and name "flu" answers 201 and stores that object
as sent, a record without severity. -/
theorem C21_stored_text_is_not_always_condition_records :
    (postMember parseSample noFault sampleStore (sampleCols "m3") .undefined
      (.str "diabetes, hypertension") .undefined).1.code = 201 ∧
    ((postMember parseSample noFault sampleStore (sampleCols "m3") .undefined
      (.str "diabetes, hypertension") .undefined).2.members 3).map
        (fun m => m.health_status) = some (some "[\"diabetes\",\"hypertension\"]") ∧
    (postMonitorRequest parseSample mintSample 0 noFault sampleStore (some 2)
      (.arr [.obj [("id", .str "c1"), ("name", .str "flu")]]) .undefined none none).1.code
        = 201 ∧
    ((postMonitorRequest parseSample mintSample 0 noFault sampleStore (some 2)
      (.arr [.obj [("id", .str "c1"), ("name", .str "flu")]]) .undefined none none).2.members
        2).map (fun m => m.health_status) =
      some (some "[\x7b\"id\":\"c1\",\"name\":\"flu\"\x7d]") ∧
    severityOf (.obj [("id", .str "c1"), ("name", .str "flu")]) = .undefined :=
  ⟨by decide, by decide, by decide, by decide, by rfl⟩

/-- C21, amended: on an existing member and without database fault, `POST
/health/monitor` and `PUT /members/:id` with non-empty health input
(`health_conditions` absent, a string or an array of strings and objects on
which the conversion `String(item)` does not throw; `health_status` absent or a
string) store the JSON text of the sequence that the handler computes, and every
element of that sequence carries a truthy id; the answer is 201, respectively
200, exactly when the text of the answer can be built, and 500 with the column
written otherwise.  `POST /members` with an array of names answers 201 and
stores the JSON text of that array of names. -/
theorem C21_stored_health_text (parse : String → Option JsVal)
    (positive : JsVal → Option Bool) (mint : Mint) (k : Nat)
    (s : Store) (mid : Id) (m : MemberRow) (hc : JsVal) (hs : Option String)
    (worker : Option String) (detail : Option (Option String))
    (updateData : MemberRow → MemberCols) (cols : MemberCols) (names : List JsVal)
    (status notes : JsVal)
    (hm : s.members mid = some m) (hshape : isDirectInput hc = true)
    (hne : (hc.truthy || (optStr hs).truthy) = true)
    (hname : truthyStr cols.name = true) (hage : truthyNat cols.age = true)
    (hnames : ∀ x ∈ names, x.isString = true) :
    (∃ out k1, monitorConditions parse mint k hc (optStr hs) = (some out, k1) ∧
      (∀ y ∈ out, hasId y) ∧
      ((postMonitorRequest parse mint k noFault s (some mid) hc (optStr hs) worker
        detail).2.members mid).map (fun r => r.health_status) =
          some (some (jsonStringify out)) ∧
      ((postMonitorRequest parse mint k noFault s (some mid) hc (optStr hs) worker
        detail).1.code = 201 ↔ (statusText out).isSome = true) ∧
      ((postMonitorRequest parse mint k noFault s (some mid) hc (optStr hs) worker
        detail).1.code = 201 ∨
       (postMonitorRequest parse mint k noFault s (some mid) hc (optStr hs) worker
        detail).1.code = 500)) ∧
    (∃ out k1, putConditions parse mint k hc (optStr hs) = (some out, k1) ∧
      (∀ y ∈ out, hasId y) ∧
      ((putMemberRequest parse positive mint k noFault s mid updateData hc
        (optStr hs)).2.members mid).map (fun r => r.health_status) =
          some (some (jsonStringify out)) ∧
      ((putMemberRequest parse positive mint k noFault s mid updateData hc
        (optStr hs)).1.code = 200 ↔
          putAnswerOk parse positive (some (jsonStringify out)) = true) ∧
      ((putMemberRequest parse positive mint k noFault s mid updateData hc
        (optStr hs)).1.code = 200 ∨
       (putMemberRequest parse positive mint k noFault s mid updateData hc
        (optStr hs)).1.code = 500)) ∧
    (postMember parse noFault s cols (.arr names) status notes).1.code = 201 ∧
    ((postMember parse noFault s cols (.arr names) status notes).2.members
      s.nextMemberId).map (fun r => r.health_status) = some (some (jsonStringify names)) := by
  obtain ⟨⟨o1, k1, h1, a1⟩, ⟨o2, k2, h2, a2⟩⟩ := write_paths_allIds parse mint k hc hs hshape hne
  have hmon : postMonitor noFault s (some mid) worker (some (jsonStringify o1)) detail =
      (⟨201, "健康数据添加成功"⟩,
        s.setMember mid fun r =>
          { r with
            responsibility_worker :=
              if truthyStr worker then worker else r.responsibility_worker
            health_status := some (jsonStringify o1)
            health_detail :=
              match detail with
              | some d => d
              | none => r.health_detail }) := by
    simp [postMonitor, jsonStringify_truthy, noFault]
  have hput : putMember noFault s mid (fun current =>
      { updateData current with health_status := some (jsonStringify o2) }) =
      (⟨200, "老人信息更新成功"⟩,
        s.setMember mid fun r =>
          { r with toMemberCols :=
            { updateData m with health_status := some (jsonStringify o2) } }) := by
    simp [putMember, noFault, hm]
  have hjoin : (joinedText names).isSome = true := joinedText_names names hnames
  obtain ⟨text, htext⟩ := Option.isSome_iff_exists.1 hjoin
  refine ⟨⟨o1, k1, h1, a1, ?_, ?_, ?_⟩, ⟨o2, k2, h2, a2, ?_, ?_, ?_⟩, ?_, ?_⟩
  · simp only [postMonitorRequest, h1, hne, if_true, hmon]
    cases statusText o1 <;> simp [hm]
  · simp only [postMonitorRequest, h1, hne, if_true, hmon]
    cases statusText o1 <;> simp [serverError]
  · simp only [postMonitorRequest, h1, hne, if_true, hmon]
    cases statusText o1 <;> simp [serverError]
  · simp only [putMemberRequest, h2, hne, if_true, hput, putAnswer]
    split <;> simp [hm]
  · simp only [putMemberRequest, h2, hne, if_true, hput, putAnswer]
    simp only [if_true, setMember_members, hm, Option.map_some', Option.bind_some]
    split <;> simp_all [serverError]
  · simp only [putMemberRequest, h2, hne, if_true, hput, putAnswer]
    split <;> simp [serverError]
  · simp [postMember, createHealth, mapOpt_names names hnames, createMember, hname, hage,
      noFault, htext]
  · simp [postMember, createHealth, mapOpt_names names hnames, createMember, hname, hage,
      noFault, htext]

/-- C21, witness: member 2 of the sample store with the health status
"diabetes, hypertension", which both handlers store as the JSON text of the two
conditions and answer with success, and a new member with the names diabetes
and hypertension. -/
theorem C21_stored_health_text_witness :
    ((postMonitorRequest parseStored mintSample 0 noFault sampleStore (some 2) .undefined
      (.str "diabetes, hypertension") none none).2.members 2).map (fun r => r.health_status) =
      some (some (jsonStringify sampleConditions)) ∧
    (postMonitorRequest parseStored mintSample 0 noFault sampleStore (some 2) .undefined
      (.str "diabetes, hypertension") none none).1.code = 201 ∧
    ((putMemberRequest parseStored (fun _ => some false) mintSample 0 noFault sampleStore 2
      (fun r => r.toMemberCols) .undefined (.str "diabetes, hypertension")).2.members 2).map
        (fun r => r.health_status) = some (some (jsonStringify sampleConditions)) ∧
    (putMemberRequest parseStored (fun _ => some false) mintSample 0 noFault sampleStore 2
      (fun r => r.toMemberCols) .undefined (.str "diabetes, hypertension")).1.code = 200 ∧
    ((postMember parseStored noFault sampleStore (sampleCols "m3")
      (.arr [.str "diabetes", .str "hypertension"]) .undefined .undefined).2.members 3).map
        (fun r => r.health_status) = some (some "[\"diabetes\",\"hypertension\"]") := by
  have h := C21_stored_health_text parseStored (fun _ => some false) mintSample 0 sampleStore 2
    ⟨sampleCols "m2", none⟩ .undefined (some "diabetes, hypertension") none none
    (fun r => r.toMemberCols) (sampleCols "m3") [.str "diabetes", .str "hypertension"]
    .undefined .undefined (by decide) rfl rfl (by decide) (by decide) (by decide)
  obtain ⟨⟨o1, k1, h1, -, h3, h4, -⟩, ⟨o2, k2, h5, -, h6, h7, -⟩, -, h8⟩ := h
  have e1 : monitorConditions parseStored mintSample 0 .undefined
      (optStr (some "diabetes, hypertension")) = (some sampleConditions, 2) := by rfl
  have e2 : putConditions parseStored mintSample 0 .undefined
      (optStr (some "diabetes, hypertension")) = (some sampleConditions, 2) := by rfl
  rw [e1] at h1
  rw [e2] at h5
  simp only [Prod.mk.injEq, Option.some.injEq] at h1 h5
  obtain ⟨rfl, -⟩ := h1
  obtain ⟨rfl, -⟩ := h5
  exact ⟨h3, h4.2 (by rfl), h6, h7.2 (by decide), h8⟩

/-- C22, the claim as stated fails.  A stored gender other than the two known
codes is shown as the label of female, and so is a NULL gender. -/
theorem C22_unknown_gender_is_shown_as_female :
    displayGender (some "other") = some "女" ∧
    displayGender (some "other") ≠ some "other" ∧
    displayGender none = some "女" := by
  decide

/-- C22, amended: the display of `care_level` and of `status` maps each known code
to its label and leaves every other stored value unchanged; the display of
`gender` maps `male` to its label and every other stored value to the label of
female. -/
theorem C22_display_labels :
    (displayGender (some "male") = some "男" ∧ displayGender (some "female") = some "女" ∧
      ∀ g, g ≠ some "male" → displayGender g = some "女") ∧
    (displayCareLevel (some "self-care") = some "自理" ∧
      displayCareLevel (some "semi-care") = some "介助" ∧
      displayCareLevel (some "full-care") = some "全护理" ∧
      displayCareLevel (some "special-care") = some "特护" ∧
      ∀ c, c ≠ some "self-care" → c ≠ some "semi-care" → c ≠ some "full-care" →
        c ≠ some "special-care" → displayCareLevel c = c) ∧
    (displayStatus (some "active") = some "在住" ∧
      displayStatus (some "inactive") = some "离开" ∧
      displayStatus (some "deceased") = some "过世" ∧
      ∀ t, t ≠ some "active" → t ≠ some "inactive" → t ≠ some "deceased" →
        displayStatus t = t) ∧
    (displayStatusList (some "active") = some "在住" ∧
      displayStatusList (some "on_leave") = some "离开" ∧
      displayStatusList (some "inactive") = some "离开" ∧
      displayStatusList (some "deceased") = some "过世" ∧
      ∀ t, t ≠ some "active" → t ≠ some "on_leave" → t ≠ some "inactive" →
        t ≠ some "deceased" → displayStatusList t = t) := by
  refine ⟨⟨by decide, by decide, ?_⟩, ⟨by decide, by decide, by decide, by decide, ?_⟩,
    ⟨by decide, by decide, by decide, ?_⟩, ⟨by decide, by decide, by decide, by decide, ?_⟩⟩
  · intro g hg
    simp [displayGender, hg]
  · intro c h1 h2 h3 h4
    simp [displayCareLevel, h1, h2, h3, h4]
  · intro t h1 h2 h3
    simp [displayStatus, h1, h2, h3]
  · intro t h1 h2 h3 h4
    simp [displayStatusList, h1, h2, h3, h4]

/-- C23: when the SELECT of the guard does not throw, `isAdmin` passes the request
on exactly when the Authorization header carries a second word that verifies and
the user of the token has a row with role admin; it answers 401 when there is no
such word, when it does not verify or when the user has no row, and 403 when the
user has a row with another role; a request that is not passed on leaves the
store as it is, for both guarded deletes. -/
theorem C23_admin_guard (verify : String → Option JwtPayload)
    (users : Id → Option (Option String)) (fault : Fault) (authorization : Option String)
    (hf : fault 1 = false) :
    (isAdmin verify users fault authorization = .next ↔
      ∃ token payload uid, headerToken authorization = some token ∧ token ≠ "" ∧
        verify token = some payload ∧ payload.id = some uid ∧
        users uid = some (some "admin")) ∧
    ((headerToken authorization = none ∨ headerToken authorization = some "" ∨
        (headerToken authorization).bind verify = none) →
      isAdmin verify users fault authorization = .reject ⟨401, "未登录或登录已过期"⟩) ∧
    (∀ token payload, headerToken authorization = some token → token ≠ "" →
      verify token = some payload → payload.id.bind users = none →
      isAdmin verify users fault authorization = .reject ⟨401, "用户不存在"⟩) ∧
    (∀ token payload uid role, headerToken authorization = some token → token ≠ "" →
      verify token = some payload → payload.id = some uid → users uid = some role →
      role ≠ some "admin" →
      isAdmin verify users fault authorization = .reject ⟨403, "权限不足"⟩) ∧
    (∀ resp, isAdmin verify users fault authorization = .reject resp →
      ∀ fault2 s id,
        guardedDeleteBed verify users fault fault2 authorization s id = (resp, s) ∧
        guardedDeleteMember verify users fault fault2 authorization s id = (resp, s)) := by
  refine ⟨?_, ?_, ?_, ?_, ?_⟩
  · constructor
    · intro h
      unfold isAdmin at h
      cases ht : headerToken authorization with
      | none => simp [ht, truthyStr] at h
      | some token =>
        by_cases hne : token = ""
        · simp [ht, hne, truthyStr] at h
        · cases hv : verify token with
          | none => simp [ht, hne, truthyStr, hv] at h
          | some payload =>
            cases hid : payload.id with
            | none => simp [ht, hne, truthyStr, hv, hf, hid] at h
            | some uid =>
              cases hu : users uid with
              | none => simp [ht, hne, truthyStr, hv, hf, hid, hu] at h
              | some role =>
                by_cases hr : role = some "admin"
                · subst hr
                  exact ⟨token, payload, uid, rfl, hne, hv, hid, hu⟩
                · simp [ht, hne, truthyStr, hv, hf, hid, hu, hr] at h
    · rintro ⟨token, payload, uid, ht, hne, hv, hid, hu⟩
      simp [isAdmin, ht, hne, truthyStr, hv, hf, hid, hu]
  · intro h
    unfold isAdmin
    rcases h with h | h | h
    · simp [h, truthyStr]
    · simp [h, truthyStr]
    · simp [h]
  · intro token payload ht hne hv hu
    simp [isAdmin, ht, hne, truthyStr, hv, hf, hu]
  · intro token payload uid role ht hne hv hid hu hr
    simp [isAdmin, ht, hne, truthyStr, hv, hf, hid, hu, hr]
  · intro resp h fault2 s id
    simp [guardedDeleteBed, guardedDeleteMember, h]

/-- C23 at the examples: the admin token reaches the handler, the staff token is
answered 403 and a missing header 401, and a rejected delete changes nothing. -/
theorem C23_admin_guard_witness :
    noFault 1 = false ∧
    isAdmin verifySample usersSample noFault (some "Bearer good") = .next ∧
    isAdmin verifySample usersSample noFault (some "Bearer staff") =
      .reject ⟨403, "权限不足"⟩ ∧
    isAdmin verifySample usersSample noFault none = .reject ⟨401, "未登录或登录已过期"⟩ ∧
    guardedDeleteBed verifySample usersSample noFault noFault (some "Bearer staff")
      sampleStore 1 = (⟨403, "权限不足"⟩, sampleStore) :=
  ⟨rfl,
    (C23_admin_guard verifySample usersSample noFault (some "Bearer good") rfl).1.2
      ⟨"good", ⟨some 1⟩, 1, by decide, by decide, by decide, rfl, by decide⟩,
    (C23_admin_guard verifySample usersSample noFault (some "Bearer staff") rfl).2.2.2.1
      "staff" ⟨some 2⟩ 2 (some "staff") (by decide) (by decide) (by decide) rfl (by decide)
      (by decide),
    (C23_admin_guard verifySample usersSample noFault none rfl).2.1 (Or.inl rfl),
    ((C23_admin_guard verifySample usersSample noFault (some "Bearer staff") rfl).2.2.2.2
      ⟨403, "权限不足"⟩ (by decide) noFault sampleStore 1).1⟩

/-- C24: on every store with a bed `B` of status available and two members `M1`
and `M2` without a bed, when the bed SELECTs of both requests run before either
transaction, both requests answer 200; bed `B` then records `M2` as occupant
while both member rows carry `B`.  When the first request answers before the
second starts, the second answers 400 bed unavailable. -/
theorem C24_both_concurrent_assigns_succeed (s : Store) (B M1 M2 : Id) (bed : BedRow)
    (m1 m2 : MemberRow) (hb : s.beds B = some bed) (ha : bed.status = some "available")
    (h1 : s.members M1 = some m1) (h2 : s.members M2 = some m2)
    (hn1 : m1.bed_id = none) (hn2 : m2.bed_id = none) :
    (race M1 M2 B s alternating).first = .answered ⟨200, "床位分配成功"⟩ ∧
    (race M1 M2 B s alternating).second = .answered ⟨200, "床位分配成功"⟩ ∧
    ((race M1 M2 B s alternating).store.beds B).map (fun b => b.current_member_id) =
      some (some M2) ∧
    ((race M1 M2 B s alternating).store.members M1).map (fun m => m.bed_id) =
      some (some B) ∧
    ((race M1 M2 B s alternating).store.members M2).map (fun m => m.bed_id) =
      some (some B) ∧
    (race M1 M2 B s oneAfterTheOther).first = .answered ⟨200, "床位分配成功"⟩ ∧
    (race M1 M2 B s oneAfterTheOther).second = .answered ⟨400, "床位不可用"⟩ := by
  have e1 : (race M1 M2 B s alternating) =
      ⟨.answered ⟨200, "床位分配成功"⟩, .answered ⟨200, "床位分配成功"⟩,
        (((s.setBed B (occupyBed M1)).setMember M1 (setBedId (some B))).setBed B
          (occupyBed M2)).setMember M2 (setBedId (some B))⟩ := by
    simp [race, alternating, raceStep, assignStep, hb, ha, h1, h2, hn1, hn2,
      assignTransaction, noFault]
  have e2 : (race M1 M2 B s oneAfterTheOther).first = .answered ⟨200, "床位分配成功"⟩ ∧
      (race M1 M2 B s oneAfterTheOther).second = .answered ⟨400, "床位不可用"⟩ := by
    simp [race, oneAfterTheOther, raceStep, assignStep, hb, ha, h1, hn1,
      assignTransaction, noFault, Store.setBed, Store.setMember, occupyBed]
  rw [e1]
  refine ⟨rfl, rfl, ?_, ?_, ?_, e2.1, e2.2⟩
  · simp [Store.setBed, Store.setMember, occupyBed, hb]
  · by_cases h : M1 = M2
    · subst h
      simp [Store.setBed, Store.setMember, setBedId, h1]
    · simp [Store.setBed, Store.setMember, setBedId, h1, h]
  · by_cases h : M2 = M1
    · subst h
      simp [Store.setBed, Store.setMember, setBedId, h2]
    · simp [Store.setBed, Store.setMember, setBedId, h2, h]

/-- C24, witness: bed 1 and members 1 and 2 of the store `raceStore`. -/
theorem C24_both_concurrent_assigns_succeed_witness :
    (race 1 2 1 raceStore alternating).first = .answered ⟨200, "床位分配成功"⟩ ∧
    (race 1 2 1 raceStore alternating).second = .answered ⟨200, "床位分配成功"⟩ ∧
    ((race 1 2 1 raceStore alternating).store.beds 1).map (fun b => b.current_member_id) =
      some (some 2) ∧
    ((race 1 2 1 raceStore alternating).store.members 1).map (fun m => m.bed_id) =
      some (some 1) ∧
    ((race 1 2 1 raceStore alternating).store.members 2).map (fun m => m.bed_id) =
      some (some 1) ∧
    (race 1 2 1 raceStore oneAfterTheOther).first = .answered ⟨200, "床位分配成功"⟩ ∧
    (race 1 2 1 raceStore oneAfterTheOther).second = .answered ⟨400, "床位不可用"⟩ :=
  C24_both_concurrent_assigns_succeed raceStore 1 1 2 (sampleBed "available" none)
    ⟨sampleCols "m1", none⟩ ⟨sampleCols "m2", none⟩ (by decide) (by decide) (by decide)
    (by decide) rfl rfl

/-- C25: the two copies differ on a `health_conditions` string.  A text that is
not JSON becomes one condition named by the whole text in `POST /health/monitor`
and one condition per comma segment in `PUT /members/:id`; a JSON text of a
string becomes a condition named by the text as sent in the former and by the
parsed string in the latter.  On every array the two copies return the same
sequence. -/
theorem C25_normaliser_copies_differ_on_strings :
    parseSample "diabetes, hypertension" = none ∧
    monitorConditions parseSample mintSample 0 (.str "diabetes, hypertension") .undefined =
      (some [condition (.str "hc-0") (.str "diabetes, hypertension") (.str "moderate")], 1) ∧
    putConditions parseSample mintSample 0 (.str "diabetes, hypertension") .undefined =
      (some [condition (.str "hc-0") (.str "diabetes") (.str "moderate"),
        condition (.str "hc-1") (.str "hypertension") (.str "moderate")], 2) ∧
    parseLiteral "\"flu\"" = some (.str "flu") ∧
    monitorConditions parseLiteral mintSample 0 (.str "\"flu\"") .undefined =
      (some [condition (.str "hc-0") (.str "\"flu\"") (.str "moderate")], 1) ∧
    putConditions parseLiteral mintSample 0 (.str "\"flu\"") .undefined =
      (some [condition (.str "hc-0") (.str "flu") (.str "moderate")], 1) ∧
    ∀ (parse : String → Option JsVal) (mint : Mint) (k : Nat) (xs : List JsVal) (hs : JsVal),
      monitorConditions parse mint k (.arr xs) hs = putConditions parse mint k (.arr xs) hs :=
  ⟨by rfl, by rfl, by rfl, by rfl, by rfl, by rfl, fun parse mint k xs hs => by
    rw [monitor_direct, put_direct]⟩

end Backend
